import Mathlib

/-!
# ML-DSA test-vector converter: embedding of `pkg/testvector`

A shallow embedding of the Go package `testvector` (files `helpers.go`,
`parameter_set.go`, `test_vector.go`) and the properties proved about it.

Conventions of the embedding:

* a Go `string` is a sequence of bytes, and the package only ever treats it as one; it
  is a `List Char` (`Str`) with one element per byte, the byte `b` being the character
  of code `b` (a known-answer file is ASCII text and reads as itself), so the length of
  a `Str` is the length of the string in bytes;
* a Go `[]byte` is a `List Nat` (`Bytes`), conversions to `uint8` being written as an
  explicit `% 256`;
* a Go function returning `(T, error)` returns `Except E T`, where `E` lists the
  error sites of that function, each constructor carrying the values the Go
  code formats into its message;
* code that can panic returns an `Outcome`, which separates a returned error
  from a panic;
* library code (`encoding/hex`, `strings`, `bufio.Scanner`, `crypto/sha3`) is
  modelled from its documented behaviour, closely enough to follow the Go
  implementation line by line where the package depends on it.
-/

set_option autoImplicit false

deriving instance DecidableEq for Except

namespace Testvector

/-! ## Basic data -/

/-- A Go string, as the list of its bytes: one character per byte. -/
abbrev Str := List Char

/-- A Go byte slice. Every byte the code produces is below 256. -/
abbrev Bytes := List Nat

/-- A message or a display name, where the characters are never inspected. -/
abbrev Text : Type := String

/-- Conversion of a length to `uint8`: Go keeps the low eight bits. -/
def uint8 (n : Nat) : Nat := n % 256

/-! ## `encoding/hex` -/

/-- The two errors of `encoding/hex`: `InvalidByteError` and `ErrLength`. -/
inductive HexError where
  | invalidByte (c : Char)
  | length
  deriving DecidableEq, Repr

/-- The characters accepted as hexadecimal digits. -/
def hexDigits : Str := "0123456789abcdefABCDEF".toList

/-- Value of a hexadecimal digit (`reverseHexTable` of `encoding/hex`); `none` for
every other character. -/
def fromHexChar (c : Char) : Option Nat :=
  let n := c.toNat
  if 48 ≤ n ∧ n ≤ 57 then some (n - 48)
  else if 97 ≤ n ∧ n ≤ 102 then some (n - 97 + 10)
  else if 65 ≤ n ∧ n ≤ 70 then some (n - 65 + 10)
  else none

/-- Go `hex.DecodeString`: pairs of digits are decoded left to right; the first
invalid character is reported, and an odd length is reported only when every
character before the end is valid. -/
def DecodeString : Str → Except HexError Bytes
  | [] => .ok []
  | [p] =>
    match fromHexChar p with
    | none => .error (.invalidByte p)
    | some _ => .error .length
  | p :: q :: rest =>
    match fromHexChar p with
    | none => .error (.invalidByte p)
    | some a =>
      match fromHexChar q with
      | none => .error (.invalidByte q)
      | some b =>
        match DecodeString rest with
        | .error e => .error e
        | .ok bs => .ok ((a * 16 + b) :: bs)

/-- The lower-case digit of a value below 16 (`hextable` of `encoding/hex`). -/
def hexDigit (v : Nat) : Char :=
  if v < 10 then Char.ofNat (48 + v) else Char.ofNat (87 + v)

/-- Go `hex.EncodeToString`: two lower-case digits per byte, high nibble first. -/
def EncodeToString : Bytes → Str
  | [] => []
  | b :: bs => hexDigit (b / 16) :: hexDigit (b % 16) :: EncodeToString bs

/-- The two error sites of `decodeHexAndCheckLength`. -/
inductive DecodeError where
  | decodingHex (e : HexError)
  | unexpectedLength (n : Nat)
  deriving DecidableEq, Repr

/-- `decodeHexAndCheckLength` (helpers.go, lines 15-24). -/
def decodeHexAndCheckLength (data : Str) (expectedLength : Int) : Except DecodeError Bytes :=
  match DecodeString data with
  | .error e => .error (.decodingHex e)
  | .ok decoded =>
    if (decoded.length : Int) ≠ expectedLength then .error (.unexpectedLength decoded.length)
    else .ok decoded

/-! ## `strings.Index`, `strings.Count`, `strings.Split` -/

/-- Go `strings.Index`: position of the first occurrence of `substr` in `s`. -/
def Index : Str → Str → Option Nat
  | [], substr => if substr = [] then some 0 else none
  | c :: cs, substr =>
    if substr.isPrefixOf (c :: cs) then some 0
    else (Index cs substr).map (fun i => i + 1)

/-- Go `strings.Contains`. -/
def Contains (s substr : Str) : Bool := (Index s substr).isSome

/-- The loop of `strings.Count`: find the first occurrence, count it, continue
after it. The first argument bounds the number of iterations. -/
def countLoop (substr : Str) : Nat → Str → Nat
  | 0, _ => 0
  | fuel + 1, s =>
    match Index s substr with
    | none => 0
    | some i => 1 + countLoop substr fuel (s.drop (i + substr.length))

/-- Go `strings.Count`: the number of non-overlapping occurrences of `substr`,
found left to right. An occurrence of a non-empty `substr` consumes at least one
character, so `s.length` iterations are enough. -/
def Count (s substr : Str) : Nat :=
  if substr = [] then s.length + 1 else countLoop substr s.length s

/-- The loop of `genSplit`: at most `n` cuts, each at the first occurrence of
`sep` in what is left. -/
def splitLoop (sep : Str) : Nat → Str → List Str
  | 0, s => [s]
  | n + 1, s =>
    match Index s sep with
    | none => [s]
    | some m => s.take m :: splitLoop sep n (s.drop (m + sep.length))

/-- Go `strings.Split` (`genSplit` with `n = -1`): an empty separator explodes the
string into characters; otherwise the number of pieces is `Count + 1`, capped
by `len(s) + 1`. -/
def Split (s sep : Str) : List Str :=
  if sep = [] then s.map (fun c => [c])
  else splitLoop sep (min (Count s sep + 1) (s.length + 1) - 1) s

/-! ## Scanning `key = value` lines -/

/-- The separator of `getKeyValue`. -/
def kvSep : Str := " = ".toList

/-- An error reported by `bufio.Scanner.Err`: the error of the reader, which is not
`io.EOF` and does not wrap it, or `ErrTooLong`. -/
structure ReadError where
  msg : Text
  deriving DecidableEq, Repr

/-- Go `bufio.MaxScanTokenSize`: the largest size the buffer of a scanner grows to. -/
def MaxScanTokenSize : Nat := 64 * 1024

/-- Go `bufio.ErrTooLong`. -/
def ErrTooLong : ReadError := { msg := "bufio.Scanner: token too long" }

/-- Go `dropCR` of `bufio.ScanLines`: a line without its final carriage return. -/
def dropCR (data : Str) : Str :=
  if data.getLast? = some '\r' then data.dropLast else data

/-- Go `Scanner.setErr`: an error that is recorded stays; `none` stands for no error and
for `io.EOF`, which `Err` does not report. -/
def setErr (err new : Option ReadError) : Option ReadError :=
  match err with
  | some e => some e
  | none => new

/-- The errors `scanCase` returns. -/
inductive ScanError where
  | eof
  | read (e : ReadError)
  | unexpectedLine (line : Str)
  deriving DecidableEq, Repr

/-- `getKeyValue` (helpers.go, lines 57-63). -/
def getKeyValue (line : Str) : Except ScanError (Str × Str) :=
  match Split line kvSep with
  | [key, value] => .ok (key, value)
  | _ => .error (.unexpectedLine line)

/-- A Go `map[string]string`, as an association list without repeated keys. -/
abbrev GoMap := List (Str × Str)

/-- The lookup `v, ok := m[key]`. -/
def GoMap.get? (m : GoMap) (key : Str) : Option Str := List.lookup key m

/-- The assignment `m[key] = value`. -/
def GoMap.set (m : GoMap) (key value : Str) : GoMap :=
  if (m.get? key).isSome then m.map (fun p => if p.1 = key then (key, value) else p)
  else m ++ [(key, value)]

/-- A `bufio.Scanner` with its default buffer and the split function `ScanLines`, over
a reader that hands over its bytes and then reports the end of the input, or its error,
by a read of no bytes, as a file does. `pending` holds the lines of the input that are
not delivered yet: a line is the bytes between two newlines, and the last line is the
same with or without a newline after it; once `ErrTooLong` is recorded, `pending` holds
what the buffer holds, the rest of the input being never read. `fail` is the error on
which the reader ends (`none` for `io.EOF`), `token` the current token, and `err` the
error `Err` reports. -/
structure Scanner where
  pending : List Str
  fail : Option ReadError
  token : Str
  err : Option ReadError
  deriving DecidableEq, Repr

/-- Go `bufio.NewScanner` on a reader that delivers the given lines and then ends on
`fail`: no token yet, no error yet. -/
def NewScanner (lines : List Str) (fail : Option ReadError) : Scanner :=
  { pending := lines, fail := fail, token := [], err := none }

/-- Go `Scanner.Scan` with `ScanLines`. A line whose newline is among the first
`MaxScanTokenSize` bytes from its start, or a last line of fewer bytes than that, is
delivered without its final carriage return. A longer line fills the buffer: the token
is cleared, `ErrTooLong` is recorded and `false` is returned; as an error is recorded,
the next call delivers what the buffer holds, the first `MaxScanTokenSize` bytes of the
line, as the last token. At the end of the input the token is cleared, the error of the
reader is recorded unless one was recorded before, and `false` is returned. -/
def Scanner.Scan (s : Scanner) : Bool × Scanner :=
  match s.pending with
  | [] => (false, { s with token := [], err := setErr s.err s.fail })
  | l :: ls =>
    if l.length < MaxScanTokenSize ∨ s.err.isSome then
      (true, { s with pending := ls, token := dropCR l })
    else
      (false, { s with pending := [l.take MaxScanTokenSize], token := [],
                       err := some ErrTooLong })

/-- Go `Scanner.Text`. -/
def Scanner.Text (s : Scanner) : Str := s.token

/-- Go `Scanner.Err`. -/
def Scanner.Err (s : Scanner) : Option ReadError := s.err

/-- The loops of `scanCase` (helpers.go, lines 69-103), by recursion on the lines
still to be delivered. `token` is `scanner.Text()`, which is what `line` holds
whenever it is tested; `result` is the accumulator. Each match on `pending` is a
call of `scanner.Scan()`, written out: `Scan` returns false in the empty case and in
the case of a line that is too long, and does not change `err` when it returns true. -/
def scanLoop (fail err : Option ReadError) : List Str → Str → GoMap →
    Except ScanError GoMap × Scanner
  | pending, token, result =>
    if token = [] then
      -- lines 72-82: skip empty lines, or start the scanner
      match pending with
      | [] =>
        (.error (match setErr err fail with
          | some e => .read e
          | none => .eof),
         { pending := [], fail := fail, token := [], err := setErr err fail })
      | l :: ls =>
        if l.length < MaxScanTokenSize ∨ err.isSome then scanLoop fail err ls (dropCR l) result
        else
          (.error (.read ErrTooLong),
           { pending := [l.take MaxScanTokenSize], fail := fail, token := [],
             err := some ErrTooLong })
    else
      -- lines 83-86
      match getKeyValue token with
      | .error e => (.error e, { pending := pending, fail := fail, token := token, err := err })
      | .ok (key, value) =>
        -- lines 88-90: a repeated key ends the record; the line stays current
        if (result.get? key).isSome then
          (.ok result, { pending := pending, fail := fail, token := token, err := err })
        else
          -- lines 93-96
          match pending with
          | [] =>
            -- lines 100-103
            (if (result.set key value).length = 0 then .error .eof
              else .ok (result.set key value),
             { pending := [], fail := fail, token := [], err := setErr err fail })
          | l :: ls =>
            if l.length < MaxScanTokenSize ∨ err.isSome then
              scanLoop fail err ls (dropCR l) (result.set key value)
            else
              -- lines 100-103, `Scan` having returned false on a line that is too long
              (if (result.set key value).length = 0 then .error .eof
                else .ok (result.set key value),
               { pending := [l.take MaxScanTokenSize], fail := fail, token := [],
                 err := some ErrTooLong })

/-- `scanCase` (helpers.go, lines 65-104): the result and the scanner afterwards. -/
def scanCase (scanner : Scanner) : Except ScanError GoMap × Scanner :=
  scanLoop scanner.fail scanner.err scanner.pending scanner.Text []

/-- The results of `n` successive calls of `scanCase` on one scanner. -/
def scanCalls : Nat → Scanner → List (Except ScanError GoMap)
  | 0, _ => []
  | n + 1, scanner => (scanCase scanner).1 :: scanCalls n (scanCase scanner).2

/-- The line `key = value` of one field. -/
def fieldLine (field : Str × Str) : Str := field.1 ++ kvSep ++ field.2

/-- The lines of a file made of the given records, one line per field. -/
def recordLines (records : List (List (Str × Str))) : List Str :=
  (records.map (fun r => r.map fieldLine)).flatten

/-- The lines of an input that are not blank: a line is blank for `scanCase` when
nothing is left of it without its final carriage return. -/
def nonBlank (lines : List Str) : List Str := lines.filter (fun l => dropCR l ≠ [])

/-! ## Known-answer inputs -/

/-- `KATInput` (test_vector.go, lines 44-59). -/
structure KATInput where
  Xi : Str
  RNG : Str
  PK : Str
  SK : Str
  Msg : Str
  Ctx : Str
  SM : Str
  deriving DecidableEq, Repr

/-- The error of `katFromCaseData`: the key that is missing. -/
inductive KatError where
  | missing (key : Str)
  deriving DecidableEq, Repr

/-- The keys `katFromCaseData` reads, in the order it reads them. -/
def requiredKeys : List Str :=
  ["xi".toList, "rng".toList, "pk".toList, "sk".toList, "msg".toList, "sm".toList, "ctx".toList]

/-- `katFromCaseData` (helpers.go, lines 106-139). -/
def katFromCaseData (data : GoMap) : Except KatError KATInput :=
  match data.get? "xi".toList with
  | none => .error (.missing "xi".toList)
  | some xi =>
    match data.get? "rng".toList with
    | none => .error (.missing "rng".toList)
    | some rng =>
      match data.get? "pk".toList with
      | none => .error (.missing "pk".toList)
      | some pk =>
        match data.get? "sk".toList with
        | none => .error (.missing "sk".toList)
        | some sk =>
          match data.get? "msg".toList with
          | none => .error (.missing "msg".toList)
          | some msg =>
            match data.get? "sm".toList with
            | none => .error (.missing "sm".toList)
            | some sm =>
              match data.get? "ctx".toList with
              | none => .error (.missing "ctx".toList)
              | some ctx =>
                .ok { Xi := xi, RNG := rng, PK := pk, SK := sk, Msg := msg, SM := sm, Ctx := ctx }

/-! ## The digest mu -/

/-- An operation performed on a SHAKE256 instance. -/
inductive HashOp where
  | create
  | write (p : Bytes)
  | read (n : Nat)
  | reset
  deriving DecidableEq, Repr

/-- A SHAKE256 instance (`crypto/sha3`): the bytes absorbed and the number of bytes
squeezed since it was created or reset, and, as a record of the execution, the
operations performed on it so far, oldest first. -/
structure SHAKE where
  absorbed : Bytes
  squeezed : Nat
  ops : List HashOp
  deriving DecidableEq, Repr

/-- Go `sha3.NewSHAKE256`. -/
def NewSHAKE256 : SHAKE := { absorbed := [], squeezed := 0, ops := [.create] }

/-- Go `SHAKE.Write`: absorb more input. -/
def SHAKE.Write (h : SHAKE) (p : Bytes) : SHAKE :=
  { h with absorbed := h.absorbed ++ p, ops := h.ops ++ [.write p] }

/-- Go `SHAKE.Read`: squeeze the next `n` bytes of the output stream; `xof input i`
is byte `i` of the SHAKE256 output stream for the absorbed `input`. -/
def SHAKE.Read (xof : Bytes → Nat → Nat) (h : SHAKE) (n : Nat) : Bytes × SHAKE :=
  ((List.range n).map (fun i => xof h.absorbed (h.squeezed + i)),
   { h with squeezed := h.squeezed + n, ops := h.ops ++ [.read n] })

/-- Go `SHAKE.Reset`: back to the initial state. -/
def SHAKE.Reset (h : SHAKE) : SHAKE :=
  { absorbed := [], squeezed := 0, ops := h.ops ++ [.reset] }

/-- Go `binary.Write(h, binary.BigEndian, v)` for a `uint8` value `v`: one byte. -/
def binaryWrite (h : SHAKE) (v : Nat) : SHAKE := h.Write [v]

/-- The function `H(x, n)` of FIPS 204: the first `n` bytes squeezed from a fresh
SHAKE256 instance after absorbing `x`. -/
def H (xof : Bytes → Nat → Nat) (x : Bytes) (n : Nat) : Bytes :=
  (List.range n).map (fun i => xof x i)

/-- The error of `computeExternalMu`. -/
inductive MuError where
  | ctxTooLarge (n : Nat)
  deriving DecidableEq, Repr

/-- `computeExternalMu` (helpers.go, lines 32-55): the returned pair, together with
the operations performed on the hash instance (none when none was created). -/
def computeExternalMu (xof : Bytes → Nat → Nat) (pk ctx msg : Bytes) :
    Except MuError Bytes × List HashOp :=
  if ctx.length > 255 then (.error (.ctxTooLarge ctx.length), [])
  else
    let h := NewSHAKE256
    let h := h.Write pk
    let (tr, h) := h.Read xof 64
    let h := h.Reset
    let h := h.Write tr
    let h := binaryWrite h (uint8 0)
    let h := binaryWrite h (uint8 ctx.length)
    let h := h.Write ctx
    let h := h.Write msg
    let (mu, h) := h.Read xof 64
    (.ok mu, h.ops)

/-- A small output stream with which the theorems on the digest are instantiated. -/
def sampleXof (input : Bytes) (i : Nat) : Nat := (input.sum + i) % 256

/-! ## Parameter sets -/

/-- `ParameterSet` (parameter_set.go, lines 10-17). -/
inductive ParameterSet where
  | Unspecified
  | MLDSA44
  | MLDSA65
  | MLDSA87
  deriving DecidableEq, Repr

/-- The message of the panic of the methods of `ParameterSet`. -/
def invalidParameterSet : Text := "invalid ParameterSet"

/-- `ParameterSet.String` (parameter_set.go, lines 20-30); an error is a panic. -/
def ParameterSet.String : ParameterSet → Except Text Text
  | .MLDSA44 => .ok "ML-DSA-44"
  | .MLDSA65 => .ok "ML-DSA-65"
  | .MLDSA87 => .ok "ML-DSA-87"
  | .Unspecified => .error invalidParameterSet

/-- `ParameterSet.PublicKeySize` (parameter_set.go, lines 33-43); an error is a panic. -/
def ParameterSet.PublicKeySize : ParameterSet → Except Text Nat
  | .MLDSA44 => .ok 1312
  | .MLDSA65 => .ok 1952
  | .MLDSA87 => .ok 2592
  | .Unspecified => .error invalidParameterSet

/-- `ParameterSet.SecretKeySize` (parameter_set.go, lines 46-56); an error is a panic. -/
def ParameterSet.SecretKeySize : ParameterSet → Except Text Nat
  | .MLDSA44 => .ok 2560
  | .MLDSA65 => .ok 4032
  | .MLDSA87 => .ok 4896
  | .Unspecified => .error invalidParameterSet

/-- `ParameterSet.SignatureSize` (parameter_set.go, lines 59-69); an error is a panic. -/
def ParameterSet.SignatureSize : ParameterSet → Except Text Nat
  | .MLDSA44 => .ok 2420
  | .MLDSA65 => .ok 3309
  | .MLDSA87 => .ok 4627
  | .Unspecified => .error invalidParameterSet

/-- The primitives of the external ML-DSA library, as functions the package calls
and never looks into: the private key derived from a 32-byte seed under a
parameter set, its expanded encoding, its public key, the encoding of a public
key, and the two verification functions. -/
structure Primitives (SK PK : Type) where
  fromSeed : ParameterSet → Bytes → SK
  EncodeExpanded : SK → Bytes
  PublicKey : SK → PK
  Bytes : PK → Bytes
  VerifyWithOptions : PK → (msg sig ctx : Testvector.Bytes) → Bool
  VerifyWithExternalMU : PK → (mu sig : Testvector.Bytes) → Bool

/-- Modelled from the spec: `PrivateKeyFromSeed` of the external library, which
is not part of the repository. The spec gives its contract: it derives a key
from a seed of exactly 32 bytes and fails on a seed of any other length. -/
def PrivateKeyFromSeed {SK PK : Type} (P : Primitives SK PK) (p : ParameterSet)
    (seed : Bytes) : Except Text SK :=
  if seed.length = 32 then .ok (P.fromSeed p seed) else .error "invalid seed length"

/-- `ParameterSet.ExpandSeed` (parameter_set.go, lines 72-94); an error is a panic. -/
def ParameterSet.ExpandSeed {SK PK : Type} (P : Primitives SK PK) (p : ParameterSet)
    (seed : Bytes) : Except Text SK :=
  match p with
  | .MLDSA44 =>
    match PrivateKeyFromSeed P .MLDSA44 seed with
    | .error e => .error e
    | .ok key => .ok key
  | .MLDSA65 =>
    match PrivateKeyFromSeed P .MLDSA65 seed with
    | .error e => .error e
    | .ok key => .ok key
  | .MLDSA87 =>
    match PrivateKeyFromSeed P .MLDSA87 seed with
    | .error e => .error e
    | .ok key => .ok key
  | .Unspecified => .error invalidParameterSet

/-! ## Test vectors -/

/-- `TestVector` (test_vector.go, lines 17-36). -/
structure TestVector where
  ParameterSet : Text
  Seed : Bytes
  PublicKey : Bytes
  SecretKey : Bytes
  Entropy : Bytes
  Message : Bytes
  Context : Bytes
  Mu : Bytes
  Signature : Bytes
  deriving DecidableEq, Repr

/-- The error sites of `ComputeTestVector`, in the order of the code. -/
inductive CTVError where
  | invalidXi (e : DecodeError)
  | invalidRng (e : DecodeError)
  | invalidPkHex (e : HexError)
  | invalidPkSize (pk : Str)
  | invalidSk (e : DecodeError)
  | invalidMsg (e : HexError)
  | invalidCtx (e : HexError)
  | invalidSm (e : DecodeError)
  | unexpectedSecretKey (had derives : Bytes)
  | unexpectedPublicKey (had derives : Bytes)
  | couldNotVerifySignature
  | computingMu (e : MuError)
  | couldNotVerifyMu
  deriving DecidableEq, Repr

/-- What a call of a function that can panic produces. -/
inductive Outcome (α : Type) where
  | ok (value : α)
  | error (e : CTVError)
  | panic (msg : Text)
  deriving DecidableEq, Repr

/-- The switch on `len(publicKey)` of `ComputeTestVector` (test_vector.go, lines
77-87): the cases are tried in order, `none` is the default case. -/
def resolveParams (n : Nat) : Option ParameterSet :=
  if ParameterSet.MLDSA44.PublicKeySize = .ok n then some .MLDSA44
  else if ParameterSet.MLDSA65.PublicKeySize = .ok n then some .MLDSA65
  else if ParameterSet.MLDSA87.PublicKeySize = .ok n then some .MLDSA87
  else none

/-- The slice expression `s[:n]`, which panics when `n` is out of range. -/
def sliceTo (s : Bytes) (n : Nat) : Except Text Bytes :=
  if n ≤ s.length then .ok (s.take n) else .error "slice bounds out of range"

/-- `ComputeTestVector` (test_vector.go, lines 62-147). -/
def ComputeTestVector {SK PK : Type} (P : Primitives SK PK) (xof : Bytes → Nat → Nat)
    (input : KATInput) : Outcome TestVector :=
  match decodeHexAndCheckLength input.Xi 32 with
  | .error e => .error (.invalidXi e)
  | .ok seed =>
  match decodeHexAndCheckLength input.RNG 32 with
  | .error e => .error (.invalidRng e)
  | .ok entropy =>
  match DecodeString input.PK with
  | .error e => .error (.invalidPkHex e)
  | .ok publicKey =>
  match resolveParams publicKey.length with
  | none => .error (.invalidPkSize input.PK)
  | some params =>
  match params.SecretKeySize with
  | .error m => .panic m
  | .ok skSize =>
  match decodeHexAndCheckLength input.SK skSize with
  | .error e => .error (.invalidSk e)
  | .ok secretKey =>
  match DecodeString input.Msg with
  | .error e => .error (.invalidMsg e)
  | .ok msg =>
  match DecodeString input.Ctx with
  | .error e => .error (.invalidCtx e)
  | .ok ctx =>
  match params.SignatureSize with
  | .error m => .panic m
  | .ok sigSize =>
  match decodeHexAndCheckLength input.SM (sigSize + msg.length : Nat) with
  | .error e => .error (.invalidSm e)
  | .ok sigMessage =>
  match sliceTo sigMessage sigSize with
  | .error m => .panic m
  | .ok sig =>
  match params.ExpandSeed P seed with
  | .error m => .panic m
  | .ok sk =>
  if secretKey ≠ P.EncodeExpanded sk then
    .error (.unexpectedSecretKey secretKey (P.EncodeExpanded sk))
  else
  let pk := P.PublicKey sk
  if publicKey ≠ P.Bytes pk then
    .error (.unexpectedPublicKey secretKey (P.Bytes pk))
  else
  if !P.VerifyWithOptions pk msg sig ctx then .error .couldNotVerifySignature
  else
  match (computeExternalMu xof publicKey ctx msg).1 with
  | .error e => .error (.computingMu e)
  | .ok mu =>
  if !P.VerifyWithExternalMU pk mu sig then .error .couldNotVerifyMu
  else
  match params.String with
  | .error m => .panic m
  | .ok name =>
    .ok { ParameterSet := name, Seed := seed, PublicKey := P.Bytes pk,
          SecretKey := P.EncodeExpanded sk, Entropy := entropy, Message := msg,
          Context := ctx, Mu := mu, Signature := sig }

/-! ## Streaming the records -/

/-- A line that `getKeyValue` accepts. -/
def wellFormedLine (line : Str) : Bool :=
  match getKeyValue line with
  | .ok _ => true
  | .error _ => false

/-- A scanner from which the iterator reaches the end of the input: no error is
recorded, the reader ends without an error, every line to come fits the buffer, and
the current line and the lines to come, without their final carriage return, are blank
or accepted by `getKeyValue`. -/
def Scanner.clean (s : Scanner) : Prop :=
  s.err = none ∧ s.fail = none ∧ (∀ l ∈ s.pending, l.length < MaxScanTokenSize) ∧
  ∀ l ∈ s.token :: s.pending.map dropCR, l ≠ [] → wellFormedLine l = true

/-- What a scanner still holds: the lines to come, and the current line when it is not
blank. Every call of `scanCase` that returns a record makes it smaller. -/
def Scanner.remaining (s : Scanner) : Nat :=
  s.pending.length + (if s.token = [] then 0 else 1)

/-- The errors the iterator of `StreamKATs` yields; each wraps, with `%w`, the error of
the step that failed. -/
inductive StreamError where
  | scan (e : ScanError)
  | parse (e : KatError)
  deriving DecidableEq, Repr

/-- Go `errors.Is(err, io.EOF)` for an error of the iterator: only the wrapped `io.EOF` of
`scanCase` is one. An error of `Scanner.Err` is never `io.EOF`, and the errors of
`getKeyValue` and `katFromCaseData` wrap nothing. -/
def StreamError.isEOF : StreamError → Bool
  | .scan .eof => true
  | _ => false

/-- What the iterator passes to `yield`: `(kat, nil)` or `(nil, err)`. -/
abbrev StreamItem := Except StreamError KATInput

/-- The loop of the iterator `StreamKATs` returns (helpers.go, lines 147-162), run
against a consumer: `yield` takes the state of the consumer and an item and answers
whether to go on, with the new state. The result is the state of the consumer and the
scanner when the iterator returns. The first argument bounds the number of rounds. -/
def streamLoop {σ : Type} (yield : σ → StreamItem → Bool × σ) :
    Nat → Scanner → σ → σ × Scanner
  | 0, scanner, c => (c, scanner)
  | fuel + 1, scanner, c =>
    match scanCase scanner with
    | (.error e, scanner') => ((yield c (.error (.scan e))).2, scanner')
    | (.ok scanned, scanner') =>
      match katFromCaseData scanned with
      | .error e => ((yield c (.error (.parse e))).2, scanner')
      | .ok kat =>
        match yield c (.ok kat) with
        | (false, c') => (c', scanner')
        | (true, c') => streamLoop yield fuel scanner' c'

/-- The iterator over a scanner. Every round but the last takes something off what the
scanner holds, so `remaining + 1` rounds are enough. -/
def streamFrom {σ : Type} (scanner : Scanner) (yield : σ → StreamItem → Bool × σ) (c : σ) :
    σ × Scanner :=
  streamLoop yield (scanner.remaining + 1) scanner c

/-- `StreamKATs` (helpers.go, lines 143-164): the iterator over a fresh scanner on the
reader, here the lines of its text and the error on which it ends. -/
def StreamKATs {σ : Type} (lines : List Str) (fail : Option ReadError)
    (yield : σ → StreamItem → Bool × σ) (c : σ) : σ × Scanner :=
  streamFrom (NewScanner lines fail) yield c

/-- The consumer that never stops and keeps every item. -/
def collect (items : List StreamItem) (item : StreamItem) : Bool × List StreamItem :=
  (true, items ++ [item])

/-- The items the iterator yields when it is consumed to its end. -/
def streamItems (lines : List Str) (fail : Option ReadError) : List StreamItem :=
  (StreamKATs lines fail collect []).1

/-- Feeding a list of items to a consumer, up to the first item on which it stops. -/
def feed {σ : Type} (yield : σ → StreamItem → Bool × σ) : List StreamItem → σ → σ
  | [], c => c
  | item :: items, c =>
    match yield c item with
    | (false, c') => c'
    | (true, c') => feed yield items c'

/-- The scanner after `n` successive calls of `scanCase`. -/
def scanState : Nat → Scanner → Scanner
  | 0, scanner => scanner
  | n + 1, scanner => scanState n (scanCase scanner).2

/-- The consumer that stops at the `k`-th item; its state is the number of items seen. -/
def stopAt (k : Nat) (seen : Nat) (_ : StreamItem) : Bool × Nat :=
  (decide (seen + 1 < k), seen + 1)

/-! ## The conversion run -/

/-- The two errors `mainErr` returns from inside its loop. -/
inductive MainError where
  | iterate (e : StreamError)
  | convert (e : CTVError)
  deriving DecidableEq, Repr

/-- How `mainErr` ends: it returns nil, returns an error, or panics. -/
inductive MainEnd where
  | ok
  | error (e : MainError)
  | panic (msg : Text)
  deriving DecidableEq, Repr

/-- The state of the loop of `mainErr`: the vectors appended so far, and how the
function left the loop when it did so by a return. -/
structure MainState where
  vectors : List TestVector
  returned : Option MainEnd
  deriving DecidableEq, Repr

/-- The body of the loop of `mainErr` (converter.go, lines 44-58) as a consumer of the
iterator: `break` and `return` stop the iteration. -/
def mainBody {SK PK : Type} (P : Primitives SK PK) (xof : Bytes → Nat → Nat)
    (st : MainState) (item : StreamItem) : Bool × MainState :=
  match item with
  | .error err =>
    if err.isEOF then (false, st)
    else (false, { st with returned := some (.error (.iterate err)) })
  | .ok kat =>
    match ComputeTestVector P xof kat with
    | .error e => (false, { st with returned := some (.error (.convert e)) })
    | .panic m => (false, { st with returned := some (.panic m) })
    | .ok vector => (true, { st with vectors := st.vectors ++ [vector] })

/-- What a run of `mainErr` leaves: the arrays of vectors printed on standard output,
as JSON, and how the function ended. -/
structure MainResult where
  stdout : List (List TestVector)
  ending : MainEnd
  deriving DecidableEq, Repr

/-- `mainErr` from the call of `StreamKATs` on (converter.go, lines 37-66), on a file
that was opened. Marshalling a list of vectors to JSON does not fail. -/
def mainErr {SK PK : Type} (P : Primitives SK PK) (xof : Bytes → Nat → Nat)
    (lines : List Str) (fail : Option ReadError) : MainResult :=
  match (StreamKATs lines fail (mainBody P xof) { vectors := [], returned := none }).1 with
  | { vectors := _, returned := some ending } => { stdout := [], ending := ending }
  | { vectors := vectors, returned := none } => { stdout := [vectors], ending := .ok }

/-- The bytes a hash instance has absorbed since it was created or last reset,
according to the record of the operations on it. -/
def absorbedSinceReset (ops : List HashOp) : Bytes :=
  ops.foldl (fun acc op =>
    match op with
    | .create => []
    | .reset => []
    | .write p => acc ++ p
    | .read _ => acc) []

/-! ## Sample data -/

/-- Stand-in primitives with which the theorems are instantiated: a key object is its
parameter set, an encoding is a run of zero bytes of the size of the parameter set, and
both verifications accept. -/
def samplePrimitives : Primitives ParameterSet ParameterSet where
  fromSeed p _ := p
  EncodeExpanded p :=
    match p.SecretKeySize with
    | .ok n => List.replicate n 0
    | .error _ => []
  PublicKey p := p
  Bytes p :=
    match p.PublicKeySize with
    | .ok n => List.replicate n 0
    | .error _ => []
  VerifyWithOptions _ _ _ _ := true
  VerifyWithExternalMU _ _ _ := true

/-- A record for ML-DSA-44 that the stand-in primitives accept: every field is a run of
the digit `0`, the message and the context are empty. -/
def sampleInput : KATInput where
  Xi := List.replicate 64 '0'
  RNG := List.replicate 64 '0'
  PK := List.replicate 2624 '0'
  SK := List.replicate 5120 '0'
  Msg := []
  Ctx := []
  SM := List.replicate 4840 '0'

/-- The test vector of the sample record. -/
def sampleVector : TestVector where
  ParameterSet := "ML-DSA-44"
  Seed := List.replicate 32 0
  PublicKey := List.replicate 1312 0
  SecretKey := List.replicate 2560 0
  Entropy := List.replicate 32 0
  Message := []
  Context := []
  Mu := H sampleXof (H sampleXof (List.replicate 1312 0) 64 ++ [0] ++ [0]) 64
  Signature := List.replicate 2420 0

/-- A record with the seven fields, one line per field. -/
def sampleLines : List Str :=
  ["xi = 0".toList, "rng = 1".toList, "pk = 2".toList, "sk = 3".toList, "msg = 4".toList,
   "sm = 5".toList, "ctx = 6".toList]

/-- The record of the sample lines. -/
def sampleKAT : KATInput :=
  { Xi := "0".toList, RNG := "1".toList, PK := "2".toList, SK := "3".toList,
    Msg := "4".toList, SM := "5".toList, Ctx := "6".toList }

/-- An error of the reader, as `Scanner.Err` reports it. -/
def sampleReadError : ReadError := { msg := "read error" }

/-- A line `xi = 00...0` of 65541 bytes, more than the buffer of a scanner takes. -/
def sampleLongLine : Str := fieldLine ("xi".toList, List.replicate 65536 '0')

/-- The sample record with its last signature byte cut off the sm field. -/
def sampleInputShortSM : KATInput := { sampleInput with SM := List.replicate 4838 '0' }

/-- The sample record with another secret key of the same size: the first byte is 1. -/
def sampleInputOtherSK : KATInput :=
  { sampleInput with SK := '0' :: '1' :: List.replicate 5118 '0' }

/-- The stand-in primitives with another encoding of the public key: a run of bytes 1. -/
def samplePrimitivesOtherPK : Primitives ParameterSet ParameterSet :=
  { samplePrimitives with
    Bytes := fun p =>
      match p.PublicKeySize with
      | .ok n => List.replicate n 1
      | .error _ => [] }

/-- The sample record with a message of one byte: sm has one byte more. -/
def sampleInputMsg : KATInput :=
  { sampleInput with Msg := ['0', '0'], SM := List.replicate 4842 '0' }

/-- Another sm for the sample record with a message: the last byte is ff. -/
def sampleOtherSM : Str := List.replicate 4840 '0' ++ ['f', 'f']

/-! ## Theorems: hex decoding -/

/-- A character has a digit value exactly when it is one of the 22 hexadecimal digits. -/
theorem fromHexChar_isSome_iff (c : Char) : (fromHexChar c).isSome ↔ c ∈ hexDigits := by
  constructor
  · intro h
    have hc : c = Char.ofNat c.toNat := (Char.ofNat_toNat c).symm
    unfold fromHexChar at h
    simp only at h
    split at h
    · rename_i h1
      obtain ⟨a, b⟩ := h1
      rw [hc]
      interval_cases c.toNat <;> decide
    · split at h
      · rename_i h1
        obtain ⟨a, b⟩ := h1
        rw [hc]
        interval_cases c.toNat <;> decide
      · split at h
        · rename_i h1
          obtain ⟨a, b⟩ := h1
          rw [hc]
          interval_cases c.toNat <;> decide
        · simp at h
  · intro h
    simp [hexDigits] at h
    rcases h with h | h | h | h | h | h | h | h | h | h | h | h | h | h | h | h | h | h | h | h |
      h | h <;> subst h <;> decide

/-- A digit value is below 16. -/
theorem fromHexChar_lt (c : Char) (v : Nat) (h : fromHexChar c = some v) : v < 16 := by
  unfold fromHexChar at h
  simp only at h
  split at h
  · simp at h; omega
  · split at h
    · simp at h; omega
    · split at h
      · simp at h; omega
      · simp at h

/-- Encoding the value of a digit gives the digit back, in lower case. -/
theorem hexDigit_fromHexChar (c : Char) (v : Nat) (h : fromHexChar c = some v) :
    hexDigit v = c.toLower := by
  have hc : c = Char.ofNat c.toNat := (Char.ofNat_toNat c).symm
  unfold fromHexChar at h
  simp only at h
  split at h
  · rename_i h1
    obtain ⟨a, b⟩ := h1
    simp at h; subst h
    rw [hc]
    interval_cases c.toNat <;> decide
  · split at h
    · rename_i h1
      obtain ⟨a, b⟩ := h1
      simp at h; subst h
      rw [hc]
      interval_cases c.toNat <;> decide
    · split at h
      · rename_i h1
        obtain ⟨a, b⟩ := h1
        simp at h; subst h
        rw [hc]
        interval_cases c.toNat <;> decide
      · simp at h

/-- Decoding succeeds exactly on an even number of hexadecimal digits. -/
theorem DecodeString_ok_iff (s : Str) :
    (∃ bs, DecodeString s = .ok bs) ↔ s.length % 2 = 0 ∧ ∀ c ∈ s, c ∈ hexDigits := by
  induction s using DecodeString.induct with
  | case1 => simp [DecodeString]
  | case2 p h => simp [DecodeString, h]
  | case3 p v h => simp [DecodeString, h]
  | case4 p q rest h =>
    have : ¬ p ∈ hexDigits := by
      rw [← fromHexChar_isSome_iff, h]; simp
    simp [DecodeString, h, this]
  | case5 p q rest a ha hq =>
    have : ¬ q ∈ hexDigits := by
      rw [← fromHexChar_isSome_iff, hq]; simp
    simp [DecodeString, ha, hq, this]
  | case6 p q rest a ha b hb e he ih =>
    simp [DecodeString, ha, hb, he] at ih ⊢
    intro h1 _ _
    have : rest.length % 2 = 0 := by omega
    exact ih this
  | case7 p q rest a ha b hb bs hbs ih =>
    have hp : p ∈ hexDigits := by rw [← fromHexChar_isSome_iff, ha]; simp
    have hq : q ∈ hexDigits := by rw [← fromHexChar_isSome_iff, hb]; simp
    simp [DecodeString, ha, hb, hbs, hp, hq] at ih ⊢
    exact ⟨by omega, ih.2⟩

/-- A decoded string has half the length, holds bytes, and encodes back to the input in
lower case. -/
theorem DecodeString_ok_props (s : Str) (bs : Bytes) (h : DecodeString s = .ok bs) :
    2 * bs.length = s.length ∧ (∀ b ∈ bs, b < 256) ∧ EncodeToString bs = s.map Char.toLower := by
  induction s using DecodeString.induct generalizing bs with
  | case1 => simp [DecodeString] at h; subst h; simp [EncodeToString]
  | case2 p hp => simp [DecodeString, hp] at h
  | case3 p v hp => simp [DecodeString, hp] at h
  | case4 p q rest hp => simp [DecodeString, hp] at h
  | case5 p q rest a ha hq => simp [DecodeString, ha, hq] at h
  | case6 p q rest a ha b hb e he ih => simp [DecodeString, ha, hb, he] at h
  | case7 p q rest a ha b hb bs' hbs ih =>
    simp [DecodeString, ha, hb, hbs] at h
    subst h
    obtain ⟨h1, h2, h3⟩ := ih bs' hbs
    have ha16 := fromHexChar_lt p a ha
    have hb16 := fromHexChar_lt q b hb
    refine ⟨by simp; omega, ?_, ?_⟩
    · intro x hx
      simp at hx
      rcases hx with hx | hx
      · omega
      · exact h2 x hx
    · have e1 : (a * 16 + b) / 16 = a := by omega
      have e2 : (a * 16 + b) % 16 = b := by omega
      simp [EncodeToString, e1, e2, h3, hexDigit_fromHexChar p a ha, hexDigit_fromHexChar q b hb]

/-- C8: `decodeHexAndCheckLength data n` succeeds if and only if `data` has even length,
consists only of hexadecimal digits and has exactly `2 * n` characters; on success it
returns `n` bytes whose hex encoding is `data` in lower case; when `data` is not valid
hex it fails with the decode error (carrying the error of `hex.DecodeString`), and when
`data` is valid hex of another decoded length it fails with the length error, which
carries the decoded length. -/
theorem C8_decodeHexAndCheckLength_spec (data : Str) (n : Int) :
    ((∃ bs, decodeHexAndCheckLength data n = .ok bs) ↔
      (data.length % 2 = 0 ∧ (∀ c ∈ data, c ∈ hexDigits) ∧ (data.length : Int) = 2 * n)) ∧
    (∀ bs, decodeHexAndCheckLength data n = .ok bs →
      (bs.length : Int) = n ∧ (∀ b ∈ bs, b < 256) ∧
        EncodeToString bs = data.map Char.toLower) ∧
    (¬ (data.length % 2 = 0 ∧ ∀ c ∈ data, c ∈ hexDigits) →
      ∃ e, DecodeString data = .error e ∧
        decodeHexAndCheckLength data n = .error (.decodingHex e)) ∧
    ((data.length % 2 = 0 ∧ ∀ c ∈ data, c ∈ hexDigits) → (data.length : Int) ≠ 2 * n →
      decodeHexAndCheckLength data n = .error (.unexpectedLength (data.length / 2))) := by
  have hiff := DecodeString_ok_iff data
  cases hd : DecodeString data with
  | error e =>
    have hbad : ¬ (data.length % 2 = 0 ∧ ∀ c ∈ data, c ∈ hexDigits) := by
      intro h
      obtain ⟨bs, hbs⟩ := hiff.mpr h
      rw [hd] at hbs
      cases hbs
    refine ⟨?_, ?_, ?_, ?_⟩
    · simp only [decodeHexAndCheckLength, hd]
      constructor
      · rintro ⟨bs, h⟩; cases h
      · rintro ⟨h1, h2, _⟩; exact absurd ⟨h1, h2⟩ hbad
    · intro bs h
      simp [decodeHexAndCheckLength, hd] at h
    · intro _
      exact ⟨e, rfl, by simp [decodeHexAndCheckLength, hd]⟩
    · intro h; exact absurd h hbad
  | ok decoded =>
    have hgood : data.length % 2 = 0 ∧ ∀ c ∈ data, c ∈ hexDigits := hiff.mp ⟨decoded, hd⟩
    obtain ⟨hlen, hbytes, henc⟩ := DecodeString_ok_props data decoded hd
    refine ⟨?_, ?_, ?_, ?_⟩
    · simp only [decodeHexAndCheckLength, hd]
      constructor
      · rintro ⟨bs, h⟩
        refine ⟨hgood.1, hgood.2, ?_⟩
        split at h
        · cases h
        · rename_i hne
          simp only [ne_eq, not_not] at hne
          omega
      · rintro ⟨_, _, h3⟩
        refine ⟨decoded, ?_⟩
        have : (decoded.length : Int) = n := by omega
        simp [this]
    · intro bs h
      simp only [decodeHexAndCheckLength, hd] at h
      split at h
      · cases h
      · rename_i hne
        simp only [ne_eq, not_not] at hne
        cases h
        exact ⟨hne, hbytes, henc⟩
    · intro h; exact absurd hgood h
    · intro _ hne
      have h1 : (decoded.length : Int) ≠ n := by omega
      have h2 : data.length / 2 = decoded.length := by omega
      simp [decodeHexAndCheckLength, hd, h1, h2]

/-! ## Theorems: known-answer inputs -/

/-- C10: `katFromCaseData m` succeeds if and only if `m` has all seven keys; on success
each field of the result is the value of its key in `m`; on failure the error names the
first key, in the order xi, rng, pk, sk, msg, sm, ctx, that `m` lacks; and the result
depends on `m` only through the values of these seven keys. -/
theorem C10_katFromCaseData_spec (m : GoMap) :
    ((∃ r, katFromCaseData m = .ok r) ↔ ∀ k ∈ requiredKeys, (m.get? k).isSome) ∧
    (∀ r, katFromCaseData m = .ok r →
      m.get? "xi".toList = some r.Xi ∧ m.get? "rng".toList = some r.RNG ∧
      m.get? "pk".toList = some r.PK ∧ m.get? "sk".toList = some r.SK ∧
      m.get? "msg".toList = some r.Msg ∧ m.get? "sm".toList = some r.SM ∧
      m.get? "ctx".toList = some r.Ctx) ∧
    (∀ e, katFromCaseData m = .error e →
      ∃ k, e = .missing k ∧ requiredKeys.find? (fun k => (m.get? k).isNone) = some k) ∧
    (∀ m' : GoMap, (∀ k ∈ requiredKeys, m'.get? k = m.get? k) →
      katFromCaseData m' = katFromCaseData m) := by
  refine ⟨?_, ?_, ?_, ?_⟩
  · simp only [katFromCaseData, requiredKeys, List.mem_cons, List.mem_singleton, forall_eq_or_imp,
      forall_eq, List.not_mem_nil, false_imp_iff, implies_true, and_true]
    cases m.get? "xi".toList <;> cases m.get? "rng".toList <;> cases m.get? "pk".toList <;>
      cases m.get? "sk".toList <;> cases m.get? "msg".toList <;> cases m.get? "sm".toList <;>
      cases m.get? "ctx".toList <;> simp
  · intro r
    simp only [katFromCaseData]
    cases m.get? "xi".toList <;> cases m.get? "rng".toList <;> cases m.get? "pk".toList <;>
      cases m.get? "sk".toList <;> cases m.get? "msg".toList <;> cases m.get? "sm".toList <;>
      cases m.get? "ctx".toList <;> simp
    intro h
    subst h
    simp
  · intro e
    simp only [katFromCaseData, requiredKeys, List.find?]
    cases m.get? "xi".toList <;> cases m.get? "rng".toList <;> cases m.get? "pk".toList <;>
      cases m.get? "sk".toList <;> cases m.get? "msg".toList <;> cases m.get? "sm".toList <;>
      cases m.get? "ctx".toList <;> simp <;> (intro h; subst h; simp)
  · intro m' h
    simp only [requiredKeys, List.mem_cons, List.mem_singleton, forall_eq_or_imp,
      forall_eq, List.not_mem_nil, false_imp_iff, implies_true, and_true] at h
    obtain ⟨h1, h2, h3, h4, h5, h6, h7⟩ := h
    simp only [katFromCaseData, h1, h2, h3, h4, h5, h6, h7]

/-! ## Theorems: splitting a line -/

/-- An empty string contains no non-empty substring. -/
theorem Index_nil (sep : Str) (h : sep ≠ []) : Index [] sep = none := by
  simp [Index, h]

/-- The first occurrence cuts the string into what precedes it, the substring, and the
rest. -/
theorem Index_some_split (s sep : Str) (m : Nat) (h : Index s sep = some m) :
    s = s.take m ++ sep ++ s.drop (m + sep.length) := by
  induction s generalizing m with
  | nil =>
    simp only [Index] at h
    split at h
    · rename_i h0; subst h0; simp
    · cases h
  | cons c cs ih =>
    simp only [Index] at h
    split at h
    · rename_i hp
      cases h
      rw [List.isPrefixOf_iff_prefix] at hp
      obtain ⟨t, ht⟩ := hp
      rw [← ht]
      simp
    · cases hi : Index cs sep with
      | none => simp [hi] at h
      | some m' =>
        simp [hi] at h
        subst h
        have := ih m' hi
        rw [show m' + 1 + sep.length = (m' + sep.length) + 1 by omega]
        simp only [List.take_succ_cons, List.drop_succ_cons, List.cons_append]
        rw [← this]

/-- An occurrence lies within the string. -/
theorem Index_some_le (s sep : Str) (m : Nat) (h : Index s sep = some m) :
    m + sep.length ≤ s.length := by
  induction s generalizing m with
  | nil =>
    simp only [Index] at h
    split at h
    · rename_i h0; subst h0; cases h; simp
    · cases h
  | cons c cs ih =>
    simp only [Index] at h
    split at h
    · rename_i hp
      cases h
      rw [List.isPrefixOf_iff_prefix] at hp
      have := hp.length_le
      omega
    · cases hi : Index cs sep with
      | none => simp [hi] at h
      | some m' =>
        simp [hi] at h
        subst h
        have := ih m' hi
        simp only [List.length_cons]
        omega

/-- Nothing before the first occurrence contains the substring. -/
theorem Index_take_none (s sep : Str) (m : Nat) (hsep : sep ≠ []) (h : Index s sep = some m) :
    Index (s.take m) sep = none := by
  induction s generalizing m with
  | nil => simp [Index, hsep]
  | cons c cs ih =>
    simp only [Index] at h
    split at h
    · cases h; simp [Index, hsep]
    · rename_i hp
      cases hi : Index cs sep with
      | none => simp [hi] at h
      | some m' =>
        simp [hi] at h
        subst h
        simp only [List.take_succ_cons, Index]
        have hnp : ¬ sep.isPrefixOf (c :: cs.take m') = true := by
          intro hq
          apply hp
          rw [List.isPrefixOf_iff_prefix] at hq ⊢
          exact hq.trans ((List.prefix_cons_inj c).mpr (List.take_prefix m' cs))
        simp [hnp, ih m' hi]

/-- The count of a non-empty substring is at most the length of the string. -/
theorem countLoop_le (sep : Str) (hsep : sep ≠ []) (fuel : Nat) (s : Str) :
    countLoop sep fuel s ≤ s.length := by
  induction fuel generalizing s with
  | zero => simp [countLoop]
  | succ f ih =>
    simp only [countLoop]
    cases hi : Index s sep with
    | none => simp
    | some i =>
      simp only
      have h1 := Index_some_le s sep i hi
      have h2 := ih (s.drop (i + sep.length))
      have h3 : 0 < sep.length := List.length_pos.mpr hsep
      simp only [List.length_drop] at h2
      omega

/-- Cutting as many times as the count says gives one piece more than the count. -/
theorem splitLoop_length (sep : Str) (fuel : Nat) (s : Str) :
    (splitLoop sep (countLoop sep fuel s) s).length = countLoop sep fuel s + 1 := by
  induction fuel generalizing s with
  | zero => simp [countLoop, splitLoop]
  | succ f ih =>
    simp only [countLoop]
    cases hi : Index s sep with
    | none => simp [splitLoop]
    | some i =>
      simp only
      rw [Nat.add_comm 1]
      simp [splitLoop, hi, ih]

/-- The number of pieces `strings.Split` returns is the count plus one. -/
theorem Split_length (s sep : Str) (hsep : sep ≠ []) :
    (Split s sep).length = Count s sep + 1 := by
  have hle := countLoop_le sep hsep s.length s
  simp only [Split, Count, hsep, if_false]
  rw [show min (countLoop sep s.length s + 1) (s.length + 1) - 1 = countLoop sep s.length s by
    omega]
  exact splitLoop_length sep s.length s

/-- A string with exactly one occurrence splits at it, and neither piece contains the
separator. -/
theorem Split_of_Count_one (s sep : Str) (hsep : sep ≠ []) (h : Count s sep = 1) :
    ∃ i, Index s sep = some i ∧ Index (s.drop (i + sep.length)) sep = none ∧
      Split s sep = [s.take i, s.drop (i + sep.length)] := by
  have hle := countLoop_le sep hsep s.length s
  simp only [Count, hsep, if_false] at h
  simp only [Split, Count, hsep, if_false]
  rw [show min (countLoop sep s.length s + 1) (s.length + 1) - 1 = countLoop sep s.length s by
    omega, h]
  cases hl : s.length with
  | zero => rw [hl] at h; simp [countLoop] at h
  | succ f =>
    rw [hl] at h
    simp only [countLoop] at h
    cases hi : Index s sep with
    | none => simp [hi] at h
    | some i =>
      simp only [hi] at h
      refine ⟨i, rfl, ?_, by simp [splitLoop, hi]⟩
      have h0 : countLoop sep f (s.drop (i + sep.length)) = 0 := by omega
      have h1 := Index_some_le s sep i hi
      have h3 : 0 < sep.length := List.length_pos.mpr hsep
      cases hj : Index (s.drop (i + sep.length)) sep with
      | none => rfl
      | some j =>
        have h4 := Index_some_le _ sep j hj
        simp only [List.length_drop] at h4
        cases f with
        | zero => omega
        | succ g => simp [countLoop, hj] at h0

/-- A string that does not contain the substring has count zero. -/
theorem Count_of_not_Contains (s sep : Str) (hsep : sep ≠ []) (h : Contains s sep = false) :
    Count s sep = 0 := by
  simp only [Count, hsep, if_false]
  cases s.length with
  | zero => rfl
  | succ f =>
    cases hi : Index s sep with
    | none => simp [countLoop, hi]
    | some i => simp [Contains, hi] at h

/-- The separator is not empty. -/
theorem kvSep_ne_nil : kvSep ≠ [] := by decide

/-- C9: `getKeyValue line` succeeds if and only if splitting `line` on `" = "` yields
exactly two parts, which is the case if and only if `line` has exactly one occurrence of
the separator, counted left to right without overlap; on success the key and the value
contain no separator and `key ++ " = " ++ value` is the line; a line with no separator
(count zero) or with two or more of them is rejected with the error that quotes the line. -/
theorem C9_getKeyValue_spec (line : Str) :
    ((∃ kv, getKeyValue line = .ok kv) ↔ (Split line kvSep).length = 2) ∧
    ((Split line kvSep).length = 2 ↔ Count line kvSep = 1) ∧
    (∀ key value, getKeyValue line = .ok (key, value) →
      Split line kvSep = [key, value] ∧ key ++ kvSep ++ value = line ∧
      Contains key kvSep = false ∧ Contains value kvSep = false) ∧
    ((Contains line kvSep = false ∨ Count line kvSep = 0 ∨ 2 ≤ Count line kvSep) →
      getKeyValue line = .error (.unexpectedLine line)) := by
  have hlen := Split_length line kvSep kvSep_ne_nil
  have hok : ∀ key value, getKeyValue line = .ok (key, value) →
      Split line kvSep = [key, value] := by
    intro key value h
    simp only [getKeyValue] at h
    split at h
    · rename_i k v heq
      cases h
      exact heq
    · cases h
  refine ⟨?_, ?_, ?_, ?_⟩
  · constructor
    · rintro ⟨⟨k, v⟩, h⟩
      rw [hok k v h]; rfl
    · intro h
      match hs : Split line kvSep, h with
      | [k, v], _ => exact ⟨(k, v), by simp [getKeyValue, hs]⟩
  · rw [hlen]; omega
  · intro key value h
    have hs := hok key value h
    have hc : Count line kvSep = 1 := by
      have := congrArg List.length hs
      rw [hlen] at this
      simpa using this
    obtain ⟨i, hi, hrest, hsplit⟩ := Split_of_Count_one line kvSep kvSep_ne_nil hc
    rw [hs] at hsplit
    simp only [List.cons.injEq, and_true] at hsplit
    obtain ⟨hk, hv⟩ := hsplit
    refine ⟨hs, ?_, ?_, ?_⟩
    · rw [hk, hv]; exact (Index_some_split line kvSep i hi).symm
    · rw [hk]; simp [Contains, Index_take_none line kvSep i kvSep_ne_nil hi]
    · rw [hv]; simp [Contains, hrest]
  · intro h
    have h0 : Count line kvSep = 0 ∨ 2 ≤ Count line kvSep := by
      rcases h with h | h
      · exact Or.inl (Count_of_not_Contains line kvSep kvSep_ne_nil h)
      · exact h
    have h2 : (Split line kvSep).length ≠ 2 := by rw [hlen]; omega
    simp only [getKeyValue]
    split
    · rename_i k v heq
      rw [heq] at h2
      exact absurd rfl h2
    · rfl

/-! ## Theorems: scanning records -/

/-- The separator is found right after a key that neither contains it nor ends in
`" ="`. -/
theorem Index_fieldLine (k v : Str) (hk : Contains k kvSep = false)
    (hend : ¬ (" =".toList <:+ k)) : Index (k ++ kvSep ++ v) kvSep = some k.length := by
  induction k with
  | nil => simp [Index, kvSep, List.isPrefixOf]
  | cons c k' ih =>
    have hk1 : Index (c :: k') kvSep = none := by
      simpa [Contains] using hk
    simp only [Index] at hk1
    split at hk1
    · cases hk1
    · rename_i hnp
      have hk2 : Index k' kvSep = none := by
        cases hi : Index k' kvSep with
        | none => rfl
        | some i => simp [hi] at hk1
      have hend' : ¬ (" =".toList <:+ k') := fun h => hend (h.trans (List.suffix_cons c k'))
      have ih' := ih (by simp [Contains, hk2]) hend'
      have hnp' : ¬ kvSep.isPrefixOf (c :: (k' ++ kvSep ++ v)) = true := by
        intro hq
        match k', hnp, hend with
        | [], _, _ => simp [kvSep, List.isPrefixOf] at hq
        | [d], _, hend =>
          simp [kvSep, List.isPrefixOf] at hq
          apply hend
          rw [← hq.1, ← hq.2]
          exact List.suffix_refl _
        | d :: e :: k'', hnp, _ =>
          apply hnp
          simp [kvSep, List.isPrefixOf] at hq ⊢
          exact hq
      simp only [List.cons_append, Index, List.append_assoc] at ih' ⊢
      simp only [List.cons_append, List.append_assoc] at hnp'
      simp [hnp', ih']

/-- A line `key = value` whose key neither contains the separator nor ends in `" ="` and
whose value does not contain the separator is split into that key and that value. -/
theorem getKeyValue_fieldLine (k v : Str) (hk : Contains k kvSep = false)
    (hend : ¬ (" =".toList <:+ k)) (hv : Contains v kvSep = false) :
    getKeyValue (fieldLine (k, v)) = .ok (k, v) := by
  have hi := Index_fieldLine k v hk hend
  have hv' : Index v kvSep = none := by
    cases h : Index v kvSep with
    | none => rfl
    | some i => simp [Contains, h] at hv
  have hdrop : (k ++ kvSep ++ v).drop (k.length + kvSep.length) = v := by
    rw [← List.length_append]
    exact List.drop_left _ _
  have htake : (k ++ kvSep ++ v).take k.length = k := by
    rw [List.append_assoc]
    exact List.take_left _ _
  have hc : Count (k ++ kvSep ++ v) kvSep = 1 := by
    simp only [Count, kvSep_ne_nil, if_false]
    have hl : (k ++ kvSep ++ v).length = (k.length + v.length + 2) + 1 := by
      simp [kvSep]; omega
    rw [hl]
    generalize k.length + v.length + 2 = f
    simp only [countLoop, hi, hdrop]
    cases f with
    | zero => rfl
    | succ f => simp [countLoop, hv']
  obtain ⟨i, hi', _, hs⟩ := Split_of_Count_one _ kvSep kvSep_ne_nil hc
  rw [hi] at hi'
  cases hi'
  rw [hdrop, htake] at hs
  simp only [getKeyValue, fieldLine, hs]

/-- A line `key = value` is not empty. -/
theorem fieldLine_ne_nil (f : Str × Str) : fieldLine f ≠ [] := by
  simp [fieldLine, kvSep]

/-- A key that is not among the keys of a map is not found. -/
theorem get?_eq_none (m : GoMap) (k : Str) (h : k ∉ m.map Prod.fst) : m.get? k = none := by
  induction m with
  | nil => rfl
  | cons p m ih =>
    simp only [List.map_cons, List.mem_cons, not_or] at h
    have hne : (k == p.1) = false := by simpa using h.1
    simp only [GoMap.get?, List.lookup, hne] at ih ⊢
    exact ih h.2

/-- A key that is among the keys of a map is found. -/
theorem get?_isSome (m : GoMap) (k : Str) (h : k ∈ m.map Prod.fst) :
    (m.get? k).isSome = true := by
  induction m with
  | nil => simp at h
  | cons p m ih =>
    simp only [List.map_cons, List.mem_cons] at h
    by_cases hk : k = p.1
    · subst hk
      simp [GoMap.get?, List.lookup]
    · have hne : (k == p.1) = false := by simpa using hk
      simp only [GoMap.get?, List.lookup, hne] at ih ⊢
      exact ih (h.resolve_left hk)

/-- Setting a key that a map does not have appends the pair. -/
theorem set_of_not_mem (m : GoMap) (k v : Str) (h : k ∉ m.map Prod.fst) :
    m.set k v = m ++ [(k, v)] := by
  simp [GoMap.set, get?_eq_none m k h]

/-- The error of `getKeyValue` quotes the line. -/
theorem getKeyValue_error (line : Str) (e : ScanError) (h : getKeyValue line = .error e) :
    e = .unexpectedLine line := by
  simp only [getKeyValue] at h
  split at h
  · cases h
  · cases h; rfl

/-- A map is not empty after an assignment. -/
theorem set_length_ne_zero (m : GoMap) (k v : Str) : (m.set k v).length ≠ 0 := by
  simp only [GoMap.set]
  split
  · rename_i h
    cases m with
    | nil => simp [GoMap.get?] at h
    | cons p m => simp
  · simp

/-- A line without its final carriage return has at most one byte less. -/
theorem dropCR_length (l : Str) : l.length ≤ (dropCR l).length + 1 := by
  unfold dropCR
  split
  · rw [List.length_dropLast]; omega
  · omega

/-- A line that does not end in a carriage return is delivered as it is. -/
theorem dropCR_of_getLast? (l : Str) (h : l.getLast? ≠ some '\r') : dropCR l = l := by
  simp [dropCR, h]

/-- A line is blank for `scanCase` only when it is empty or a lone carriage return, so it
is shorter than the buffer. -/
theorem length_of_dropCR_nil (l : Str) (h : dropCR l = []) : l.length < MaxScanTokenSize := by
  have := dropCR_length l
  rw [h] at this
  simp only [List.length_nil, MaxScanTokenSize] at this ⊢
  omega

/-- A line `key = value` ends as its value does, or in the blank of the separator. -/
theorem dropCR_fieldLine (g : Str × Str) (h : g.2.getLast? ≠ some '\r') :
    dropCR (fieldLine g) = fieldLine g := by
  apply dropCR_of_getLast?
  obtain ⟨k, v⟩ := g
  simp only [fieldLine] at h ⊢
  cases hv : v with
  | nil => simp [kvSep]
  | cons c cs =>
    rw [← hv, List.getLast?_append_of_ne_nil _ (by rw [hv]; simp)]
    exact h

/-- At the end of the input `Scan` returns false, clears the token and records the error
of the reader, unless an error was recorded before. -/
theorem Scan_nil (fail err : Option ReadError) (token : Str) :
    Scanner.Scan { pending := [], fail := fail, token := token, err := err } =
      (false, { pending := [], fail := fail, token := [], err := setErr err fail }) := rfl

/-- A line that fits the buffer, and whatever the buffer holds once an error is recorded,
becomes the token, without its final carriage return. -/
theorem Scan_cons (fail err : Option ReadError) (token l : Str) (ls : List Str)
    (h : l.length < MaxScanTokenSize ∨ err.isSome = true) :
    Scanner.Scan { pending := l :: ls, fail := fail, token := token, err := err } =
      (true, { pending := ls, fail := fail, token := dropCR l, err := err }) := by
  simp only [Scanner.Scan, h, if_true]

/-- On a line that does not fit the buffer `Scan` returns false and records `ErrTooLong`;
the buffer keeps the first `MaxScanTokenSize` bytes of the line. -/
theorem Scan_too_long (fail err : Option ReadError) (token l : Str) (ls : List Str)
    (h : ¬ (l.length < MaxScanTokenSize ∨ err.isSome = true)) :
    Scanner.Scan { pending := l :: ls, fail := fail, token := token, err := err } =
      (false, { pending := [l.take MaxScanTokenSize], fail := fail, token := [],
                err := some ErrTooLong }) := by
  simp only [Scanner.Scan, h, if_false]

/-- The loops of `scanCase` in terms of `Scan`, `Text` and `Err`, as the Go code has
them: the blank-line loop returns the error of the scanner, or `io.EOF`, when `Scan`
returns false; after a line is added, the loop is left when `Scan` returns false. -/
theorem scanLoop_Scan (fail err : Option ReadError) (p : List Str) (t : Str) (r : GoMap) :
    scanLoop fail err p t r =
      if t = [] then
        match Scanner.Scan { pending := p, fail := fail, token := t, err := err } with
        | (false, s) =>
          (.error (match s.Err with
            | some e => .read e
            | none => .eof), s)
        | (true, s) => scanLoop s.fail s.err s.pending s.Text r
      else
        match getKeyValue t with
        | .error e => (.error e, { pending := p, fail := fail, token := t, err := err })
        | .ok (key, value) =>
          if (r.get? key).isSome then
            (.ok r, { pending := p, fail := fail, token := t, err := err })
          else
            match Scanner.Scan { pending := p, fail := fail, token := t, err := err } with
            | (false, s) =>
              (if (r.set key value).length = 0 then .error .eof else .ok (r.set key value), s)
            | (true, s) => scanLoop s.fail s.err s.pending s.Text (r.set key value) := by
  rw [scanLoop.eq_def]
  cases p with
  | nil =>
    simp only [Scan_nil, Scanner.Err]
  | cons l ls =>
    by_cases h : l.length < MaxScanTokenSize ∨ err.isSome = true
    · simp only [Scan_cons fail err t l ls h, h, if_true, Scanner.Text]
    · simp only [Scan_too_long fail err t l ls h, h, if_false, Scanner.Err]

/-- The scanner at the end of the input, on a blank line. -/
theorem scanLoop_nil_nil (fail err : Option ReadError) (result : GoMap) :
    scanLoop fail err [] [] result =
      (.error (match setErr err fail with
        | some e => .read e
        | none => .eof),
       { pending := [], fail := fail, token := [], err := setErr err fail }) := by
  rw [scanLoop.eq_def]
  simp only [if_true]

/-- The loop on a blank current line with a line to come that fits the buffer: that line
becomes current. -/
theorem scanLoop_blank_cons (fail err : Option ReadError) (l : Str) (ls : List Str)
    (result : GoMap) (h : l.length < MaxScanTokenSize ∨ err.isSome = true) :
    scanLoop fail err (l :: ls) [] result = scanLoop fail err ls (dropCR l) result := by
  rw [scanLoop.eq_def]
  simp only [if_true, h]

/-- The loop on a blank current line with a line to come that does not fit the buffer. -/
theorem scanLoop_blank_long (fail err : Option ReadError) (l : Str) (ls : List Str)
    (result : GoMap) (h : ¬ (l.length < MaxScanTokenSize ∨ err.isSome = true)) :
    scanLoop fail err (l :: ls) [] result =
      (.error (.read ErrTooLong),
       { pending := [l.take MaxScanTokenSize], fail := fail, token := [],
         err := some ErrTooLong }) := by
  rw [scanLoop.eq_def]
  simp only [if_true, h, if_false]

/-- The loop on a current line that is not blank. -/
theorem scanLoop_line (fail err : Option ReadError) (ls : List Str) (token : Str)
    (result : GoMap) (h : token ≠ []) :
    scanLoop fail err ls token result =
      match getKeyValue token with
      | .error e => (.error e, { pending := ls, fail := fail, token := token, err := err })
      | .ok (key, value) =>
        if (result.get? key).isSome then
          (.ok result, { pending := ls, fail := fail, token := token, err := err })
        else
          match ls with
          | [] =>
            (if (result.set key value).length = 0 then .error .eof
              else .ok (result.set key value),
             { pending := [], fail := fail, token := [], err := setErr err fail })
          | l :: ls' =>
            if l.length < MaxScanTokenSize ∨ err.isSome then
              scanLoop fail err ls' (dropCR l) (result.set key value)
            else
              (if (result.set key value).length = 0 then .error .eof
                else .ok (result.set key value),
               { pending := [l.take MaxScanTokenSize], fail := fail, token := [],
                 err := some ErrTooLong }) := by
  rw [scanLoop.eq_def]
  simp only [h, if_false]

/-- A map is not empty after an assignment: the test of line 100 never finds an empty
accumulator. -/
theorem set_ne_nil (m : GoMap) (k v : Str) :
    (if (m.set k v).length = 0 then (Except.error ScanError.eof : Except ScanError GoMap)
      else .ok (m.set k v)) = .ok (m.set k v) := by
  rw [if_neg (set_length_ne_zero m k v)]

/-- Reasoning by cases on the loop of `scanCase`: the end of the input on a blank line, a
line read while the current line is blank, a line too long for the buffer met there, a
malformed line, a repeated key, the last line of the input, a line added to the
accumulator, and a line too long for the buffer met after a line was added. -/
theorem scanLoop_cases (fail err : Option ReadError)
    (motive : List Str → Str → GoMap → Except ScanError GoMap × Scanner → Prop)
    (h_end : ∀ r, motive [] [] r
      (.error (match setErr err fail with
        | some e => .read e
        | none => .eof),
       { pending := [], fail := fail, token := [], err := setErr err fail }))
    (h_skip : ∀ l ls r, (l.length < MaxScanTokenSize ∨ err.isSome = true) →
      motive ls (dropCR l) r (scanLoop fail err ls (dropCR l) r) →
      motive (l :: ls) [] r (scanLoop fail err ls (dropCR l) r))
    (h_long : ∀ l ls r, ¬ (l.length < MaxScanTokenSize ∨ err.isSome = true) →
      motive (l :: ls) [] r
        (.error (.read ErrTooLong),
         { pending := [l.take MaxScanTokenSize], fail := fail, token := [],
           err := some ErrTooLong }))
    (h_bad : ∀ p t r, t ≠ [] → wellFormedLine t = false →
      motive p t r
        (.error (.unexpectedLine t), { pending := p, fail := fail, token := t, err := err }))
    (h_repeat : ∀ p t r k v, t ≠ [] → getKeyValue t = .ok (k, v) →
      (r.get? k).isSome = true →
      motive p t r (.ok r, { pending := p, fail := fail, token := t, err := err }))
    (h_last : ∀ t r k v, t ≠ [] → getKeyValue t = .ok (k, v) →
      (r.get? k).isSome = false →
      motive [] t r
        (.ok (r.set k v),
         { pending := [], fail := fail, token := [], err := setErr err fail }))
    (h_next : ∀ l ls t r k v, t ≠ [] → getKeyValue t = .ok (k, v) →
      (r.get? k).isSome = false → (l.length < MaxScanTokenSize ∨ err.isSome = true) →
      motive ls (dropCR l) (r.set k v) (scanLoop fail err ls (dropCR l) (r.set k v)) →
      motive (l :: ls) t r (scanLoop fail err ls (dropCR l) (r.set k v)))
    (h_cut : ∀ l ls t r k v, t ≠ [] → getKeyValue t = .ok (k, v) →
      (r.get? k).isSome = false → ¬ (l.length < MaxScanTokenSize ∨ err.isSome = true) →
      motive (l :: ls) t r
        (.ok (r.set k v),
         { pending := [l.take MaxScanTokenSize], fail := fail, token := [],
           err := some ErrTooLong }))
    (p : List Str) : ∀ (t : Str) (r : GoMap), motive p t r (scanLoop fail err p t r) := by
  induction p with
  | nil =>
    intro t r
    by_cases ht : t = []
    · subst ht
      rw [scanLoop_nil_nil]
      exact h_end r
    · rw [scanLoop_line fail err [] t r ht]
      cases hg : getKeyValue t with
      | error e =>
        have := getKeyValue_error t e hg
        subst this
        exact h_bad [] t r ht (by simp [wellFormedLine, hg])
      | ok kv =>
        obtain ⟨k, v⟩ := kv
        by_cases hk : (r.get? k).isSome = true
        · simp only [hk, if_true]
          exact h_repeat [] t r k v ht hg hk
        · simp only [hk, if_false, set_ne_nil, Bool.false_eq_true]
          exact h_last t r k v ht hg (by simpa using hk)
  | cons l ls ih =>
    intro t r
    by_cases hl : l.length < MaxScanTokenSize ∨ err.isSome = true
    · by_cases ht : t = []
      · subst ht
        rw [scanLoop_blank_cons fail err l ls r hl]
        exact h_skip l ls r hl (ih (dropCR l) r)
      · rw [scanLoop_line fail err (l :: ls) t r ht]
        cases hg : getKeyValue t with
        | error e =>
          have := getKeyValue_error t e hg
          subst this
          exact h_bad (l :: ls) t r ht (by simp [wellFormedLine, hg])
        | ok kv =>
          obtain ⟨k, v⟩ := kv
          by_cases hk : (r.get? k).isSome = true
          · simp only [hk, if_true]
            exact h_repeat (l :: ls) t r k v ht hg hk
          · simp only [hk, hl, if_true, if_false, Bool.false_eq_true]
            exact h_next l ls t r k v ht hg (by simpa using hk) hl (ih (dropCR l) (r.set k v))
    · by_cases ht : t = []
      · subst ht
        rw [scanLoop_blank_long fail err l ls r hl]
        exact h_long l ls r hl
      · rw [scanLoop_line fail err (l :: ls) t r ht]
        cases hg : getKeyValue t with
        | error e =>
          have := getKeyValue_error t e hg
          subst this
          exact h_bad (l :: ls) t r ht (by simp [wellFormedLine, hg])
        | ok kv =>
          obtain ⟨k, v⟩ := kv
          by_cases hk : (r.get? k).isSome = true
          · simp only [hk, if_true]
            exact h_repeat (l :: ls) t r k v ht hg hk
          · simp only [hk, hl, if_false, set_ne_nil, Bool.false_eq_true]
            exact h_cut l ls t r k v ht hg (by simpa using hk) hl

/-- One record: with the accumulator holding the fields read so far and the current line
being the next field, the loop returns the whole record. It stops either at the end of the
input, or at the first line of what follows when the key of that line is a key of the
record; that line is then still the current token of the scanner. Every line fits the
buffer and none ends in a carriage return. -/
theorem scanLoop_record (rest : List (Str × Str)) :
    ∀ (acc : GoMap) (f : Str × Str) (tail : List Str),
    ((acc ++ f :: rest).map Prod.fst).Nodup →
    (∀ g ∈ f :: rest, Contains g.1 kvSep = false ∧ ¬ (" =".toList <:+ g.1) ∧
      Contains g.2 kvSep = false) →
    (∀ g ∈ rest, (fieldLine g).length < MaxScanTokenSize ∧ g.2.getLast? ≠ some '\r') →
    (∀ l ls, tail = l :: ls → ∃ g, l = fieldLine g ∧ g.1 ∈ (acc ++ f :: rest).map Prod.fst ∧
      Contains g.1 kvSep = false ∧ ¬ (" =".toList <:+ g.1) ∧ Contains g.2 kvSep = false ∧
      (fieldLine g).length < MaxScanTokenSize ∧ g.2.getLast? ≠ some '\r') →
    scanLoop none none (rest.map fieldLine ++ tail) (fieldLine f) acc =
      (.ok (acc ++ f :: rest),
        match tail with
        | [] => { pending := [], fail := none, token := [], err := none }
        | l :: ls => { pending := ls, fail := none, token := l, err := none }) := by
  induction rest with
  | nil =>
    intro acc f tail hnd hf _ htail
    obtain ⟨hk, hend, hv⟩ := hf f (List.mem_cons_self _ _)
    have hnotin : f.1 ∉ acc.map Prod.fst := by
      simp only [List.map_append, List.map_cons, List.map_nil] at hnd
      have := (List.nodup_append.mp hnd).2.2
      intro hmem
      exact this hmem (List.mem_cons_self _ _)
    rw [scanLoop_line none none _ _ _ (fieldLine_ne_nil f)]
    simp only [getKeyValue_fieldLine f.1 f.2 hk hend hv,
      get?_eq_none acc f.1 hnotin, set_of_not_mem acc f.1 f.2 hnotin, List.map_nil,
      List.nil_append, Option.isSome_none, Bool.false_eq_true, if_false]
    cases tail with
    | nil => simp [setErr]
    | cons l ls =>
      obtain ⟨g, hl, hg, hgk, hgend, hgv, hglen, hgcr⟩ := htail l ls rfl
      subst hl
      simp only [hglen, true_or, if_true, dropCR_fieldLine g hgcr]
      rw [scanLoop_line none none _ _ _ (fieldLine_ne_nil g)]
      have hin : g.1 ∈ (acc ++ [(f.1, f.2)]).map Prod.fst := by simpa using hg
      simp [getKeyValue_fieldLine g.1 g.2 hgk hgend hgv, get?_isSome _ _ hin]
  | cons f' rest' ih =>
    intro acc f tail hnd hf hplain htail
    obtain ⟨hk, hend, hv⟩ := hf f (List.mem_cons_self _ _)
    obtain ⟨hlen', hcr'⟩ := hplain f' (List.mem_cons_self _ _)
    have hnotin : f.1 ∉ acc.map Prod.fst := by
      simp only [List.map_append, List.map_cons] at hnd
      have := (List.nodup_append.mp hnd).2.2
      intro hmem
      exact this hmem (List.mem_cons_self _ _)
    rw [scanLoop_line none none _ _ _ (fieldLine_ne_nil f)]
    simp only [getKeyValue_fieldLine f.1 f.2 hk hend hv,
      get?_eq_none acc f.1 hnotin, set_of_not_mem acc f.1 f.2 hnotin, List.map_cons,
      List.cons_append, Option.isSome_none, Bool.false_eq_true, if_false, hlen', true_or,
      if_true, dropCR_fieldLine f' hcr']
    have key : acc ++ [(f.1, f.2)] ++ f' :: rest' = acc ++ f :: f' :: rest' := by simp
    have := ih (acc ++ [(f.1, f.2)]) f' tail (by rw [key]; exact hnd)
      (fun g hg => hf g (List.mem_cons_of_mem _ hg))
      (fun g hg => hplain g (List.mem_cons_of_mem _ hg)) (by rw [key]; exact htail)
    rw [this, key]

/-- After the end of the input, with no line current and no error, `scanCase` reports
the end of the input. -/
theorem scanCase_at_end :
    scanCase { pending := [], fail := none, token := [], err := none } =
      (.error .eof, { pending := [], fail := none, token := [], err := none }) := by
  simp [scanCase, Scanner.Text, scanLoop_nil_nil, setErr]

/-- The first call on a fresh scanner starts by reading the first line. -/
theorem scanCase_NewScanner_cons (l : Str) (ls : List Str) (fail : Option ReadError)
    (h : l.length < MaxScanTokenSize) :
    scanCase (NewScanner (l :: ls) fail) =
      scanCase { pending := ls, fail := fail, token := dropCR l, err := none } := by
  simp only [scanCase, NewScanner, Scanner.Text]
  exact scanLoop_blank_cons fail none l ls [] (Or.inl h)

/-- Records with the same distinct keys, the first field of the first one being the
current line: the calls return the records in order and then the end of the input. -/
theorem scanCalls_records (keys : List Str) (hne : keys ≠ []) (hnd : keys.Nodup)
    (hkeys : ∀ k ∈ keys, Contains k kvSep = false ∧ ¬ (" =".toList <:+ k))
    (records : List (List (Str × Str))) :
    ∀ (f : Str × Str) (rest : List (Str × Str)),
    (∀ r ∈ (f :: rest) :: records, r.map Prod.fst = keys) →
    (∀ r ∈ (f :: rest) :: records, ∀ g ∈ r, Contains g.2 kvSep = false ∧
      (fieldLine g).length < MaxScanTokenSize ∧ g.2.getLast? ≠ some '\r') →
    scanCalls (records.length + 2)
        { pending := rest.map fieldLine ++ recordLines records, fail := none,
          token := fieldLine f, err := none } =
      .ok (f :: rest) :: (records.map .ok ++ [.error .eof]) := by
  induction records with
  | nil =>
    intro f rest hr hv
    have hk : (f :: rest).map Prod.fst = keys := hr _ (List.mem_cons_self _ _)
    have hloop := scanLoop_record rest [] f [] (by simpa [hk] using hnd)
      (fun g hg => by
        have hgk : g.1 ∈ keys := by rw [← hk]; exact List.mem_map_of_mem _ hg
        exact ⟨(hkeys _ hgk).1, (hkeys _ hgk).2, (hv _ (List.mem_cons_self _ _) g hg).1⟩)
      (fun g hg => (hv _ (List.mem_cons_self _ _) g (List.mem_cons_of_mem _ hg)).2)
      (fun l ls h => by cases h)
    simp only [List.append_nil, List.nil_append] at hloop
    have hend := scanCase_at_end
    simp only [scanCase, Scanner.Text] at hend
    simp only [scanCalls, scanCase, Scanner.Text, recordLines, List.map_nil, List.flatten_nil,
      List.append_nil, hloop, List.nil_append, List.length_nil, hend]
  | cons r rs ih =>
    intro f rest hr hv
    have hk : (f :: rest).map Prod.fst = keys := hr _ (List.mem_cons_self _ _)
    have hrk : r.map Prod.fst = keys := hr r (by simp)
    cases r with
    | nil => exact absurd hrk.symm hne
    | cons g rest' =>
      have hline : recordLines ((g :: rest') :: rs) =
          fieldLine g :: (rest'.map fieldLine ++ recordLines rs) := by
        simp [recordLines]
      have hgk : g.1 ∈ keys := by rw [← hrk]; simp
      have hgv := hv (g :: rest') (by simp) g (List.mem_cons_self _ _)
      have hloop := scanLoop_record rest [] f (recordLines ((g :: rest') :: rs))
        (by simpa [hk] using hnd)
        (fun g' hg => by
          have hgk' : g'.1 ∈ keys := by rw [← hk]; exact List.mem_map_of_mem _ hg
          exact ⟨(hkeys _ hgk').1, (hkeys _ hgk').2, (hv _ (List.mem_cons_self _ _) g' hg).1⟩)
        (fun g' hg => (hv _ (List.mem_cons_self _ _) g' (List.mem_cons_of_mem _ hg)).2)
        (fun l ls h => by
          rw [hline] at h
          cases h
          refine ⟨g, rfl, ?_, (hkeys _ hgk).1, (hkeys _ hgk).2, hgv.1, hgv.2⟩
          simpa [hk] using hgk)
      have hih := ih g rest'
        (fun r' hr' => hr r' (List.mem_cons_of_mem _ hr'))
        (fun r' hr' => hv r' (List.mem_cons_of_mem _ hr'))
      rw [hline] at hloop
      simp only [List.nil_append] at hloop
      rw [show ((g :: rest') :: rs).length + 2 = (rs.length + 2) + 1 by simp]
      rw [scanCalls]
      simp only [scanCase, Scanner.Text, hline, hloop]
      rw [hih]
      simp

/-- Records with the same distinct keys and nothing else in the input: the calls on a
fresh scanner return the records in order and then the end of the input. -/
theorem scanCalls_recordLines (keys : List Str) (records : List (List (Str × Str)))
    (hne : keys ≠ []) (hnd : keys.Nodup)
    (hkeys : ∀ k ∈ keys, Contains k kvSep = false ∧ ¬ (" =".toList <:+ k))
    (hrec : ∀ r ∈ records, r.map Prod.fst = keys)
    (hval : ∀ r ∈ records, ∀ g ∈ r, Contains g.2 kvSep = false ∧
      (fieldLine g).length < MaxScanTokenSize ∧ g.2.getLast? ≠ some '\r') :
    scanCalls (records.length + 1) (NewScanner (recordLines records) none) =
      records.map .ok ++ [.error .eof] := by
  cases records with
  | nil =>
    simp [scanCalls, recordLines, NewScanner, scanCase, Scanner.Text, scanLoop_nil_nil, setErr]
  | cons r rs =>
    have hrk : r.map Prod.fst = keys := hrec r (List.mem_cons_self _ _)
    cases r with
    | nil => exact absurd hrk.symm hne
    | cons f rest =>
      have hline : recordLines ((f :: rest) :: rs) =
          fieldLine f :: (rest.map fieldLine ++ recordLines rs) := by
        simp [recordLines]
      have hf := hval (f :: rest) (List.mem_cons_self _ _) f (List.mem_cons_self _ _)
      have h := scanCalls_records keys hne hnd hkeys rs f rest hrec hval
      rw [show rs.length + 2 = (rs.length + 1) + 1 by rfl, scanCalls] at h
      rw [show ((f :: rest) :: rs).length + 1 = (rs.length + 1) + 1 by simp, scanCalls, hline,
        scanCase_NewScanner_cons _ _ _ hf.2.1, dropCR_fieldLine f hf.2.2, h]
      simp

/-! ## Theorems: blank lines -/

/-- A list whose last line is not blank and whose first line is blank goes on after the
first line, and still ends in a line that is not blank. -/
theorem getLast?_tail_of_blank (ls : List Str)
    (h : (([] : Str) :: ls).getLast? ≠ some []) : ls ≠ [] ∧ ls.getLast? ≠ some [] := by
  cases ls with
  | nil => simp at h
  | cons l ls' => exact ⟨by simp, by simpa [List.getLast?_cons_cons] using h⟩

/-- The tail of a list whose last line is not blank does not end in a blank line. -/
theorem getLast?_tail (l : Str) (ls : List Str) (h : (l :: ls).getLast? ≠ some []) :
    ls.getLast? ≠ some [] := by
  cases ls with
  | nil => simp
  | cons l' ls' => simpa [List.getLast?_cons_cons] using h

/-- A blank line is dropped. -/
theorem nonBlank_cons_blank (l : Str) (ls : List Str) (h : dropCR l = []) :
    nonBlank (l :: ls) = nonBlank ls := by
  simp [nonBlank, h]

/-- A line that is not blank is kept. -/
theorem nonBlank_cons_line (l : Str) (ls : List Str) (h : dropCR l ≠ []) :
    nonBlank (l :: ls) = l :: nonBlank ls := by
  simp [nonBlank, h]

/-- Lines that do not end in a blank line and are not all blank have a first non-blank
line. -/
theorem nonBlank_ne_nil (ls : List Str) (hne : ls ≠ [])
    (h : (ls.map dropCR).getLast? ≠ some []) : nonBlank ls ≠ [] := by
  induction ls with
  | nil => exact absurd rfl hne
  | cons l ls' ih =>
    by_cases hl : dropCR l = []
    · rw [List.map_cons, hl] at h
      obtain ⟨h1, h2⟩ := getLast?_tail_of_blank _ h
      rw [nonBlank_cons_blank l ls' hl]
      exact ih (by simpa using h1) h2
    · simp [nonBlank, hl]

/-- The lines that are not blank are lines of the input. -/
theorem mem_of_mem_nonBlank (ls : List Str) (l : Str) (h : l ∈ nonBlank ls) : l ∈ ls :=
  (List.mem_filter.mp h).1

/-- Blank lines are transparent to the loop of `scanCase` when every line fits the buffer
and the input does not end in a blank line: the result on the lines still to come is the
result on the non-blank ones among them, and the scanners afterwards differ only in that
the second one holds the non-blank lines of the first. -/
theorem scanLoop_nonBlank (fail err : Option ReadError) (ls : List Str) :
    ∀ (token : Str) (result : GoMap), (ls.map dropCR).getLast? ≠ some [] →
      (∀ l ∈ ls, l.length < MaxScanTokenSize) →
      scanLoop fail err (nonBlank ls) token result =
        ((scanLoop fail err ls token result).1,
         { (scanLoop fail err ls token result).2 with
           pending := nonBlank (scanLoop fail err ls token result).2.pending }) ∧
      ((scanLoop fail err ls token result).2.pending.map dropCR).getLast? ≠ some [] ∧
      ∀ l ∈ (scanLoop fail err ls token result).2.pending, l.length < MaxScanTokenSize := by
  induction ls with
  | nil =>
    intro token result _ _
    by_cases ht : token = []
    · subst ht
      rw [show nonBlank ([] : List Str) = [] from rfl, scanLoop_nil_nil]
      simp [nonBlank]
    · rw [show nonBlank ([] : List Str) = [] from rfl, scanLoop_line fail err [] token result ht]
      cases getKeyValue token with
      | error e => simp [nonBlank]
      | ok kv =>
        obtain ⟨k, v⟩ := kv
        by_cases hk : (result.get? k).isSome = true
        · simp [hk, nonBlank]
        · simp [hk, nonBlank]
  | cons l ls' ih =>
    intro token result hlast hshort
    have hl : l.length < MaxScanTokenSize ∨ err.isSome = true :=
      Or.inl (hshort l (List.mem_cons_self _ _))
    have hshort' : ∀ x ∈ ls', x.length < MaxScanTokenSize :=
      fun x hx => hshort x (List.mem_cons_of_mem _ hx)
    have hlast' : (ls'.map dropCR).getLast? ≠ some [] := by
      rw [List.map_cons] at hlast
      exact getLast?_tail _ _ hlast
    by_cases ht : token = []
    · subst ht
      rw [scanLoop_blank_cons fail err l ls' result hl]
      by_cases hb : dropCR l = []
      · rw [nonBlank_cons_blank l ls' hb, hb]
        exact ih [] result hlast' hshort'
      · rw [nonBlank_cons_line l ls' hb, scanLoop_blank_cons fail err l _ result hl]
        exact ih (dropCR l) result hlast' hshort'
    · rw [scanLoop_line fail err (l :: ls') token result ht,
        scanLoop_line fail err (nonBlank (l :: ls')) token result ht]
      cases getKeyValue token with
      | error e => exact ⟨rfl, hlast, hshort⟩
      | ok kv =>
        obtain ⟨k, v⟩ := kv
        by_cases hk : (result.get? k).isSome = true
        · dsimp only
          rw [if_pos hk, if_pos hk]
          exact ⟨rfl, hlast, hshort⟩
        · dsimp only
          rw [if_neg hk, if_neg hk, if_pos hl]
          by_cases hb : dropCR l = []
          · have hne : ls' ≠ [] := by
              rw [List.map_cons, hb] at hlast
              simpa using (getLast?_tail_of_blank _ hlast).1
            obtain ⟨l2, rest, hsplit⟩ :=
              List.exists_cons_of_ne_nil (nonBlank_ne_nil ls' hne hlast')
            have hl2 : l2.length < MaxScanTokenSize ∨ err.isSome = true :=
              Or.inl (hshort' l2 (mem_of_mem_nonBlank ls' l2 (by rw [hsplit]; simp)))
            have := ih [] (result.set k v) hlast' hshort'
            rw [hsplit, scanLoop_blank_cons fail err l2 rest _ hl2] at this
            rw [nonBlank_cons_blank l ls' hb, hsplit, hb]
            dsimp only
            rw [if_pos hl2]
            exact this
          · rw [nonBlank_cons_line l ls' hb]
            dsimp only
            rw [if_pos hl]
            exact ih (dropCR l) (result.set k v) hlast' hshort'

/-- Blank lines are transparent to successive calls of `scanCase` when every line fits
the buffer and the input does not end in a blank line. -/
theorem scanCalls_nonBlank (n : Nat) :
    ∀ (s : Scanner), (s.pending.map dropCR).getLast? ≠ some [] →
      (∀ l ∈ s.pending, l.length < MaxScanTokenSize) →
      scanCalls n s = scanCalls n { s with pending := nonBlank s.pending } := by
  induction n with
  | zero => intro s _ _; rfl
  | succ k ih =>
    intro s hs hshort
    obtain ⟨h1, h2, h3⟩ := scanLoop_nonBlank s.fail s.err s.pending s.token [] hs hshort
    simp only [scanCalls, scanCase, Scanner.Text]
    rw [h1]
    simp only
    rw [ih _ h2 h3]

/-- A line of a file made of records is the line of a field of one of them. -/
theorem mem_recordLines (records : List (List (Str × Str))) (l : Str)
    (h : l ∈ recordLines records) : ∃ r ∈ records, ∃ g ∈ r, l = fieldLine g := by
  simp only [recordLines, List.mem_flatten, List.mem_map] at h
  obtain ⟨ls, ⟨r, hr, hls⟩, hl⟩ := h
  subst hls
  obtain ⟨g, hg, hgl⟩ := List.mem_map.mp hl
  exact ⟨r, hr, g, hg, hgl.symm⟩

/-- C1 (amended): for every input made of consecutive records that all use the same
non-empty sequence of pairwise distinct field names, each field written as one line
`key = value`, where no key and no value contains the separator `" = "`, no key ends in
`" ="`, no value ends in a carriage return and every line is shorter than the 65536
bytes of the scanner's buffer, with no blank line after the last record, successive calls
of `scanCase` on one scanner return the records in input order, each with exactly its
key/value pairs, and the call after the last record returns `io.EOF`; the line whose key
repeats is the first pair of the next record. The same holds when blank lines (empty, or
a lone carriage return) stand before or between the lines of the records, as long as the
input does not end in a blank line. -/
theorem C1_scanCase_records (keys : List Str) (records : List (List (Str × Str)))
    (hne : keys ≠ []) (hnd : keys.Nodup)
    (hkeys : ∀ k ∈ keys, Contains k kvSep = false ∧ ¬ (" =".toList <:+ k))
    (hrec : ∀ r ∈ records, r.map Prod.fst = keys)
    (hval : ∀ r ∈ records, ∀ g ∈ r, Contains g.2 kvSep = false)
    (hcr : ∀ r ∈ records, ∀ g ∈ r, g.2.getLast? ≠ some '\r')
    (hfit : ∀ r ∈ records, ∀ g ∈ r, (fieldLine g).length < MaxScanTokenSize) :
    scanCalls (records.length + 1) (NewScanner (recordLines records) none) =
      records.map .ok ++ [.error .eof] ∧
    ∀ lines : List Str, nonBlank lines = recordLines records →
      (lines.map dropCR).getLast? ≠ some [] →
      scanCalls (records.length + 1) (NewScanner lines none) =
        records.map .ok ++ [.error .eof] := by
  have h := scanCalls_recordLines keys records hne hnd hkeys hrec
    (fun r hr g hg => ⟨hval r hr g hg, hfit r hr g hg, hcr r hr g hg⟩)
  refine ⟨h, ?_⟩
  intro lines hlines hlast
  have hshort : ∀ l ∈ lines, l.length < MaxScanTokenSize := by
    intro l hl
    by_cases hb : dropCR l = []
    · exact length_of_dropCR_nil l hb
    · have hmem : l ∈ nonBlank lines := List.mem_filter.mpr ⟨hl, by simpa using hb⟩
      rw [hlines] at hmem
      obtain ⟨r, hr, g, hg, hgl⟩ := mem_recordLines records l hmem
      rw [hgl]
      exact hfit r hr g hg
  have hb := scanCalls_nonBlank (records.length + 1) (NewScanner lines none) hlast hshort
  rw [hb]
  simp only [NewScanner, hlines] at h ⊢
  exact h

/-- C1, an instance: two records with the fields `a` and `b`. -/
theorem C1_scanCase_records_witness :
    scanCalls 3 (NewScanner ["a = 1".toList, "b = 2".toList, "a = 3".toList, "b = 4".toList]
        none) =
      [.ok [("a".toList, "1".toList), ("b".toList, "2".toList)],
       .ok [("a".toList, "3".toList), ("b".toList, "4".toList)], .error .eof] :=
  (C1_scanCase_records ["a".toList, "b".toList]
    [[("a".toList, "1".toList), ("b".toList, "2".toList)],
     [("a".toList, "3".toList), ("b".toList, "4".toList)]]
    (by decide) (by decide) (by decide) (by decide) (by decide) (by decide) (by decide)).1

/-! ## Theorems: lines longer than the buffer -/

/-- A run of the digit `0` does not contain the separator. -/
theorem Contains_zeros (n : Nat) : Contains (List.replicate n '0') kvSep = false := by
  have h : Index (List.replicate n '0') kvSep = none := by
    induction n with
    | zero => rfl
    | succ k ih =>
      rw [List.replicate_succ, Index, ih]
      simp [kvSep, List.isPrefixOf]
  simp [Contains, h]

/-- A line `xi = 00...0` does not end in a carriage return. -/
theorem dropCR_zerosLine (n : Nat) :
    dropCR (fieldLine ("xi".toList, List.replicate n '0')) =
      fieldLine ("xi".toList, List.replicate n '0') := by
  apply dropCR_fieldLine
  intro hl
  have := List.mem_of_getLast?_eq_some hl
  simp at this

/-- A line `xi = 00...0` with at least 65536 digits is longer than the buffer, does not
end in a carriage return, and is accepted by `getKeyValue`. -/
theorem longLine_props (n : Nat) (h : 65536 ≤ n) :
    MaxScanTokenSize ≤ (fieldLine ("xi".toList, List.replicate n '0')).length ∧
    dropCR (fieldLine ("xi".toList, List.replicate n '0')) =
      fieldLine ("xi".toList, List.replicate n '0') ∧
    wellFormedLine (fieldLine ("xi".toList, List.replicate n '0')) = true := by
  refine ⟨?_, ?_, ?_⟩
  · simp only [fieldLine, List.length_append, List.length_replicate, MaxScanTokenSize]
    omega
  · exact dropCR_zerosLine n
  · have := getKeyValue_fieldLine "xi".toList (List.replicate n '0') (by decide)
      (by decide) (Contains_zeros n)
    simp only [wellFormedLine, this]

/-- The long sample line is longer than the buffer, does not end in a carriage return,
and is accepted by `getKeyValue`. -/
theorem sampleLongLine_props :
    MaxScanTokenSize ≤ sampleLongLine.length ∧ dropCR sampleLongLine = sampleLongLine ∧
    wellFormedLine sampleLongLine = true :=
  longLine_props 65536 (Nat.le_refl _)

/-- The buffer keeps the first 65536 bytes of a line `xi = 00...0` that does not fit. -/
theorem take_longLine (n : Nat) (h : 65531 ≤ n) :
    (fieldLine ("xi".toList, List.replicate n '0')).take MaxScanTokenSize =
      fieldLine ("xi".toList, List.replicate 65531 '0') := by
  have h5 : MaxScanTokenSize = ("xi".toList ++ kvSep).length + 65531 := by decide
  simp only [fieldLine]
  rw [h5, List.take_append, List.take_replicate, Nat.min_eq_left h]

/-- The calls of `scanCase` on an input whose one line `xi = 00...0` does not fit the
buffer: the first call returns `ErrTooLong`; the second call finds the first 65536 bytes
of the line as a token and returns them as a record; the third call returns `ErrTooLong`
again. -/
theorem scanCalls_too_long (n : Nat) (h : 65536 ≤ n) :
    scanCalls 3 (NewScanner [fieldLine ("xi".toList, List.replicate n '0')] none) =
      [.error (.read ErrTooLong), .ok [("xi".toList, List.replicate 65531 '0')],
       .error (.read ErrTooLong)] := by
  obtain ⟨hlen, _, _⟩ := longLine_props n h
  have hl : ¬ ((fieldLine ("xi".toList, List.replicate n '0')).length < MaxScanTokenSize ∨
      (none : Option ReadError).isSome = true) := by
    simp only [Option.isSome_none, Bool.false_eq_true, or_false]
    omega
  have hcr : dropCR (fieldLine ("xi".toList, List.replicate 65531 '0')) =
      fieldLine ("xi".toList, List.replicate 65531 '0') := dropCR_zerosLine 65531
  have hkv := getKeyValue_fieldLine "xi".toList (List.replicate 65531 '0') (by decide)
    (by decide) (Contains_zeros 65531)
  have c1 : scanCase (NewScanner [fieldLine ("xi".toList, List.replicate n '0')] none) =
      (.error (.read ErrTooLong),
       { pending := [fieldLine ("xi".toList, List.replicate 65531 '0')], fail := none,
         token := [], err := some ErrTooLong }) := by
    simp only [scanCase, NewScanner, Scanner.Text]
    rw [scanLoop_blank_long none none _ [] [] hl, take_longLine n (by omega)]
  have c2 : scanCase
        { pending := [fieldLine ("xi".toList, List.replicate 65531 '0')], fail := none,
          token := [], err := some ErrTooLong } =
      (.ok [("xi".toList, List.replicate 65531 '0')],
       { pending := [], fail := none, token := [], err := some ErrTooLong }) := by
    simp only [scanCase, Scanner.Text]
    rw [scanLoop_blank_cons none (some ErrTooLong) _ [] [] (Or.inr rfl), hcr,
      scanLoop_line none (some ErrTooLong) [] _ [] (fieldLine_ne_nil _), hkv]
    dsimp only
    rw [show GoMap.get? [] "xi".toList = none from rfl, set_ne_nil]
    rfl
  have c3 : scanCase { pending := [], fail := none, token := [], err := some ErrTooLong } =
      (.error (.read ErrTooLong),
       { pending := [], fail := none, token := [], err := some ErrTooLong }) := by
    simp only [scanCase, Scanner.Text]
    rw [scanLoop_nil_nil]
    rfl
  simp only [scanCalls, c1, c2, c3]

/-- The first call of `scanCase` on the line `a = 1` followed by a line that does not fit
the buffer returns the record of `a`; with an empty line between the two it returns
`ErrTooLong`, and the pair of `a` is lost. -/
theorem scanCalls_blank_before_long (long : Str) (h : MaxScanTokenSize ≤ long.length) :
    scanCalls 1 (NewScanner ["a = 1".toList, long] none) =
      [.ok [("a".toList, "1".toList)]] ∧
    scanCalls 1 (NewScanner ["a = 1".toList, [], long] none) =
      [.error (.read ErrTooLong)] := by
  have hl : ¬ (long.length < MaxScanTokenSize ∨ (none : Option ReadError).isSome = true) := by
    simp only [Option.isSome_none, Bool.false_eq_true, or_false]
    omega
  have ha : "a = 1".toList.length < MaxScanTokenSize ∨
      (none : Option ReadError).isSome = true := Or.inl (by decide)
  have hb : ([] : Str).length < MaxScanTokenSize ∨
      (none : Option ReadError).isSome = true := Or.inl (by decide)
  have hcr : dropCR "a = 1".toList = "a = 1".toList := by decide
  have hcr0 : dropCR ([] : Str) = [] := by decide
  have hne : "a = 1".toList ≠ [] := by decide
  have hkv : getKeyValue "a = 1".toList = .ok ("a".toList, "1".toList) := by decide
  constructor
  · simp only [scanCalls, scanCase, NewScanner, Scanner.Text,
      scanLoop_blank_cons none none _ _ [] ha, hcr,
      scanLoop_line none none _ _ [] hne, hkv, hl, if_false]
    rfl
  · simp only [scanCalls, scanCase, NewScanner, Scanner.Text,
      scanLoop_blank_cons none none _ _ [] ha, hcr,
      scanLoop_line none none _ _ [] hne, hkv, hb, if_true, hcr0]
    rw [show GoMap.get? [] "a".toList = none from rfl]
    simp only [Option.isSome_none, Bool.false_eq_true, if_false,
      scanLoop_blank_long none none long [] _ hl]

/-! ## Theorems: the first separator of a line, a carriage return, a long line, and a blank
line at the end -/

/-- C1 as stated fails, in three ways. The key `a =` and the value `b` contain neither
the separator nor a newline, and the record with this one field is written as the line
`a = = b`; that line is split at its first separator, so the record `scanCase` returns has
the key `a` with the value `= b`, not the key `a =` with the value `b`: looking up `a =`
in it finds nothing. A value that ends in a carriage return comes back without it. A
line of 65536 bytes or more is not returned: the first call returns `ErrTooLong`, the
second one a record made of the first 65536 bytes of the line. -/
theorem C1_counterexample :
    (Contains "a =".toList kvSep = false ∧ Contains "b".toList kvSep = false ∧
      '\n' ∉ "a =".toList ∧ '\n' ∉ "b".toList ∧
      recordLines [[("a =".toList, "b".toList)]] = ["a = = b".toList] ∧
      scanCalls 2 (NewScanner (recordLines [[("a =".toList, "b".toList)]]) none) =
        [.ok [("a".toList, "= b".toList)], .error .eof] ∧
      scanCalls 2 (NewScanner (recordLines [[("a =".toList, "b".toList)]]) none) ≠
        [.ok [("a =".toList, "b".toList)], .error .eof] ∧
      GoMap.get? [("a".toList, "= b".toList)] "a =".toList = none ∧
      GoMap.get? [("a".toList, "= b".toList)] "a".toList = some "= b".toList) ∧
    (Contains ['1', '\r'] kvSep = false ∧ '\n' ∉ ['1', '\r'] ∧
      scanCalls 2 (NewScanner (recordLines [[("a".toList, ['1', '\r'])]]) none) =
        [.ok [("a".toList, "1".toList)], .error .eof]) ∧
    (Contains (List.replicate 65536 '0') kvSep = false ∧
      sampleLongLine = fieldLine ("xi".toList, List.replicate 65536 '0') ∧
      scanCalls 3 (NewScanner [sampleLongLine] none) =
        [.error (.read ErrTooLong), .ok [("xi".toList, List.replicate 65531 '0')],
         .error (.read ErrTooLong)]) := by
  refine ⟨by decide, by decide, Contains_zeros 65536, rfl, ?_⟩
  exact scanCalls_too_long 65536 (Nat.le_refl _)

/-- C2 fails on the code: when the input ends while the current line is blank, the loop
returns the error of the scanner, and `io.EOF` when it has none, whatever the accumulator
holds. The input with the lines `a = 1` and an empty line is an instance: the first call
returns `io.EOF` and the pair of `a` is lost, whereas without the empty line the same
call returns the record. -/
theorem C2_blank_line_at_end_drops_record :
    (∀ (fail err : Option ReadError) (acc : GoMap),
      (scanLoop fail err [] [] acc).1 =
        .error (match setErr err fail with
          | some e => .read e
          | none => .eof)) ∧
    (∀ acc : GoMap, (scanLoop none none [] [] acc).1 = .error .eof) ∧
    (scanLoop none none [] [] [("a".toList, "1".toList)]).1 = .error .eof ∧
    scanCalls 2 (NewScanner ["a = 1".toList, []] none) = [.error .eof, .error .eof] ∧
    scanCalls 2 (NewScanner ["a = 1".toList] none) =
      [.ok [("a".toList, "1".toList)], .error .eof] := by
  refine ⟨?_, ?_, by decide, by decide, by decide⟩
  · intro fail err acc
    rw [scanLoop_nil_nil]
  · intro acc
    rw [scanLoop_nil_nil]
    rfl

/-! ## Theorems: the digest mu -/

/-- Squeezing `n` bytes gives `n` bytes. -/
theorem H_length (xof : Bytes → Nat → Nat) (x : Bytes) (n : Nat) : (H xof x n).length = n := by
  simp [H]

/-- The value and the operations of `computeExternalMu` for a context of at most 255
bytes. -/
theorem computeExternalMu_eq (xof : Bytes → Nat → Nat) (pk ctx msg : Bytes)
    (hctx : ctx.length ≤ 255) :
    computeExternalMu xof pk ctx msg =
      (.ok (H xof (H xof pk 64 ++ [0] ++ [ctx.length] ++ ctx ++ msg) 64),
       [.create, .write pk, .read 64, .reset, .write (H xof pk 64), .write [0],
        .write [ctx.length], .write ctx, .write msg, .read 64]) := by
  have hnot : ¬ ctx.length > 255 := by omega
  have hmod : ctx.length % 256 = ctx.length := Nat.mod_eq_of_lt (by omega)
  simp [computeExternalMu, hnot, NewSHAKE256, SHAKE.Write, SHAKE.Read, SHAKE.Reset,
    binaryWrite, uint8, H, hmod]

/-- C5: for a context of at most 255 bytes `computeExternalMu` succeeds and returns
`H(H(pk, 64) ++ [0] ++ [len ctx] ++ ctx ++ msg, 64)`, which is 64 bytes long. The
operations on the hash instance are, in this order: creation, absorbing `pk`, squeezing
64 bytes (`tr`), a reset, then absorbing `tr`, the byte 0, the length byte, `ctx` and
`msg`, and squeezing 64 bytes; so the second stage starts from a fresh state and absorbs
nothing of `pk` but `tr`. The result is a function of `pk`, `ctx` and `msg`. -/
theorem C5_computeExternalMu_value (xof : Bytes → Nat → Nat) (pk ctx msg : Bytes)
    (hctx : ctx.length ≤ 255) :
    (computeExternalMu xof pk ctx msg).1 =
      .ok (H xof (H xof pk 64 ++ [0] ++ [ctx.length] ++ ctx ++ msg) 64) ∧
    (H xof (H xof pk 64 ++ [0] ++ [ctx.length] ++ ctx ++ msg) 64).length = 64 ∧
    (computeExternalMu xof pk ctx msg).2 =
      [.create, .write pk, .read 64, .reset, .write (H xof pk 64), .write [0],
       .write [ctx.length], .write ctx, .write msg, .read 64] := by
  rw [computeExternalMu_eq xof pk ctx msg hctx]
  exact ⟨rfl, H_length _ _ _, rfl⟩

/-- C5, an instance: a public key of two bytes, a context of one byte, a message of one
byte. -/
theorem C5_computeExternalMu_value_witness :
    (computeExternalMu sampleXof [1, 2] [3] [4]).1 =
      .ok (H sampleXof (H sampleXof [1, 2] 64 ++ [0] ++ [1] ++ [3] ++ [4]) 64) ∧
    (H sampleXof (H sampleXof [1, 2] 64 ++ [0] ++ [1] ++ [3] ++ [4]) 64).length = 64 ∧
    (computeExternalMu sampleXof [1, 2] [3] [4]).2 =
      [.create, .write [1, 2], .read 64, .reset, .write (H sampleXof [1, 2] 64), .write [0],
       .write [1], .write [3], .write [4], .read 64] :=
  C5_computeExternalMu_value sampleXof [1, 2] [3] [4] (by decide)

/-- C6: `computeExternalMu` fails if and only if the context is longer than 255 bytes; a
context of 255 bytes is accepted and one of 256 bytes is rejected. When it fails, no
operation is performed on any hash instance and the result is the same for every output
stream, public key and message. When it succeeds, the length byte absorbed is
`len(ctx)` itself: the conversion to `uint8` does not wrap. -/
theorem C6_computeExternalMu_boundary (xof : Bytes → Nat → Nat) (pk ctx msg : Bytes) :
    ((∃ e, (computeExternalMu xof pk ctx msg).1 = .error e) ↔ 255 < ctx.length) ∧
    (255 < ctx.length →
      ∀ (xof' : Bytes → Nat → Nat) (pk' msg' : Bytes),
        computeExternalMu xof' pk' ctx msg' = (.error (.ctxTooLarge ctx.length), [])) ∧
    (ctx.length ≤ 255 →
      uint8 ctx.length = ctx.length ∧
      (∃ mu, (computeExternalMu xof pk ctx msg).1 = .ok mu) ∧
      (computeExternalMu xof pk ctx msg).2.get? 6 = some (.write [ctx.length])) ∧
    (∃ mu, (computeExternalMu xof pk (List.replicate 255 0) msg).1 = .ok mu) ∧
    computeExternalMu xof pk (List.replicate 256 0) msg = (.error (.ctxTooLarge 256), []) := by
  have hsucc : ∀ c : Bytes, c.length ≤ 255 →
      uint8 c.length = c.length ∧
      (∃ mu, (computeExternalMu xof pk c msg).1 = .ok mu) ∧
      (computeExternalMu xof pk c msg).2.get? 6 = some (.write [c.length]) := by
    intro c hc
    have hnot : ¬ c.length > 255 := by omega
    have hmod : c.length % 256 = c.length := Nat.mod_eq_of_lt (by omega)
    refine ⟨hmod, ?_, ?_⟩
    · simp [computeExternalMu, hnot]
    · simp [computeExternalMu, hnot, NewSHAKE256, SHAKE.Write, SHAKE.Read, SHAKE.Reset,
        binaryWrite, uint8, hmod]
  have hfail : ∀ c : Bytes, 255 < c.length →
      ∀ (xof' : Bytes → Nat → Nat) (pk' msg' : Bytes),
        computeExternalMu xof' pk' c msg' = (.error (.ctxTooLarge c.length), []) := by
    intro c hc xof' pk' msg'
    simp [computeExternalMu, hc]
  refine ⟨?_, hfail ctx, hsucc ctx, ?_, ?_⟩
  · constructor
    · rintro ⟨e, he⟩
      by_contra hle
      obtain ⟨_, ⟨mu, hmu⟩, _⟩ := hsucc ctx (by omega)
      rw [hmu] at he
      cases he
    · intro h
      exact ⟨.ctxTooLarge ctx.length, by rw [hfail ctx h]⟩
  · exact (hsucc (List.replicate 255 0) (by rw [List.length_replicate])).2.1
  · have := hfail (List.replicate 256 0) (by rw [List.length_replicate]; omega) xof pk msg
    rw [List.length_replicate] at this
    exact this

/-! ## Theorems: computing a test vector -/

/-- The checked decoding succeeds exactly when the decoding does and the length is the
expected one. -/
theorem decodeHexAndCheckLength_ok_iff (data : Str) (n : Int) (bs : Bytes) :
    decodeHexAndCheckLength data n = .ok bs ↔
      DecodeString data = .ok bs ∧ (bs.length : Int) = n := by
  simp only [decodeHexAndCheckLength]
  cases hd : DecodeString data with
  | error e => simp
  | ok decoded =>
    by_cases hn : (decoded.length : Int) = n
    · simp only [hn, ne_eq, not_true_eq_false, if_false, Except.ok.injEq]
      constructor
      · intro h; subst h; exact ⟨rfl, hn⟩
      · intro h; exact h.1
    · simp only [ne_eq, hn, not_false_eq_true, if_true, Except.ok.injEq, false_iff, not_and, reduceCtorEq]
      intro h; subst h; exact hn

/-- The steps of a successful run of `ComputeTestVector`, in the order of the code. -/
theorem ComputeTestVector_ok_iff {SK PK : Type} (P : Primitives SK PK)
    (xof : Bytes → Nat → Nat) (input : KATInput) (tv : TestVector) :
    ComputeTestVector P xof input = .ok tv ↔
      ∃ seed, decodeHexAndCheckLength input.Xi 32 = .ok seed ∧
      ∃ entropy, decodeHexAndCheckLength input.RNG 32 = .ok entropy ∧
      ∃ publicKey, DecodeString input.PK = .ok publicKey ∧
      ∃ params, resolveParams publicKey.length = some params ∧
      ∃ skSize, params.SecretKeySize = .ok skSize ∧
      ∃ secretKey, decodeHexAndCheckLength input.SK skSize = .ok secretKey ∧
      ∃ msg, DecodeString input.Msg = .ok msg ∧
      ∃ ctx, DecodeString input.Ctx = .ok ctx ∧
      ∃ sigSize, params.SignatureSize = .ok sigSize ∧
      ∃ sigMessage,
        decodeHexAndCheckLength input.SM (sigSize + msg.length : Nat) = .ok sigMessage ∧
      ∃ sig, sliceTo sigMessage sigSize = .ok sig ∧
      ∃ sk, params.ExpandSeed P seed = .ok sk ∧
      secretKey = P.EncodeExpanded sk ∧
      publicKey = P.Bytes (P.PublicKey sk) ∧
      P.VerifyWithOptions (P.PublicKey sk) msg sig ctx = true ∧
      ∃ mu, (computeExternalMu xof publicKey ctx msg).1 = .ok mu ∧
      P.VerifyWithExternalMU (P.PublicKey sk) mu sig = true ∧
      ∃ name, params.String = .ok name ∧
      tv = { ParameterSet := name, Seed := seed, PublicKey := P.Bytes (P.PublicKey sk),
             SecretKey := P.EncodeExpanded sk, Entropy := entropy, Message := msg,
             Context := ctx, Mu := mu, Signature := sig } := by
  unfold ComputeTestVector
  cases decodeHexAndCheckLength input.Xi 32 with
  | error e => simp
  | ok seed =>
  simp only [Except.ok.injEq, Option.some.injEq, exists_eq_left']
  cases decodeHexAndCheckLength input.RNG 32 with
  | error e => simp
  | ok entropy =>
  simp only [Except.ok.injEq, Option.some.injEq, exists_eq_left']
  cases DecodeString input.PK with
  | error e => simp
  | ok publicKey =>
  simp only [Except.ok.injEq, Option.some.injEq, exists_eq_left']
  cases resolveParams publicKey.length with
  | none => simp
  | some params =>
  simp only [Except.ok.injEq, Option.some.injEq, exists_eq_left']
  cases params.SecretKeySize with
  | error e => simp
  | ok skSize =>
  simp only [Except.ok.injEq, Option.some.injEq, exists_eq_left']
  cases decodeHexAndCheckLength input.SK skSize with
  | error e => simp
  | ok secretKey =>
  simp only [Except.ok.injEq, Option.some.injEq, exists_eq_left']
  cases DecodeString input.Msg with
  | error e => simp
  | ok msg =>
  simp only [Except.ok.injEq, Option.some.injEq, exists_eq_left']
  cases DecodeString input.Ctx with
  | error e => simp
  | ok ctx =>
  simp only [Except.ok.injEq, Option.some.injEq, exists_eq_left']
  cases params.SignatureSize with
  | error e => simp
  | ok sigSize =>
  simp only [Except.ok.injEq, Option.some.injEq, exists_eq_left']
  cases decodeHexAndCheckLength input.SM (sigSize + msg.length : Nat) with
  | error e => simp
  | ok sigMessage =>
  simp only [Except.ok.injEq, Option.some.injEq, exists_eq_left']
  cases sliceTo sigMessage sigSize with
  | error e => simp
  | ok sig =>
  simp only [Except.ok.injEq, Option.some.injEq, exists_eq_left']
  cases params.ExpandSeed P seed with
  | error e => simp
  | ok sk =>
  simp only [Except.ok.injEq, Option.some.injEq, exists_eq_left']
  by_cases h1 : secretKey = P.EncodeExpanded sk
  swap
  · simp [h1]
  by_cases h2 : publicKey = P.Bytes (P.PublicKey sk)
  swap
  · simp [h1, h2]
  cases h3 : P.VerifyWithOptions (P.PublicKey sk) msg sig ctx with
  | false => simp [h1, h2, h3]
  | true =>
  simp only [Except.ok.injEq, Option.some.injEq, exists_eq_left']
  cases (computeExternalMu xof publicKey ctx msg).1 with
  | error e => simp [h1, h2, h3]
  | ok mu =>
  simp only [Except.ok.injEq, Option.some.injEq, exists_eq_left']
  cases h4 : P.VerifyWithExternalMU (P.PublicKey sk) mu sig with
  | false => simp [h1, h2, h3, h4]
  | true =>
  simp only [Except.ok.injEq, Option.some.injEq, exists_eq_left']
  cases params.String with
  | error e => simp [h1, h2, h3, h4]
  | ok name =>
  simp only [Except.ok.injEq, Option.some.injEq, exists_eq_left']
  subst h1 h2
  simp [eq_comm]

/-- The switch on the length of the public key selects `p` exactly when the length is
the public-key size of `p`. -/
theorem resolveParams_eq_some_iff (n : Nat) (p : ParameterSet) :
    resolveParams n = some p ↔ p.PublicKeySize = .ok n := by
  cases p <;>
    simp only [resolveParams, ParameterSet.PublicKeySize, Except.ok.injEq] <;>
    split_ifs <;> simp_all <;> omega

/-- The digest is computed exactly for a context of at most 255 bytes. -/
theorem computeExternalMu_ok_iff (xof : Bytes → Nat → Nat) (pk ctx msg : Bytes) :
    (∃ mu, (computeExternalMu xof pk ctx msg).1 = .ok mu) ↔ ctx.length ≤ 255 := by
  by_cases h : ctx.length > 255
  · simp [computeExternalMu, h]
  · simp only [computeExternalMu, h, if_false]
    constructor
    · intro _; omega
    · intro _; exact ⟨_, rfl⟩

/-- A prefix of a slice that is long enough. -/
theorem sliceTo_eq_ok_iff (s : Bytes) (n : Nat) (r : Bytes) :
    sliceTo s n = .ok r ↔ n ≤ s.length ∧ r = s.take n := by
  by_cases h : n ≤ s.length
  · simp [sliceTo, h, eq_comm]
  · simp [sliceTo, h]

/-- Expanding a seed under one of the three parameter sets. -/
theorem ExpandSeed_eq_ok_iff {SK PK : Type} (P : Primitives SK PK) (p : ParameterSet)
    (seed : Bytes) (key : SK) :
    p.ExpandSeed P seed = .ok key ↔
      p ≠ .Unspecified ∧ seed.length = 32 ∧ key = P.fromSeed p seed := by
  by_cases h : seed.length = 32 <;>
    cases p <;> simp [ParameterSet.ExpandSeed, PrivateKeyFromSeed, h, eq_comm, invalidParameterSet]

/-- The methods of a parameter set other than `ParameterSetUnspecified` return. -/
theorem methods_ok (p : ParameterSet) (h : p ≠ .Unspecified) :
    (∃ n, p.SecretKeySize = .ok n) ∧ (∃ n, p.SignatureSize = .ok n) ∧
      (∃ name, p.String = .ok name) := by
  cases p <;>
    simp [ParameterSet.SecretKeySize, ParameterSet.SignatureSize, ParameterSet.String] at h ⊢

/-- `ComputeTestVector` never panics. -/
theorem ComputeTestVector_no_panic {SK PK : Type} (P : Primitives SK PK)
    (xof : Bytes → Nat → Nat) (input : KATInput) (m : Text) :
    ComputeTestVector P xof input ≠ .panic m := by
  intro hp
  unfold ComputeTestVector at hp
  cases h1 : decodeHexAndCheckLength input.Xi 32 with
  | error e => simp [h1] at hp
  | ok seed =>
  simp only [h1] at hp
  cases h2 : decodeHexAndCheckLength input.RNG 32 with
  | error e => simp [h2] at hp
  | ok entropy =>
  simp only [h2] at hp
  cases h3 : DecodeString input.PK with
  | error e => simp [h3] at hp
  | ok publicKey =>
  simp only [h3] at hp
  cases h4 : resolveParams publicKey.length with
  | none => simp [h4] at hp
  | some params =>
  simp only [h4] at hp
  have hpk := (resolveParams_eq_some_iff _ _).mp h4
  have hseed := ((decodeHexAndCheckLength_ok_iff _ _ _).mp h1).2
  have hne : params ≠ .Unspecified := by
    rintro rfl
    simp [ParameterSet.PublicKeySize] at hpk
  obtain ⟨⟨skSize, hsk⟩, ⟨sigSize, hsig⟩, ⟨name, hname⟩⟩ := methods_ok params hne
  simp only [hsk, hsig, hname] at hp
  cases h5 : decodeHexAndCheckLength input.SK skSize with
  | error e => simp [h5] at hp
  | ok secretKey =>
  simp only [h5] at hp
  cases h6 : DecodeString input.Msg with
  | error e => simp [h6] at hp
  | ok msg =>
  simp only [h6] at hp
  cases h7 : DecodeString input.Ctx with
  | error e => simp [h7] at hp
  | ok ctx =>
  simp only [h7] at hp
  generalize h8 : decodeHexAndCheckLength input.SM _ = r at hp
  cases r with
  | error e => simp at hp
  | ok sigMessage =>
  simp only at hp
  have hsm := ((decodeHexAndCheckLength_ok_iff _ _ _).mp h8).2
  have hsl : sliceTo sigMessage sigSize = .ok (sigMessage.take sigSize) :=
    (sliceTo_eq_ok_iff _ _ _).mpr ⟨by omega, rfl⟩
  have hex : params.ExpandSeed P seed = .ok (P.fromSeed params seed) :=
    (ExpandSeed_eq_ok_iff _ _ _ _).mpr ⟨hne, by omega, rfl⟩
  simp only [hsl, hex] at hp
  split_ifs at hp
  split at hp
  · cases hp
  · split_ifs at hp

/-- Decoding a run of the digit `0`. -/
theorem DecodeString_zeros (n : Nat) :
    DecodeString (List.replicate (2 * n) '0') = .ok (List.replicate n 0) := by
  induction n with
  | zero => rfl
  | succ k ih =>
    rw [show 2 * (k + 1) = (2 * k + 1) + 1 by omega, List.replicate_succ, List.replicate_succ,
      DecodeString, ih]
    rfl

/-- Decoding a run of the digit `0` of the expected length. -/
theorem decodeHexAndCheckLength_zeros (n : Nat) :
    decodeHexAndCheckLength (List.replicate (2 * n) '0') n = .ok (List.replicate n 0) := by
  rw [decodeHexAndCheckLength_ok_iff]
  exact ⟨DecodeString_zeros n, by simp⟩

/-- The sample record is converted into the sample vector. -/
theorem ComputeTestVector_sample :
    ComputeTestVector samplePrimitives sampleXof sampleInput = .ok sampleVector := by
  rw [ComputeTestVector_ok_iff]
  refine ⟨List.replicate 32 0, decodeHexAndCheckLength_zeros 32,
    List.replicate 32 0, decodeHexAndCheckLength_zeros 32,
    List.replicate 1312 0, DecodeString_zeros 1312,
    .MLDSA44, ?_, 2560, rfl,
    List.replicate 2560 0, decodeHexAndCheckLength_zeros 2560,
    [], rfl, [], rfl, 2420, rfl,
    List.replicate 2420 0, decodeHexAndCheckLength_zeros 2420,
    List.replicate 2420 0, ?_, .MLDSA44, rfl, rfl, rfl, rfl,
    H sampleXof (H sampleXof (List.replicate 1312 0) 64 ++ [0] ++ [0]) 64, ?_, rfl,
    "ML-DSA-44", rfl, rfl⟩
  · rw [List.length_replicate]; rfl
  · rw [sliceTo_eq_ok_iff, List.length_replicate]
    exact ⟨Nat.le_refl _, (List.take_of_length_le (by rw [List.length_replicate])).symm⟩
  · rw [computeExternalMu_eq sampleXof _ [] [] (by decide)]
    simp only [List.append_nil, List.length_nil]

/-- C3: `ComputeTestVector` returns a test vector if and only if: xi and rng are valid hex
of 32 bytes each; pk is valid hex whose decoded length is the public-key size of a
parameter set `p` (one of the three, as only these have a size); sk is valid hex of the
secret-key size of `p`; msg and ctx are valid hex; sm is valid hex of the signature size
of `p` plus the length of msg; the expanded encoding of the key expanded from the seed
under `p` is the decoded sk, and the encoding of its public key is the decoded pk; the
standard verification of the leading signature-size bytes of sm against msg and ctx
accepts; ctx has at most 255 bytes; and the external-mu verification of the same
signature against `computeExternalMu(pk, ctx, msg)` accepts. Otherwise it returns an
error (it does not panic). -/
theorem C3_ComputeTestVector_succeeds_iff {SK PK : Type} (P : Primitives SK PK)
    (xof : Bytes → Nat → Nat) (input : KATInput) :
    ((∃ tv, ComputeTestVector P xof input = .ok tv) ↔
      ∃ (seed entropy pk sk msg ctx sm : Bytes) (p : ParameterSet) (sigSize : Nat) (key : SK)
        (mu : Bytes),
        DecodeString input.Xi = .ok seed ∧ seed.length = 32 ∧
        DecodeString input.RNG = .ok entropy ∧ entropy.length = 32 ∧
        DecodeString input.PK = .ok pk ∧ p.PublicKeySize = .ok pk.length ∧
        DecodeString input.SK = .ok sk ∧ p.SecretKeySize = .ok sk.length ∧
        DecodeString input.Msg = .ok msg ∧
        DecodeString input.Ctx = .ok ctx ∧
        DecodeString input.SM = .ok sm ∧ p.SignatureSize = .ok sigSize ∧
        sm.length = sigSize + msg.length ∧
        p.ExpandSeed P seed = .ok key ∧
        P.EncodeExpanded key = sk ∧
        P.Bytes (P.PublicKey key) = pk ∧
        P.VerifyWithOptions (P.PublicKey key) msg (sm.take sigSize) ctx = true ∧
        ctx.length ≤ 255 ∧
        (computeExternalMu xof pk ctx msg).1 = .ok mu ∧
        P.VerifyWithExternalMU (P.PublicKey key) mu (sm.take sigSize) = true) ∧
    ((¬ ∃ tv, ComputeTestVector P xof input = .ok tv) →
      ∃ e, ComputeTestVector P xof input = .error e) := by
  constructor
  · constructor
    · rintro ⟨tv, h⟩
      obtain ⟨seed, h1, entropy, h2, pk, h3, p, h4, skSize, h5, sk, h6, msg, h7, ctx, h8,
        sigSize, h9, sm, h10, sig, h11, key, h12, h13, h14, h15, mu, h16, h17, name, h18, _⟩ :=
        (ComputeTestVector_ok_iff P xof input tv).mp h
      rw [decodeHexAndCheckLength_ok_iff] at h1 h2 h6 h10
      rw [sliceTo_eq_ok_iff] at h11
      obtain ⟨_, hsig⟩ := h11
      subst hsig
      have hsk : sk.length = skSize := by have := h6.2; omega
      subst hsk
      refine ⟨seed, entropy, pk, sk, msg, ctx, sm, p, sigSize, key, mu, h1.1, ?_, h2.1, ?_,
        h3, (resolveParams_eq_some_iff _ _).mp h4, h6.1, h5, h7, h8, h10.1, h9, ?_, h12,
        h13.symm, h14.symm, h15, (computeExternalMu_ok_iff xof pk ctx msg).mp ⟨mu, h16⟩, h16, h17⟩
      · have := h1.2; omega
      · have := h2.2; omega
      · have := h10.2; omega
    · rintro ⟨seed, entropy, pk, sk, msg, ctx, sm, p, sigSize, key, mu, h1, h1', h2, h2', h3,
        h3', h4, h4', h5, h6, h7, h7', h7'', h8, h9, h10, h11, _, h13, h14⟩
      have hne : p ≠ .Unspecified := by
        rintro rfl
        simp [ParameterSet.PublicKeySize] at h3'
      obtain ⟨_, _, ⟨name, hname⟩⟩ := methods_ok p hne
      refine ⟨_, (ComputeTestVector_ok_iff P xof input _).mpr
        ⟨seed, ?_, entropy, ?_, pk, h3, p, (resolveParams_eq_some_iff _ _).mpr h3',
          sk.length, h4', sk, ?_, msg, h5, ctx, h6, sigSize, h7', sm, ?_, sm.take sigSize, ?_,
          key, h8, h9.symm, h10.symm, h11, mu, h13, h14, name, hname, rfl⟩⟩
      · rw [decodeHexAndCheckLength_ok_iff]; exact ⟨h1, by omega⟩
      · rw [decodeHexAndCheckLength_ok_iff]; exact ⟨h2, by omega⟩
      · rw [decodeHexAndCheckLength_ok_iff]; exact ⟨h4, rfl⟩
      · rw [decodeHexAndCheckLength_ok_iff]; exact ⟨h7, by omega⟩
      · rw [sliceTo_eq_ok_iff]; exact ⟨by omega, rfl⟩
  · intro hno
    cases h : ComputeTestVector P xof input with
    | ok tv => exact absurd ⟨tv, h⟩ hno
    | error e => exact ⟨e, rfl⟩
    | panic m => exact absurd h (ComputeTestVector_no_panic P xof input m)

/-- C4: the fields of a test vector `ComputeTestVector` returns. With `pk` and `sm` the
decoded public key and signature-with-message of the input and `p` the parameter set
whose public-key size is the length of `pk`: Seed, Entropy, PublicKey, SecretKey, Message
and Context are the decoded xi, rng, pk, sk, msg and ctx; Signature is the first
`SignatureSize(p)` bytes of `sm`; ParameterSet is the display name of `p`, that is
ML-DSA-44, ML-DSA-65 or ML-DSA-87 for a key of 1312, 1952 or 2592 bytes; and Mu is
`computeExternalMu(pk, ctx, msg)`. -/
theorem C4_ComputeTestVector_fields {SK PK : Type} (P : Primitives SK PK)
    (xof : Bytes → Nat → Nat) (input : KATInput) (tv : TestVector)
    (h : ComputeTestVector P xof input = .ok tv) :
    ∃ (p : ParameterSet) (pk sm : Bytes) (sigSize : Nat),
      DecodeString input.PK = .ok pk ∧ DecodeString input.SM = .ok sm ∧
      p.PublicKeySize = .ok pk.length ∧ p.SignatureSize = .ok sigSize ∧
      DecodeString input.Xi = .ok tv.Seed ∧
      DecodeString input.RNG = .ok tv.Entropy ∧
      tv.PublicKey = pk ∧
      DecodeString input.SK = .ok tv.SecretKey ∧
      DecodeString input.Msg = .ok tv.Message ∧
      DecodeString input.Ctx = .ok tv.Context ∧
      tv.Signature = sm.take sigSize ∧ tv.Signature.length = sigSize ∧
      p.String = .ok tv.ParameterSet ∧
      (pk.length = 1312 → tv.ParameterSet = "ML-DSA-44") ∧
      (pk.length = 1952 → tv.ParameterSet = "ML-DSA-65") ∧
      (pk.length = 2592 → tv.ParameterSet = "ML-DSA-87") ∧
      (computeExternalMu xof pk tv.Context tv.Message).1 = .ok tv.Mu := by
  obtain ⟨seed, h1, entropy, h2, pk, h3, p, h4, skSize, h5, sk, h6, msg, h7, ctx, h8,
    sigSize, h9, sm, h10, sig, h11, key, h12, h13, h14, h15, mu, h16, h17, name, h18, htv⟩ :=
    (ComputeTestVector_ok_iff P xof input tv).mp h
  rw [decodeHexAndCheckLength_ok_iff] at h1 h2 h6 h10
  rw [sliceTo_eq_ok_iff] at h11
  obtain ⟨hle, hsig⟩ := h11
  have hpk := (resolveParams_eq_some_iff _ _).mp h4
  subst htv
  refine ⟨p, pk, sm, sigSize, h3, h10.1, hpk, h9, h1.1, h2.1, h14.symm, ?_, h7, h8, hsig, ?_,
    h18, ?_, ?_, ?_, h16⟩
  · rw [← h13]; exact h6.1
  · simp only [hsig, List.length_take]; omega
  · intro hl
    rw [hl] at hpk
    cases p <;> simp_all [ParameterSet.PublicKeySize, ParameterSet.String]
  · intro hl
    rw [hl] at hpk
    cases p <;> simp_all [ParameterSet.PublicKeySize, ParameterSet.String]
  · intro hl
    rw [hl] at hpk
    cases p <;> simp_all [ParameterSet.PublicKeySize, ParameterSet.String]

/-- C4, an instance: the sample record and its vector. -/
theorem C4_ComputeTestVector_fields_witness :
    ∃ (p : ParameterSet) (pk sm : Bytes) (sigSize : Nat),
      DecodeString sampleInput.PK = .ok pk ∧ DecodeString sampleInput.SM = .ok sm ∧
      p.PublicKeySize = .ok pk.length ∧ p.SignatureSize = .ok sigSize ∧
      DecodeString sampleInput.Xi = .ok sampleVector.Seed ∧
      DecodeString sampleInput.RNG = .ok sampleVector.Entropy ∧
      sampleVector.PublicKey = pk ∧
      DecodeString sampleInput.SK = .ok sampleVector.SecretKey ∧
      DecodeString sampleInput.Msg = .ok sampleVector.Message ∧
      DecodeString sampleInput.Ctx = .ok sampleVector.Context ∧
      sampleVector.Signature = sm.take sigSize ∧ sampleVector.Signature.length = sigSize ∧
      p.String = .ok sampleVector.ParameterSet ∧
      (pk.length = 1312 → sampleVector.ParameterSet = "ML-DSA-44") ∧
      (pk.length = 1952 → sampleVector.ParameterSet = "ML-DSA-65") ∧
      (pk.length = 2592 → sampleVector.ParameterSet = "ML-DSA-87") ∧
      (computeExternalMu sampleXof pk sampleVector.Context sampleVector.Message).1 =
        .ok sampleVector.Mu :=
  C4_ComputeTestVector_fields samplePrimitives sampleXof sampleInput sampleVector
    ComputeTestVector_sample

/-- C7: the three public-key sizes are pairwise distinct, so the parameter set is
determined by the length of the decoded public key: a length selects `p` exactly when it
is the public-key size of `p`, and a key of the size of `p` selects `p` and no other set.
When xi and rng decode to 32 bytes and the decoded public key has none of the three
sizes, `ComputeTestVector` fails with the error that quotes the pk field, whatever the
fields sk, msg, ctx and sm hold. -/
theorem C7_parameter_set_resolution {SK PK : Type} (P : Primitives SK PK)
    (xof : Bytes → Nat → Nat) (input : KATInput) :
    (ParameterSet.MLDSA44.PublicKeySize = .ok 1312 ∧
      ParameterSet.MLDSA65.PublicKeySize = .ok 1952 ∧
      ParameterSet.MLDSA87.PublicKeySize = .ok 2592) ∧
    (∀ p q : ParameterSet, p ≠ .Unspecified → p.PublicKeySize = q.PublicKeySize → p = q) ∧
    (∀ (n : Nat) (p : ParameterSet), resolveParams n = some p ↔ p.PublicKeySize = .ok n) ∧
    (∀ (n : Nat) (p q : ParameterSet),
      p.PublicKeySize = .ok n → (resolveParams n = some q ↔ q = p)) ∧
    (∀ seed entropy pk : Bytes,
      DecodeString input.Xi = .ok seed → seed.length = 32 →
      DecodeString input.RNG = .ok entropy → entropy.length = 32 →
      DecodeString input.PK = .ok pk →
      pk.length ≠ 1312 → pk.length ≠ 1952 → pk.length ≠ 2592 →
      ComputeTestVector P xof input = .error (.invalidPkSize input.PK)) := by
  refine ⟨⟨rfl, rfl, rfl⟩, ?_, resolveParams_eq_some_iff, ?_, ?_⟩
  · intro p q hp h
    cases p <;> cases q <;> simp_all [ParameterSet.PublicKeySize]
  · intro n p q hp
    rw [resolveParams_eq_some_iff]
    cases p <;> cases q <;> simp_all [ParameterSet.PublicKeySize] <;> omega
  · intro seed entropy pk h1 h1' h2 h2' h3 ha hb hc
    have hxi : decodeHexAndCheckLength input.Xi 32 = .ok seed := by
      rw [decodeHexAndCheckLength_ok_iff]; exact ⟨h1, by omega⟩
    have hrng : decodeHexAndCheckLength input.RNG 32 = .ok entropy := by
      rw [decodeHexAndCheckLength_ok_iff]; exact ⟨h2, by omega⟩
    have hres : resolveParams pk.length = none := by
      simp only [resolveParams, ParameterSet.PublicKeySize, Except.ok.injEq]
      split_ifs <;> first | rfl | omega
    simp only [ComputeTestVector, hxi, hrng, h3, hres]

/-! ## Theorems: the iterator -/

/-- The loop of `scanCase` does not change the error on which the reader ends. -/
theorem scanLoop_fail (fail err : Option ReadError) (p : List Str) (t : Str) (r : GoMap) :
    (scanLoop fail err p t r).2.fail = fail := by
  refine scanLoop_cases fail err (fun _ _ _ out => out.2.fail = fail)
    ?_ ?_ ?_ ?_ ?_ ?_ ?_ ?_ p t r
  · intro r; rfl
  · intro l ls r _ ih; exact ih
  · intro l ls r _; rfl
  · intro p t r _ _; rfl
  · intro p t r k v _ _ _; rfl
  · intro t r k v _ _ _; rfl
  · intro l ls t r k v _ _ _ _ ih; exact ih
  · intro l ls t r k v _ _ _ _; rfl

/-- A call of the loop that returns a record does not add to what the scanner holds, and
takes something off when it starts from an empty accumulator. -/
theorem scanLoop_progress (fail err : Option ReadError) (p : List Str) (t : Str) (r : GoMap) :
    ∀ m, (scanLoop fail err p t r).1 = .ok m →
      (scanLoop fail err p t r).2.remaining ≤ p.length + (if t = [] then 0 else 1) ∧
      (r = [] →
        (scanLoop fail err p t r).2.remaining < p.length + (if t = [] then 0 else 1)) := by
  refine scanLoop_cases fail err
    (fun p t r out => ∀ m, out.1 = .ok m →
      out.2.remaining ≤ p.length + (if t = [] then 0 else 1) ∧
      (r = [] → out.2.remaining < p.length + (if t = [] then 0 else 1)))
    ?_ ?_ ?_ ?_ ?_ ?_ ?_ ?_ p t r
  · intro r m h; cases h
  · intro l ls r _ ih m h
    obtain ⟨h1, h2⟩ := ih m h
    simp only [List.length_cons, if_true]
    constructor
    · split_ifs at h1 <;> omega
    · intro hr
      have := h2 hr
      split_ifs at this <;> omega
  · intro l ls r _ m h; cases h
  · intro p t r _ _ m h; cases h
  · intro p t r k v ht _ hk m _
    simp only [Scanner.remaining, ht, if_false]
    refine ⟨Nat.le_refl _, ?_⟩
    intro hr
    subst hr
    simp [GoMap.get?] at hk
  · intro t r k v ht _ _ m _
    simp [Scanner.remaining, ht]
  · intro l ls t r k v ht _ _ _ ih m h
    obtain ⟨h1, _⟩ := ih m h
    simp only [List.length_cons, ht, if_false]
    constructor
    · split_ifs at h1 <;> omega
    · intro _
      split_ifs at h1 <;> omega
  · intro l ls t r k v ht _ _ _ m _
    simp [Scanner.remaining, ht]

/-- Reading a line that fits the buffer, from a current line that is blank or well
formed, keeps a scanner clean, and only a clean scanner is clean afterwards. -/
theorem clean_step (fail err : Option ReadError) (l t : Str) (ls : List Str)
    (hl : l.length < MaxScanTokenSize ∨ err.isSome = true)
    (ht : t ≠ [] → wellFormedLine t = true) :
    Scanner.clean { pending := ls, fail := fail, token := dropCR l, err := err } ↔
      Scanner.clean { pending := l :: ls, fail := fail, token := t, err := err } := by
  simp only [Scanner.clean, List.map_cons, List.mem_cons, forall_eq_or_imp]
  constructor
  · rintro ⟨h1, h2, h3, h4, h5⟩
    refine ⟨h1, h2, ⟨?_, h3⟩, ht, h4, h5⟩
    rcases hl with hl | hl
    · exact hl
    · rw [h1] at hl; cases hl
  · rintro ⟨h1, h2, ⟨_, h3⟩, _, h4, h5⟩
    exact ⟨h1, h2, h3, h4, h5⟩

/-- No error is recorded after the end of the input exactly when none was recorded
before and the reader ends without one. -/
theorem setErr_eq_none (err fail : Option ReadError) :
    setErr err fail = none ↔ err = none ∧ fail = none := by
  cases err <;> simp [setErr]

/-- The loop of `scanCase` and clean scanners: an error it returns is `io.EOF` exactly
when the scanner was clean, and the scanner is then at the end of the input; after it
returns a record, the scanner is clean exactly when it was clean before. -/
theorem scanLoop_clean (fail err : Option ReadError) (p : List Str) (t : Str) (r : GoMap) :
    (∀ e, (scanLoop fail err p t r).1 = .error e →
      (e = .eof ↔
        Scanner.clean { pending := p, fail := fail, token := t, err := err })) ∧
    (∀ m, (scanLoop fail err p t r).1 = .ok m →
      (Scanner.clean (scanLoop fail err p t r).2 ↔
        Scanner.clean { pending := p, fail := fail, token := t, err := err })) ∧
    ((scanLoop fail err p t r).1 = .error .eof →
      (scanLoop fail err p t r).2 =
        { pending := [], fail := none, token := [], err := none }) := by
  refine scanLoop_cases fail err
    (fun p t _ out =>
      (∀ e, out.1 = .error e →
        (e = .eof ↔ Scanner.clean { pending := p, fail := fail, token := t, err := err })) ∧
      (∀ m, out.1 = .ok m →
        (Scanner.clean out.2 ↔
          Scanner.clean { pending := p, fail := fail, token := t, err := err })) ∧
      (out.1 = .error .eof →
        out.2 = { pending := [], fail := none, token := [], err := none }))
    ?_ ?_ ?_ ?_ ?_ ?_ ?_ ?_ p t r
  · intro r
    refine ⟨?_, ?_, ?_⟩
    · intro e he
      simp only [Except.error.injEq] at he
      subst he
      have := setErr_eq_none err fail
      cases hs : setErr err fail with
      | none =>
        rw [hs] at this
        simp [Scanner.clean, this.mp rfl]
      | some x =>
        rw [hs] at this
        simp only [reduceCtorEq, false_iff, Scanner.clean, not_and]
        intro h1 h2
        exact absurd (this.mpr ⟨h1, h2⟩) (by simp)
    · intro m h; cases h
    · intro h
      cases hs : setErr err fail with
      | none =>
        obtain ⟨_, h2⟩ := (setErr_eq_none err fail).mp hs
        subst h2
        rfl
      | some x =>
        rw [hs] at h
        simp at h
  · intro l ls r hl ih
    obtain ⟨ih1, ih2, ih3⟩ := ih
    refine ⟨?_, ?_, ih3⟩
    · intro e he
      rw [ih1 e he]
      exact clean_step fail err l [] ls hl (fun h => absurd rfl h)
    · intro m hm
      rw [ih2 m hm]
      exact clean_step fail err l [] ls hl (fun h => absurd rfl h)
  · intro l ls r hl
    refine ⟨?_, ?_, ?_⟩
    · intro e he
      simp only [Except.error.injEq] at he
      subst he
      simp only [reduceCtorEq, false_iff, Scanner.clean, not_and]
      intro h1 _ h3
      exact absurd (Or.inl (h3 l (List.mem_cons_self _ _))) hl
    · intro m h; cases h
    · intro h; simp at h
  · intro p t r ht hw
    refine ⟨?_, ?_, ?_⟩
    · intro e he
      simp only [Except.error.injEq] at he
      subst he
      simp only [reduceCtorEq, false_iff, Scanner.clean, not_and]
      intro _ _ _ h4
      have := h4 t (List.mem_cons_self _ _) ht
      rw [hw] at this
      cases this
    · intro m h; cases h
    · intro h; simp at h
  · intro p t r k v _ _ _
    refine ⟨?_, ?_, ?_⟩
    · intro e h; cases h
    · intro m _; exact Iff.rfl
    · intro h; cases h
  · intro t r k v ht hg _
    refine ⟨?_, ?_, ?_⟩
    · intro e h; cases h
    · intro m _
      have hw : wellFormedLine t = true := by simp [wellFormedLine, hg]
      have hA : Scanner.clean
          { pending := [], fail := fail, token := [], err := setErr err fail } ↔
          (err = none ∧ fail = none) := by
        simp only [Scanner.clean, setErr_eq_none, List.map_nil, List.mem_singleton,
          List.not_mem_nil, forall_eq]
        constructor
        · intro h; exact h.1
        · intro h; exact ⟨h, h.2, fun _ hx => hx.elim, fun hx => absurd rfl hx⟩
      have hB : Scanner.clean { pending := [], fail := fail, token := t, err := err } ↔
          (err = none ∧ fail = none) := by
        simp only [Scanner.clean, List.map_nil, List.mem_singleton, List.not_mem_nil,
          forall_eq]
        constructor
        · intro h; exact ⟨h.1, h.2.1⟩
        · intro h; exact ⟨h.1, h.2, fun _ hx => hx.elim, fun _ => hw⟩
      rw [hA, hB]
    · intro h; cases h
  · intro l ls t r k v ht hg _ hl ih
    obtain ⟨ih1, ih2, ih3⟩ := ih
    have hw : wellFormedLine t = true := by simp [wellFormedLine, hg]
    refine ⟨?_, ?_, ih3⟩
    · intro e he
      rw [ih1 e he]
      exact clean_step fail err l t ls hl (fun _ => hw)
    · intro m hm
      rw [ih2 m hm]
      exact clean_step fail err l t ls hl (fun _ => hw)
  · intro l ls t r k v ht hg _ hl
    refine ⟨?_, ?_, ?_⟩
    · intro e h; cases h
    · intro m _
      simp only [Scanner.clean, reduceCtorEq, false_and, false_iff, not_and]
      intro _ _ h3
      exact absurd (Or.inl (h3 l (List.mem_cons_self _ _))) hl
    · intro h; cases h

/-- After the end of the input no call of `scanCase` returns a record. -/
theorem scanCalls_at_end (fail err : Option ReadError) (n : Nat) :
    ∀ r, Except.ok r ∉
      scanCalls n { pending := [], fail := fail, token := [], err := err } := by
  induction n generalizing err with
  | zero => intro r h; simp [scanCalls] at h
  | succ k ih =>
    intro r h
    simp only [scanCalls, scanCase, Scanner.Text, scanLoop_nil_nil, List.mem_cons] at h
    rcases h with h | h
    · cases h
    · exact ih _ r h

/-- The items the iterator yields to the consumer that keeps them all: records, then one
error, which is `io.EOF` exactly when the scanner is clean and every record `scanCase`
returns has the seven keys. -/
theorem streamLoop_collect (fuel : Nat) :
    ∀ (s : Scanner) (acc : List StreamItem), s.remaining < fuel →
      ∃ (kats : List KATInput) (e : StreamError),
        (streamLoop collect fuel s acc).1 = acc ++ kats.map .ok ++ [.error e] ∧
        (e.isEOF = true ↔
          s.clean ∧
          (∀ n r, Except.ok r ∈ scanCalls n s → ∃ kat, katFromCaseData r = .ok kat)) := by
  induction fuel with
  | zero => intro s acc h; omega
  | succ fuel ih =>
    intro s acc hfuel
    have hprog := scanLoop_progress s.fail s.err s.pending s.token []
    obtain ⟨hc1, hc2, hc3⟩ := scanLoop_clean s.fail s.err s.pending s.token []
    have hcalls : ∀ n, scanCalls (n + 1) s = (scanCase s).1 :: scanCalls n (scanCase s).2 :=
      fun n => rfl
    have hs : Scanner.clean
        { pending := s.pending, fail := s.fail, token := s.token, err := s.err } ↔ s.clean :=
      Iff.rfl
    rw [hs] at hc1 hc2
    simp only [streamLoop]
    simp only [scanCase, Scanner.Text] at hcalls ⊢
    generalize scanLoop s.fail s.err s.pending s.token [] = out at *
    obtain ⟨res, s'⟩ := out
    simp only at *
    cases res with
    | error e =>
      refine ⟨[], .scan e, by simp [collect], ?_⟩
      have h1 := hc1 e rfl
      cases e with
      | eof =>
        simp only [StreamError.isEOF, true_iff]
        refine ⟨h1.mp rfl, ?_⟩
        intro n r hr
        cases n with
        | zero => simp [scanCalls] at hr
        | succ k =>
          rw [hcalls, hc3 rfl] at hr
          simp only [List.mem_cons, reduceCtorEq, false_or] at hr
          exact absurd hr (scanCalls_at_end none none k r)
      | read x =>
        simp only [StreamError.isEOF, Bool.false_eq_true, false_iff, not_and]
        intro hcl
        exact absurd (h1.mpr hcl) (by simp)
      | unexpectedLine l =>
        simp only [StreamError.isEOF, Bool.false_eq_true, false_iff, not_and]
        intro hcl
        exact absurd (h1.mpr hcl) (by simp)
    | ok r =>
      obtain ⟨_, hlt⟩ := hprog r rfl
      have hlt' := hlt trivial
      have h2 := hc2 r rfl
      cases hk : katFromCaseData r with
      | error ke =>
        refine ⟨[], .parse ke, by simp [collect, hk], ?_⟩
        simp only [StreamError.isEOF, Bool.false_eq_true, false_iff, not_and]
        intro _ hB
        obtain ⟨kat, hkat⟩ := hB 1 r (by rw [hcalls]; simp)
        rw [hk] at hkat
        cases hkat
      | ok kat =>
        simp only [collect]
        have hrem : s'.remaining < fuel := by
          simp only [Scanner.remaining] at hfuel hlt' ⊢
          omega
        obtain ⟨kats, e, hitems, hiff⟩ := ih s' (acc ++ [.ok kat]) hrem
        refine ⟨kat :: kats, e, by simp only [hk]; rw [hitems]; simp, ?_⟩
        rw [hiff, h2]
        constructor
        · rintro ⟨h1, h3⟩
          refine ⟨h1, ?_⟩
          intro n r' hr'
          cases n with
          | zero => simp [scanCalls] at hr'
          | succ k =>
            rw [hcalls] at hr'
            rcases List.mem_cons.mp hr' with h | h
            · cases h; exact ⟨kat, hk⟩
            · exact h3 k r' h
        · rintro ⟨h1, h3⟩
          refine ⟨h1, ?_⟩
          intro n r' hr'
          exact h3 (n + 1) r' (by rw [hcalls]; exact List.mem_cons_of_mem _ hr')

/-- The items kept by the collecting consumer come after those it started with. -/
theorem streamLoop_collect_acc (fuel : Nat) :
    ∀ (s : Scanner) (acc : List StreamItem),
      (streamLoop collect fuel s acc).1 = acc ++ (streamLoop collect fuel s []).1 := by
  induction fuel with
  | zero => intro s acc; simp [streamLoop]
  | succ fuel ih =>
    intro s acc
    simp only [streamLoop]
    generalize scanCase s = out
    obtain ⟨res, s'⟩ := out
    cases res with
    | error e => simp [collect]
    | ok r =>
      simp only
      cases katFromCaseData r with
      | error ke => simp [collect]
      | ok kat =>
        simp only [collect, List.nil_append]
        rw [ih s' (acc ++ [(Except.ok kat : StreamItem)]), ih s' [(Except.ok kat : StreamItem)]]
        simp

/-- Running the iterator against a consumer is feeding the consumer the items of the
iterator, up to the first item on which it stops. -/
theorem streamLoop_feed {σ : Type} (yield : σ → StreamItem → Bool × σ) (fuel : Nat) :
    ∀ (s : Scanner) (c : σ),
      (streamLoop yield fuel s c).1 = feed yield (streamLoop collect fuel s []).1 c := by
  induction fuel with
  | zero => intro s c; simp [streamLoop, feed]
  | succ fuel ih =>
    intro s c
    simp only [streamLoop]
    generalize scanCase s = out
    obtain ⟨res, s'⟩ := out
    cases res with
    | error e =>
      simp only [collect, List.nil_append, feed]
      cases hy : yield c (.error (.scan e)) with
      | mk b c' => cases b <;> simp [feed]
    | ok r =>
      simp only
      cases katFromCaseData r with
      | error ke =>
        simp only [collect, List.nil_append, feed]
        cases hy : yield c (.error (.parse ke)) with
        | mk b c' => cases b <;> simp [feed]
      | ok kat =>
        simp only [collect, List.nil_append]
        rw [streamLoop_collect_acc fuel s' [(Except.ok kat : StreamItem)]]
        simp only [List.singleton_append, feed]
        cases hy : yield c (.ok kat) with
        | mk b c' =>
          cases b with
          | false => rfl
          | true => exact ih s' c'

/-- A consumer that stops on a record leaves the scanner as the call of `scanCase` that
returned the record left it. -/
theorem streamLoop_stop_now {σ : Type} (yield : σ → StreamItem → Bool × σ) (fuel : Nat)
    (s s' : Scanner) (c : σ) (scanned : GoMap) (kat : KATInput)
    (hscan : scanCase s = (.ok scanned, s')) (hkat : katFromCaseData scanned = .ok kat)
    (hstop : (yield c (.ok kat)).1 = false) :
    streamLoop yield (fuel + 1) s c = ((yield c (.ok kat)).2, s') := by
  simp only [streamLoop, hscan, hkat]
  cases hy : yield c (.ok kat) with
  | mk b c' =>
    rw [hy] at hstop
    simp only at hstop
    subst hstop
    rfl

/-- A consumer that stops at the `k`-th item leaves the scanner as `k` calls of
`scanCase` leave it. -/
theorem streamLoop_stopAt (fuel : Nat) :
    ∀ (k : Nat) (s : Scanner) (seen : Nat), 1 ≤ k → k ≤ fuel →
      k ≤ (streamLoop collect fuel s []).1.length →
      (streamLoop (stopAt (seen + k)) fuel s seen).2 = scanState k s := by
  induction fuel with
  | zero => intro k s seen h1 h2 _; omega
  | succ fuel ih =>
    intro k s seen h1 h2 hlen
    simp only [streamLoop] at hlen ⊢
    have hstate : ∀ j, scanState (j + 1) s = scanState j (scanCase s).2 := fun j => rfl
    generalize scanCase s = out at *
    obtain ⟨res, s'⟩ := out
    cases res with
    | error e =>
      simp only [collect, List.nil_append, List.length_singleton] at hlen
      have hk : k = 1 := by omega
      subst hk
      exact (hstate 0).symm
    | ok r =>
      simp only at hlen ⊢
      cases hkat : katFromCaseData r with
      | error ke =>
        simp only [hkat, collect, List.nil_append, List.length_singleton] at hlen
        have hk : k = 1 := by omega
        subst hk
        exact (hstate 0).symm
      | ok kat =>
        simp only [hkat, collect, List.nil_append] at hlen
        rw [streamLoop_collect_acc fuel s' [(Except.ok kat : StreamItem)]] at hlen
        simp only [List.singleton_append, List.length_cons] at hlen
        by_cases hk : k = 1
        · subst hk
          simp only [stopAt, Nat.lt_irrefl, decide_False]
          exact (hstate 0).symm
        · obtain ⟨j, rfl⟩ : ∃ j, k = j + 1 := ⟨k - 1, by omega⟩
          have hlt : seen + 1 < seen + (j + 1) := by omega
          simp only [stopAt, hlt, decide_True]
          have := ih j s' (seen + 1) (by omega) (by omega) (by omega)
          rw [show seen + 1 + j = seen + (j + 1) by omega] at this
          rw [hstate]
          exact this

/-- The iterator yields at most one item per round. -/
theorem streamLoop_collect_length (fuel : Nat) :
    ∀ (s : Scanner), (streamLoop collect fuel s []).1.length ≤ fuel := by
  induction fuel with
  | zero => intro s; simp [streamLoop]
  | succ fuel ih =>
    intro s
    simp only [streamLoop]
    generalize scanCase s = out
    obtain ⟨res, s'⟩ := out
    cases res with
    | error e => simp [collect]
    | ok r =>
      simp only
      cases katFromCaseData r with
      | error ke => simp [collect]
      | ok kat =>
        simp only [collect, List.nil_append]
        rw [streamLoop_collect_acc fuel s' [(Except.ok kat : StreamItem)]]
        have := ih s'
        simp only [List.singleton_append, List.length_cons]
        omega

/-- A fresh scanner holds the lines of the input. -/
theorem NewScanner_remaining (lines : List Str) (fail : Option ReadError) :
    (NewScanner lines fail).remaining = lines.length := by
  simp [NewScanner, Scanner.remaining]

/-- A fresh scanner is clean exactly when the reader ends without an error, every line
fits the buffer and every line is blank or well formed. -/
theorem NewScanner_clean (lines : List Str) (fail : Option ReadError) :
    (NewScanner lines fail).clean ↔
      fail = none ∧ (∀ l ∈ lines, l.length < MaxScanTokenSize) ∧
      (∀ l ∈ lines, dropCR l ≠ [] → wellFormedLine (dropCR l) = true) := by
  simp only [Scanner.clean, NewScanner, List.mem_cons, List.mem_map, true_and]
  constructor
  · rintro ⟨a, b, c⟩
    exact ⟨a, b, fun l hl hne => c (dropCR l) (Or.inr ⟨l, hl, rfl⟩) hne⟩
  · rintro ⟨a, b, c⟩
    refine ⟨a, b, ?_⟩
    intro l hl hne
    rcases hl with hl | ⟨x, hx, hxl⟩
    · exact absurd hl hne
    · subst hxl
      exact c x hx hne

/-- The items of `StreamKATs`: records, then one error, which is `io.EOF` exactly when
the reader ends without an error, every line fits the buffer, every line that is not
blank is well formed, and every record `scanCase` returns has the seven keys. -/
theorem streamItems_shape (lines : List Str) (fail : Option ReadError) :
    ∃ (kats : List KATInput) (e : StreamError),
      streamItems lines fail = kats.map .ok ++ [.error e] ∧
      (e.isEOF = true ↔
        fail = none ∧
        (∀ l ∈ lines, l.length < MaxScanTokenSize) ∧
        (∀ l ∈ lines, dropCR l ≠ [] → wellFormedLine (dropCR l) = true) ∧
        (∀ n r, Except.ok r ∈ scanCalls n (NewScanner lines fail) →
          ∃ kat, katFromCaseData r = .ok kat)) := by
  obtain ⟨kats, e, h1, h2⟩ := streamLoop_collect ((NewScanner lines fail).remaining + 1)
    (NewScanner lines fail) [] (Nat.lt_succ_self _)
  refine ⟨kats, e, by simpa [streamItems, StreamKATs, streamFrom] using h1, ?_⟩
  rw [h2, NewScanner_clean]
  simp only [and_assoc]

/-- The iterator on an input whose first line does not fit the buffer yields the error
`ErrTooLong` and nothing else. -/
theorem streamItems_too_long (l : Str) (ls : List Str) (fail : Option ReadError)
    (h : MaxScanTokenSize ≤ l.length) :
    streamItems (l :: ls) fail = [.error (.scan (.read ErrTooLong))] := by
  have hl : ¬ (l.length < MaxScanTokenSize ∨ (none : Option ReadError).isSome = true) := by
    simp only [Option.isSome_none, Bool.false_eq_true, or_false]
    omega
  simp only [streamItems, StreamKATs, streamFrom, streamLoop, scanCase, NewScanner,
    Scanner.Text, scanLoop_blank_long fail none l ls [] hl, collect, List.nil_append]

/-- C11 (amended): the items `StreamKATs` yields, when consumed to the end, are zero or
more records followed by exactly one error, after which nothing is yielded. That error
wraps `io.EOF` exactly when the reader ends without an error, every line of the input is
shorter than the 65536 bytes of the scanner's buffer, every line that is not blank once
its final carriage return is dropped is well formed, and every record `scanCase` returns
carries the seven keys; otherwise it does not. Whatever the consumer, it is fed these
items up to the first one on which it stops, and when it stops on a record the scanner
is left as the call of `scanCase` that returned the record left it: stopping at the
`k`-th item leaves the scanner as `k` calls of `scanCase` leave it. -/
theorem C11_StreamKATs_items (lines : List Str) (fail : Option ReadError) :
    (∃ (kats : List KATInput) (e : StreamError),
      streamItems lines fail = kats.map .ok ++ [.error e] ∧
      (e.isEOF = true ↔
        fail = none ∧
        (∀ l ∈ lines, l.length < MaxScanTokenSize) ∧
        (∀ l ∈ lines, dropCR l ≠ [] → wellFormedLine (dropCR l) = true) ∧
        (∀ n r, Except.ok r ∈ scanCalls n (NewScanner lines fail) →
          ∃ kat, katFromCaseData r = .ok kat))) ∧
    (∀ (σ : Type) (yield : σ → StreamItem → Bool × σ) (c : σ),
      (StreamKATs lines fail yield c).1 = feed yield (streamItems lines fail) c) ∧
    (∀ (σ : Type) (yield : σ → StreamItem → Bool × σ) (fuel : Nat) (s s' : Scanner) (c : σ)
      (scanned : GoMap) (kat : KATInput),
      scanCase s = (.ok scanned, s') → katFromCaseData scanned = .ok kat →
      (yield c (.ok kat)).1 = false →
      streamLoop yield (fuel + 1) s c = ((yield c (.ok kat)).2, s')) ∧
    (∀ k seen : Nat, 1 ≤ k → k ≤ (streamItems lines fail).length →
      (StreamKATs lines fail (stopAt (seen + k)) seen).2 =
        scanState k (NewScanner lines fail)) := by
  refine ⟨streamItems_shape lines fail, ?_, ?_, ?_⟩
  · intro σ yield c
    exact streamLoop_feed yield _ _ c
  · intro σ yield fuel s s' c scanned kat h1 h2 h3
    exact streamLoop_stop_now yield fuel s s' c scanned kat h1 h2 h3
  · intro k seen h1 h2
    have hfuel : k ≤ (NewScanner lines fail).remaining + 1 :=
      Nat.le_trans h2 (streamLoop_collect_length _ _)
    exact streamLoop_stopAt _ k (NewScanner lines fail) seen h1 hfuel h2

/-- C11 as stated fails, in two ways. On an input whose seven lines are well formed and
make one record with the seven keys, but whose reading ends on an error of the reader,
`scanCase` returns that record and no other, and the iterator yields the record and then
the read error, which does not wrap `io.EOF`. On an input read without an error whose
one line `xi = 00...0` is well formed but longer than the buffer of the scanner, the
iterator yields no record, so none lacks a field, and then `ErrTooLong`, which does not
wrap `io.EOF` either. -/
theorem C11_counterexample :
    ((∀ l ∈ sampleLines, dropCR l ≠ [] → wellFormedLine (dropCR l) = true) ∧
      (∀ n r, Except.ok r ∈ scanCalls n (NewScanner sampleLines (some sampleReadError)) →
        katFromCaseData r = .ok sampleKAT) ∧
      streamItems sampleLines (some sampleReadError) =
        [.ok sampleKAT, .error (.scan (.read sampleReadError))] ∧
      StreamError.isEOF (.scan (.read sampleReadError)) = false) ∧
    ((∀ l ∈ [sampleLongLine], dropCR l ≠ [] → wellFormedLine (dropCR l) = true) ∧
      streamItems [sampleLongLine] none = [.error (.scan (.read ErrTooLong))] ∧
      StreamError.isEOF (.scan (.read ErrTooLong)) = false) := by
  refine ⟨⟨by decide, ?_, by decide, rfl⟩, ⟨?_, ?_, rfl⟩⟩
  · intro n r h
    have h1 : scanCase (NewScanner sampleLines (some sampleReadError)) =
        (.ok [("xi".toList, "0".toList), ("rng".toList, "1".toList), ("pk".toList, "2".toList),
          ("sk".toList, "3".toList), ("msg".toList, "4".toList), ("sm".toList, "5".toList),
          ("ctx".toList, "6".toList)],
         { pending := [], fail := some sampleReadError, token := [],
           err := some sampleReadError }) := by decide
    cases n with
    | zero => simp [scanCalls] at h
    | succ k =>
      simp only [scanCalls, h1, List.mem_cons, Except.ok.injEq] at h
      rcases h with h | h
      · subst h; decide
      · exact absurd h (scanCalls_at_end _ _ k r)
  · intro l hl _
    simp only [List.mem_singleton] at hl
    subst hl
    rw [sampleLongLine_props.2.1]
    exact sampleLongLine_props.2.2
  · exact streamItems_too_long sampleLongLine [] none sampleLongLine_props.1

/-! ## Theorems: the conversion run -/

/-- The loop of `mainErr` over records followed by one error: when every record is
converted it ends with the vectors of the records, in order, and has returned the
iteration error unless that error is `io.EOF`; otherwise it has returned the error of
the first record that is not converted. -/
theorem feed_mainBody {SK PK : Type} (P : Primitives SK PK) (xof : Bytes → Nat → Nat)
    (e : StreamError) (kats : List KATInput) :
    ∀ (vs0 : List TestVector),
      (∀ vs, kats.map (ComputeTestVector P xof) = vs.map .ok →
        feed (mainBody P xof) (kats.map .ok ++ [.error e]) { vectors := vs0, returned := none } =
          if e.isEOF then { vectors := vs0 ++ vs, returned := none }
          else { vectors := vs0 ++ vs, returned := some (.error (.iterate e)) }) ∧
      ((¬ ∃ vs : List TestVector, kats.map (ComputeTestVector P xof) = vs.map .ok) →
        ∃ vs1 ce,
          feed (mainBody P xof) (kats.map .ok ++ [.error e])
              { vectors := vs0, returned := none } =
            { vectors := vs1, returned := some (.error (.convert ce)) }) := by
  induction kats with
  | nil =>
    intro vs0
    constructor
    · intro vs h
      have hvs : vs = [] := by
        cases vs with
        | nil => rfl
        | cons v vs => simp at h
      subst hvs
      by_cases he : e.isEOF = true
      · simp [feed, mainBody, he]
      · simp [feed, mainBody, he]
    · intro h
      exact absurd ⟨[], rfl⟩ h
  | cons kat kats ih =>
    intro vs0
    simp only [List.map_cons, List.cons_append, feed, mainBody, List.append_eq]
    cases hc : ComputeTestVector P xof kat with
    | panic m => exact absurd hc (ComputeTestVector_no_panic P xof kat m)
    | error ce =>
      simp only
      constructor
      · intro vs h
        cases vs with
        | nil => simp at h
        | cons v vs => simp at h
      · intro _
        exact ⟨vs0, ce, rfl⟩
    | ok v =>
      simp only
      obtain ⟨ih1, ih2⟩ := ih (vs0 ++ [v])
      constructor
      · intro vs h
        cases vs with
        | nil => simp at h
        | cons v' vs' =>
          simp only [List.map_cons, List.cons.injEq, Outcome.ok.injEq] at h
          obtain ⟨hv, hrest⟩ := h
          subst hv
          rw [ih1 vs' hrest]
          simp
      · intro h
        apply ih2
        rintro ⟨vs', hvs'⟩
        exact h ⟨v :: vs', by simp [hvs']⟩

/-- C14: the run of `mainErr` over the records `StreamKATs` yields. The run succeeds,
printing one array, exactly when the iteration ends on `io.EOF` and every record is
converted; the array then has one vector per record, the `i`-th vector being
`ComputeTestVector` of the `i`-th record, in input order. When the iteration ends on
another error, or `ComputeTestVector` fails on some record, the run returns an error
and prints nothing, not even the vectors of the records converted before. -/
theorem C14_mainErr_all_or_nothing {SK PK : Type} (P : Primitives SK PK)
    (xof : Bytes → Nat → Nat) (lines : List Str) (fail : Option ReadError) :
    ∃ (kats : List KATInput) (e : StreamError),
      streamItems lines fail = kats.map .ok ++ [.error e] ∧
      (∀ vs, mainErr P xof lines fail = { stdout := [vs], ending := .ok } ↔
        (e.isEOF = true ∧ kats.map (ComputeTestVector P xof) = vs.map .ok)) ∧
      ((mainErr P xof lines fail).ending = .ok →
        ∃ vs, mainErr P xof lines fail = { stdout := [vs], ending := .ok }) ∧
      ((e.isEOF = false ∨ ∃ kat ∈ kats, ∀ v, ComputeTestVector P xof kat ≠ .ok v) →
        ∃ err, mainErr P xof lines fail = { stdout := [], ending := .error err }) := by
  obtain ⟨kats, e, hitems, _⟩ := streamItems_shape lines fail
  refine ⟨kats, e, hitems, ?_⟩
  have hrun : (StreamKATs lines fail (mainBody P xof) { vectors := [], returned := none }).1 =
      feed (mainBody P xof) (kats.map .ok ++ [.error e]) { vectors := [], returned := none } := by
    rw [← hitems]
    exact streamLoop_feed (mainBody P xof) _ _ _
  obtain ⟨h1, h2⟩ := feed_mainBody P xof e kats []
  by_cases hall : ∃ vs : List TestVector, kats.map (ComputeTestVector P xof) = vs.map .ok
  · obtain ⟨vs, hvs⟩ := hall
    have hfeed := h1 vs hvs
    have hinj : ∀ vs', kats.map (ComputeTestVector P xof) = vs'.map .ok → vs' = vs := by
      intro vs' h
      rw [hvs] at h
      exact (List.map_injective_iff.mpr (fun a b hab => by cases hab; rfl) h).symm
    have hnofail : ¬ ∃ kat ∈ kats, ∀ v, ComputeTestVector P xof kat ≠ .ok v := by
      rintro ⟨kat, hmem, hno⟩
      have : ComputeTestVector P xof kat ∈ kats.map (ComputeTestVector P xof) :=
        List.mem_map_of_mem _ hmem
      rw [hvs] at this
      obtain ⟨v, _, hv⟩ := List.mem_map.mp this
      exact hno v hv.symm
    by_cases he : e.isEOF = true
    · have hm : mainErr P xof lines fail = { stdout := [vs], ending := .ok } := by
        simp only [mainErr, hrun, hfeed, he, if_true, List.nil_append]
      refine ⟨?_, ?_, ?_⟩
      · intro vs'
        constructor
        · intro h
          rw [hm] at h
          simp only [MainResult.mk.injEq, List.cons.injEq, and_true] at h
          subst h
          exact ⟨he, hvs⟩
        · rintro ⟨_, h⟩
          rw [hinj vs' h]
          exact hm
      · intro _; exact ⟨vs, hm⟩
      · rintro (h | h)
        · rw [he] at h; cases h
        · exact absurd h hnofail
    · have hm : mainErr P xof lines fail =
          { stdout := [], ending := .error (.iterate e) } := by
        simp only [mainErr, hrun, hfeed, he, if_false, Bool.false_eq_true]
      refine ⟨?_, ?_, ?_⟩
      · intro vs'
        rw [hm]
        simp [he]
      · intro h; rw [hm] at h; cases h
      · intro _; exact ⟨_, hm⟩
  · obtain ⟨vs1, ce, hfeed⟩ := h2 hall
    have hm : mainErr P xof lines fail = { stdout := [], ending := .error (.convert ce) } := by
      simp only [mainErr, hrun, hfeed]
    refine ⟨?_, ?_, ?_⟩
    · intro vs'
      rw [hm]
      constructor
      · intro h; simp at h
      · rintro ⟨_, h⟩; exact absurd ⟨vs', h⟩ hall
    · intro h; rw [hm] at h; cases h
    · intro _; exact ⟨_, hm⟩

/-! ## Theorems: the checks of `ComputeTestVector`, one by one -/

/-- The run of `ComputeTestVector` once xi, rng, pk, sk, msg and ctx have passed their
checks: what is left is the check of sm and what follows it. -/
theorem ComputeTestVector_after_ctx {SK PK : Type} (P : Primitives SK PK)
    (xof : Bytes → Nat → Nat) (input : KATInput)
    (seed entropy pk sk msg ctx : Bytes) (p : ParameterSet) (sigSize : Nat)
    (hxi : DecodeString input.Xi = .ok seed) (hxi' : seed.length = 32)
    (hrng : DecodeString input.RNG = .ok entropy) (hrng' : entropy.length = 32)
    (hpk : DecodeString input.PK = .ok pk) (hp : p.PublicKeySize = .ok pk.length)
    (hsk : DecodeString input.SK = .ok sk) (hsk' : p.SecretKeySize = .ok sk.length)
    (hmsg : DecodeString input.Msg = .ok msg) (hctx : DecodeString input.Ctx = .ok ctx)
    (hsig : p.SignatureSize = .ok sigSize) :
    ComputeTestVector P xof input =
      match decodeHexAndCheckLength input.SM (sigSize + msg.length : Nat) with
      | .error e => .error (.invalidSm e)
      | .ok sigMessage =>
      match sliceTo sigMessage sigSize with
      | .error m => .panic m
      | .ok sig =>
      match p.ExpandSeed P seed with
      | .error m => .panic m
      | .ok key =>
      if sk ≠ P.EncodeExpanded key then
        .error (.unexpectedSecretKey sk (P.EncodeExpanded key))
      else
      if pk ≠ P.Bytes (P.PublicKey key) then
        .error (.unexpectedPublicKey sk (P.Bytes (P.PublicKey key)))
      else
      if !P.VerifyWithOptions (P.PublicKey key) msg sig ctx then .error .couldNotVerifySignature
      else
      match (computeExternalMu xof pk ctx msg).1 with
      | .error e => .error (.computingMu e)
      | .ok mu =>
      if !P.VerifyWithExternalMU (P.PublicKey key) mu sig then .error .couldNotVerifyMu
      else
      match p.String with
      | .error m => .panic m
      | .ok name =>
        .ok { ParameterSet := name, Seed := seed, PublicKey := P.Bytes (P.PublicKey key),
              SecretKey := P.EncodeExpanded key, Entropy := entropy, Message := msg,
              Context := ctx, Mu := mu, Signature := sig } := by
  have h1 : decodeHexAndCheckLength input.Xi 32 = .ok seed := by
    rw [decodeHexAndCheckLength_ok_iff]; exact ⟨hxi, by omega⟩
  have h2 : decodeHexAndCheckLength input.RNG 32 = .ok entropy := by
    rw [decodeHexAndCheckLength_ok_iff]; exact ⟨hrng, by omega⟩
  have h4 : resolveParams pk.length = some p := (resolveParams_eq_some_iff _ _).mpr hp
  have h6 : decodeHexAndCheckLength input.SK (sk.length : Nat) = .ok sk := by
    rw [decodeHexAndCheckLength_ok_iff]; exact ⟨hsk, rfl⟩
  unfold ComputeTestVector
  rw [h1]; dsimp only
  rw [h2]; dsimp only
  rw [hpk]; dsimp only
  rw [h4]; dsimp only
  rw [hsk']; dsimp only
  rw [h6]; dsimp only
  rw [hmsg]; dsimp only
  rw [hctx]; dsimp only
  rw [hsig]
  try rfl

/-- The checked decoding of valid hex of another length fails with the length error. -/
theorem decodeHexAndCheckLength_length_error (data : Str) (n : Int) (bs : Bytes)
    (h : DecodeString data = .ok bs) (hn : (bs.length : Int) ≠ n) :
    decodeHexAndCheckLength data n = .error (.unexpectedLength bs.length) := by
  simp [decodeHexAndCheckLength, h, hn]

/-- The run of `ComputeTestVector` once every field has passed its decoding and length
check: what is left are the comparisons of the keys and the two verifications, on the
key expanded from the seed and the leading bytes of sm. -/
theorem ComputeTestVector_after_sm {SK PK : Type} (P : Primitives SK PK)
    (xof : Bytes → Nat → Nat) (input : KATInput)
    (seed entropy pk sk msg ctx sm : Bytes) (p : ParameterSet) (sigSize : Nat)
    (hxi : DecodeString input.Xi = .ok seed) (hxi' : seed.length = 32)
    (hrng : DecodeString input.RNG = .ok entropy) (hrng' : entropy.length = 32)
    (hpk : DecodeString input.PK = .ok pk) (hp : p.PublicKeySize = .ok pk.length)
    (hsk : DecodeString input.SK = .ok sk) (hsk' : p.SecretKeySize = .ok sk.length)
    (hmsg : DecodeString input.Msg = .ok msg) (hctx : DecodeString input.Ctx = .ok ctx)
    (hsig : p.SignatureSize = .ok sigSize)
    (hsm : DecodeString input.SM = .ok sm) (hlen : sm.length = sigSize + msg.length) :
    ComputeTestVector P xof input =
      if sk ≠ P.EncodeExpanded (P.fromSeed p seed) then
        .error (.unexpectedSecretKey sk (P.EncodeExpanded (P.fromSeed p seed)))
      else
      if pk ≠ P.Bytes (P.PublicKey (P.fromSeed p seed)) then
        .error (.unexpectedPublicKey sk (P.Bytes (P.PublicKey (P.fromSeed p seed))))
      else
      if !P.VerifyWithOptions (P.PublicKey (P.fromSeed p seed)) msg (sm.take sigSize) ctx then
        .error .couldNotVerifySignature
      else
      match (computeExternalMu xof pk ctx msg).1 with
      | .error e => .error (.computingMu e)
      | .ok mu =>
      if !P.VerifyWithExternalMU (P.PublicKey (P.fromSeed p seed)) mu (sm.take sigSize) then
        .error .couldNotVerifyMu
      else
      match p.String with
      | .error m => .panic m
      | .ok name =>
        .ok { ParameterSet := name, Seed := seed,
              PublicKey := P.Bytes (P.PublicKey (P.fromSeed p seed)),
              SecretKey := P.EncodeExpanded (P.fromSeed p seed), Entropy := entropy,
              Message := msg, Context := ctx, Mu := mu, Signature := sm.take sigSize } := by
  have hne : p ≠ .Unspecified := by
    rintro rfl
    simp [ParameterSet.PublicKeySize] at hp
  have h10 : decodeHexAndCheckLength input.SM (sigSize + msg.length : Nat) = .ok sm := by
    rw [decodeHexAndCheckLength_ok_iff]; exact ⟨hsm, by omega⟩
  have h11 : sliceTo sm sigSize = .ok (sm.take sigSize) :=
    (sliceTo_eq_ok_iff _ _ _).mpr ⟨by omega, rfl⟩
  have h12 : p.ExpandSeed P seed = .ok (P.fromSeed p seed) :=
    (ExpandSeed_eq_ok_iff _ _ _ _).mpr ⟨hne, hxi', rfl⟩
  rw [ComputeTestVector_after_ctx P xof input seed entropy pk sk msg ctx p sigSize hxi hxi'
    hrng hrng' hpk hp hsk hsk' hmsg hctx hsig, h10]
  dsimp only
  rw [h11]
  dsimp only
  rw [h12]

/-- C13: when xi, rng, pk, sk, msg and ctx pass their decoding and length checks, with `p`
the parameter set of the public key, and sm is valid hex whose decoded length is not
`SignatureSize(p) + len(msg)`, `ComputeTestVector` fails with the error of the sm field
that reports the decoded length. No primitive of the signature scheme is involved: the
result is the same for all of them, so it is reached before the key is expanded and
before any verification. -/
theorem C13_sm_length_mismatch (input : KATInput)
    (seed entropy pk sk msg ctx sm : Bytes) (p : ParameterSet) (sigSize : Nat)
    (hxi : DecodeString input.Xi = .ok seed) (hxi' : seed.length = 32)
    (hrng : DecodeString input.RNG = .ok entropy) (hrng' : entropy.length = 32)
    (hpk : DecodeString input.PK = .ok pk) (hp : p.PublicKeySize = .ok pk.length)
    (hsk : DecodeString input.SK = .ok sk) (hsk' : p.SecretKeySize = .ok sk.length)
    (hmsg : DecodeString input.Msg = .ok msg) (hctx : DecodeString input.Ctx = .ok ctx)
    (hsig : p.SignatureSize = .ok sigSize)
    (hsm : DecodeString input.SM = .ok sm) (hlen : sm.length ≠ sigSize + msg.length) :
    ∀ (SK PK : Type) (P : Primitives SK PK) (xof : Bytes → Nat → Nat),
      ComputeTestVector P xof input = .error (.invalidSm (.unexpectedLength sm.length)) := by
  intro SK PK P xof
  rw [ComputeTestVector_after_ctx P xof input seed entropy pk sk msg ctx p sigSize hxi hxi'
    hrng hrng' hpk hp hsk hsk' hmsg hctx hsig,
    decodeHexAndCheckLength_length_error input.SM _ sm hsm (by omega)]

/-- C13, an instance: the sample record with sm cut by one byte. -/
theorem C13_sm_length_mismatch_witness :
    ComputeTestVector samplePrimitives sampleXof sampleInputShortSM =
      .error (.invalidSm (.unexpectedLength (List.replicate 2419 0).length)) :=
  C13_sm_length_mismatch sampleInputShortSM (List.replicate 32 0) (List.replicate 32 0)
    (List.replicate 1312 0) (List.replicate 2560 0) [] [] (List.replicate 2419 0) .MLDSA44 2420
    (DecodeString_zeros 32) (List.length_replicate _ _)
    (DecodeString_zeros 32) (List.length_replicate _ _)
    (DecodeString_zeros 1312) (by rw [List.length_replicate]; rfl)
    (DecodeString_zeros 2560) (by rw [List.length_replicate]; rfl)
    rfl rfl rfl (DecodeString_zeros 2419) (by rw [List.length_replicate]; decide)
    ParameterSet ParameterSet samplePrimitives sampleXof

/-- C12: on an input `ComputeTestVector` accepts, replacing only the sk field by hex that
decodes to as many bytes, but other bytes, makes it fail with the secret-key mismatch
error, which carries the new decoded sk and the encoding derived from the seed, the
latter being the old decoded sk. No vector is returned and no later check is reached:
the result is the same whatever the public key, the two verifications and the hash
are. -/
theorem C12_secret_key_mismatch {SK PK : Type} (P : Primitives SK PK)
    (xof : Bytes → Nat → Nat) (input : KATInput) (tv : TestVector) (sk' : Str)
    (b b' : Bytes)
    (hok : ComputeTestVector P xof input = .ok tv)
    (hb : DecodeString input.SK = .ok b) (hb' : DecodeString sk' = .ok b')
    (hlen : b'.length = b.length) (hne : b' ≠ b) :
    ComputeTestVector P xof { input with SK := sk' } = .error (.unexpectedSecretKey b' b) ∧
    ∀ (P' : Primitives SK PK) (xof' : Bytes → Nat → Nat),
      P'.fromSeed = P.fromSeed → P'.EncodeExpanded = P.EncodeExpanded →
      ComputeTestVector P' xof' { input with SK := sk' } =
        .error (.unexpectedSecretKey b' b) := by
  obtain ⟨seed, h1, entropy, h2, pk, h3, p, h4, skSize, h5, sk, h6, msg, h7, ctx, h8,
    sigSize, h9, sm, h10, sig, h11, key, h12, h13, h14, h15, mu, h16, h17, name, h18, _⟩ :=
    (ComputeTestVector_ok_iff P xof input tv).mp hok
  rw [decodeHexAndCheckLength_ok_iff] at h1 h2 h6 h10
  obtain ⟨_, _, hkey⟩ := (ExpandSeed_eq_ok_iff _ _ _ _).mp h12
  have hsk : sk = b := by
    have := h6.1
    rw [hb] at this
    cases this
    rfl
  subst hsk
  subst hkey
  have hall : ∀ (P' : Primitives SK PK) (xof' : Bytes → Nat → Nat),
      P'.fromSeed = P.fromSeed → P'.EncodeExpanded = P.EncodeExpanded →
      ComputeTestVector P' xof' { input with SK := sk' } =
        .error (.unexpectedSecretKey b' sk) := by
    intro P' xof' hf he
    rw [ComputeTestVector_after_sm P' xof' { input with SK := sk' } seed entropy pk b' msg ctx
      sm p sigSize h1.1 (by have := h1.2; omega) h2.1 (by have := h2.2; omega) h3
      ((resolveParams_eq_some_iff _ _).mp h4) hb'
      (by rw [h5]; congr 1; have := h6.2; omega) h7 h8 h9 h10.1 (by have := h10.2; omega)]
    rw [he, hf, ← h13, if_pos hne]
  exact ⟨hall P xof rfl rfl, hall⟩

/-- Decoding the digits `01` followed by a run of the digit `0`. -/
theorem DecodeString_one_zeros (n : Nat) :
    DecodeString ('0' :: '1' :: List.replicate (2 * n) '0') = .ok (1 :: List.replicate n 0) := by
  rw [DecodeString, DecodeString_zeros n]
  rfl

/-- A list that starts with 1 is not a run of zeros. -/
theorem one_cons_ne_zeros (l : Bytes) (n : Nat) : 1 :: l ≠ List.replicate (n + 1) 0 := by
  rw [List.replicate_succ]
  intro h
  cases h

/-- C12, an instance: the sample record, with 1 as the first byte of sk. -/
theorem C12_secret_key_mismatch_witness :
    ComputeTestVector samplePrimitives sampleXof sampleInputOtherSK =
        .error (.unexpectedSecretKey (1 :: List.replicate 2559 0) (List.replicate 2560 0)) ∧
    ∀ (P' : Primitives ParameterSet ParameterSet) (xof' : Bytes → Nat → Nat),
      P'.fromSeed = samplePrimitives.fromSeed →
      P'.EncodeExpanded = samplePrimitives.EncodeExpanded →
      ComputeTestVector P' xof' sampleInputOtherSK =
        .error (.unexpectedSecretKey (1 :: List.replicate 2559 0) (List.replicate 2560 0)) :=
  C12_secret_key_mismatch samplePrimitives sampleXof sampleInput sampleVector
    sampleInputOtherSK.SK (List.replicate 2560 0) (1 :: List.replicate 2559 0)
    ComputeTestVector_sample (DecodeString_zeros 2560) (DecodeString_one_zeros 2559)
    (by rw [List.length_cons, List.length_replicate, List.length_replicate])
    (one_cons_ne_zeros _ 2559)

/-- The display names of the parameter sets are pairwise distinct. -/
theorem String_injective (p q : ParameterSet) (name : Text) (hp : p.String = .ok name)
    (hq : q.String = .ok name) : q = p := by
  cases p <;> cases q <;> simp_all [ParameterSet.String] <;>
    (subst hp; exact absurd hq (by decide))

/-- C15: every test vector `ComputeTestVector` returns has a seed and an entropy of 32
bytes, a context of at most 255 bytes, a public key, a secret key and a signature of
exactly the sizes of the parameter set named in its ParameterSet field, and as Mu the 64
bytes squeezed by the hash. In particular, on an input whose decoded ctx is longer than
255 bytes `ComputeTestVector` returns an error, whatever the primitives answer. -/
theorem C15_size_invariant {SK PK : Type} (P : Primitives SK PK) (xof : Bytes → Nat → Nat)
    (input : KATInput) :
    (∀ tv, ComputeTestVector P xof input = .ok tv →
      tv.Seed.length = 32 ∧ tv.Entropy.length = 32 ∧ tv.Context.length ≤ 255 ∧
      (∃ p : ParameterSet,
        p.String = .ok tv.ParameterSet ∧
        (∀ q : ParameterSet, q.String = .ok tv.ParameterSet → q = p) ∧
        p.PublicKeySize = .ok tv.PublicKey.length ∧
        p.SecretKeySize = .ok tv.SecretKey.length ∧
        p.SignatureSize = .ok tv.Signature.length) ∧
      tv.Mu.length = 64 ∧
      tv.Mu = H xof (H xof tv.PublicKey 64 ++ [0] ++ [tv.Context.length] ++ tv.Context ++
        tv.Message) 64 ∧
      DecodeString input.Ctx = .ok tv.Context) ∧
    (∀ ctx, DecodeString input.Ctx = .ok ctx → 255 < ctx.length →
      ∃ e, ComputeTestVector P xof input = .error e) := by
  have hfields : ∀ tv, ComputeTestVector P xof input = .ok tv →
      tv.Seed.length = 32 ∧ tv.Entropy.length = 32 ∧ tv.Context.length ≤ 255 ∧
      (∃ p : ParameterSet,
        p.String = .ok tv.ParameterSet ∧
        (∀ q : ParameterSet, q.String = .ok tv.ParameterSet → q = p) ∧
        p.PublicKeySize = .ok tv.PublicKey.length ∧
        p.SecretKeySize = .ok tv.SecretKey.length ∧
        p.SignatureSize = .ok tv.Signature.length) ∧
      tv.Mu.length = 64 ∧
      tv.Mu = H xof (H xof tv.PublicKey 64 ++ [0] ++ [tv.Context.length] ++ tv.Context ++
        tv.Message) 64 ∧
      DecodeString input.Ctx = .ok tv.Context := by
    intro tv h
    obtain ⟨seed, h1, entropy, h2, pk, h3, p, h4, skSize, h5, sk, h6, msg, h7, ctx, h8,
      sigSize, h9, sm, h10, sig, h11, key, h12, h13, h14, h15, mu, h16, h17, name, h18, htv⟩ :=
      (ComputeTestVector_ok_iff P xof input tv).mp h
    rw [decodeHexAndCheckLength_ok_iff] at h1 h2 h6 h10
    rw [sliceTo_eq_ok_iff] at h11
    have hctx : ctx.length ≤ 255 := (computeExternalMu_ok_iff xof pk ctx msg).mp ⟨mu, h16⟩
    have hmu : mu = H xof (H xof pk 64 ++ [0] ++ [ctx.length] ++ ctx ++ msg) 64 := by
      rw [computeExternalMu_eq xof pk ctx msg hctx] at h16
      cases h16
      rfl
    have hpk := (resolveParams_eq_some_iff _ _).mp h4
    subst htv
    dsimp only
    refine ⟨by have := h1.2; omega, by have := h2.2; omega, hctx,
      ⟨p, h18, fun q hq => String_injective p q name h18 hq, ?_, ?_, ?_⟩, ?_, ?_, h8⟩
    · rw [← h14]; exact hpk
    · rw [← h13, h5]; congr 1; have := h6.2; omega
    · rw [h9]; congr 1
      have := h10.2
      simp only [h11.2, List.length_take]
      omega
    · rw [hmu]; exact H_length _ _ _
    · rw [← h14]
      exact hmu
  refine ⟨hfields, ?_⟩
  intro ctx hctx hlong
  cases h : ComputeTestVector P xof input with
  | ok tv =>
    obtain ⟨_, _, hle, _, _, _, hdec⟩ := hfields tv h
    rw [hctx] at hdec
    cases hdec
    omega
  | error e => exact ⟨e, rfl⟩
  | panic m => exact absurd h (ComputeTestVector_no_panic P xof input m)

/-- C18: no branch of `ComputeTestVector` that panics is reachable. The methods of a
parameter set panic exactly on `ParameterSetUnspecified`, `ExpandSeed` also on a seed
that is not 32 bytes, and the slice exactly when it is longer than the data; but the
seed decoded by `ComputeTestVector` has 32 bytes, the parameter set it resolves is one of
the three, and the decoded sm has `SignatureSize(p) + len(msg)` bytes, so the slice of
`SignatureSize(p)` bytes is within bounds. Hence `ComputeTestVector` never panics. -/
theorem C18_no_panic {SK PK : Type} (P : Primitives SK PK) (xof : Bytes → Nat → Nat)
    (input : KATInput) :
    (∀ m, ComputeTestVector P xof input ≠ .panic m) ∧
    (∀ p : ParameterSet,
      ((∃ m, p.String = .error m) ↔ p = .Unspecified) ∧
      ((∃ m, p.SecretKeySize = .error m) ↔ p = .Unspecified) ∧
      ((∃ m, p.SignatureSize = .error m) ↔ p = .Unspecified) ∧
      (∀ seed, (∃ m, p.ExpandSeed P seed = .error m) ↔
        (p = .Unspecified ∨ seed.length ≠ 32))) ∧
    (∀ (s : Bytes) (n : Nat), (∃ m, sliceTo s n = .error m) ↔ s.length < n) ∧
    (∀ seed pk p, decodeHexAndCheckLength input.Xi 32 = .ok seed →
      DecodeString input.PK = .ok pk → resolveParams pk.length = some p →
      seed.length = 32 ∧ p ≠ .Unspecified ∧ ∃ key, p.ExpandSeed P seed = .ok key) ∧
    (∀ pk p sigSize msg sigMessage, DecodeString input.PK = .ok pk →
      resolveParams pk.length = some p → p.SignatureSize = .ok sigSize →
      DecodeString input.Msg = .ok msg →
      decodeHexAndCheckLength input.SM (sigSize + msg.length : Nat) = .ok sigMessage →
      sigMessage.length = sigSize + msg.length ∧ sigSize ≤ sigMessage.length ∧
        sliceTo sigMessage sigSize = .ok (sigMessage.take sigSize)) := by
  refine ⟨ComputeTestVector_no_panic P xof input, ?_, ?_, ?_, ?_⟩
  · intro p
    refine ⟨?_, ?_, ?_, ?_⟩
    · cases p <;> simp [ParameterSet.String]
    · cases p <;> simp [ParameterSet.SecretKeySize]
    · cases p <;> simp [ParameterSet.SignatureSize]
    · intro seed
      by_cases h : seed.length = 32 <;>
        cases p <;> simp [ParameterSet.ExpandSeed, PrivateKeyFromSeed, h]
  · intro s n
    by_cases h : n ≤ s.length
    · simp [sliceTo, h]
    · simp [sliceTo, h]; omega
  · intro seed pk p h1 _ h3
    rw [decodeHexAndCheckLength_ok_iff] at h1
    have hpk := (resolveParams_eq_some_iff _ _).mp h3
    have hne : p ≠ .Unspecified := by
      rintro rfl
      simp [ParameterSet.PublicKeySize] at hpk
    have hlen : seed.length = 32 := by have := h1.2; omega
    exact ⟨hlen, hne, _, (ExpandSeed_eq_ok_iff P p seed _).mpr ⟨hne, hlen, rfl⟩⟩
  · intro pk p sigSize msg sigMessage _ _ _ _ h
    rw [decodeHexAndCheckLength_ok_iff] at h
    have hlen : sigMessage.length = sigSize + msg.length := by have := h.2; omega
    exact ⟨hlen, by omega, (sliceTo_eq_ok_iff _ _ _).mpr ⟨by omega, rfl⟩⟩

/-- A run of zeros is not a run of ones. -/
theorem zeros_ne_ones (n : Nat) : List.replicate (n + 1) 0 ≠ List.replicate (n + 1) 1 := by
  rw [List.replicate_succ, List.replicate_succ]
  intro h
  cases h

/-- The secret key and the public key of a parameter set have different sizes. -/
theorem sizes_differ (p : ParameterSet) (n m : Nat) (hs : p.SecretKeySize = .ok n)
    (hp : p.PublicKeySize = .ok m) : n ≠ m := by
  cases p <;> simp [ParameterSet.SecretKeySize, ParameterSet.PublicKeySize] at hs hp <;> omega

/-- C19 fails on the code: when the secret key matches and the public key derived from
the seed differs from the decoded pk field, the error carries, as the value the record
had, the decoded sk field, and as the value the seed derives, the encoding of the derived
public key. The decoded sk is never the decoded pk, as their sizes differ. The sample
record under primitives that derive another public key is an instance. -/
theorem C19_public_key_mismatch_reports_secret_key :
    (∀ (SK PK : Type) (P : Primitives SK PK) (xof : Bytes → Nat → Nat) (input : KATInput)
      (seed entropy pk sk msg ctx sm : Bytes) (p : ParameterSet) (sigSize : Nat),
      DecodeString input.Xi = .ok seed → seed.length = 32 →
      DecodeString input.RNG = .ok entropy → entropy.length = 32 →
      DecodeString input.PK = .ok pk → p.PublicKeySize = .ok pk.length →
      DecodeString input.SK = .ok sk → p.SecretKeySize = .ok sk.length →
      DecodeString input.Msg = .ok msg → DecodeString input.Ctx = .ok ctx →
      p.SignatureSize = .ok sigSize →
      DecodeString input.SM = .ok sm → sm.length = sigSize + msg.length →
      sk = P.EncodeExpanded (P.fromSeed p seed) →
      pk ≠ P.Bytes (P.PublicKey (P.fromSeed p seed)) →
      ComputeTestVector P xof input =
        .error (.unexpectedPublicKey sk (P.Bytes (P.PublicKey (P.fromSeed p seed)))) ∧
      sk ≠ pk) ∧
    DecodeString sampleInput.PK = .ok (List.replicate 1312 0) ∧
    DecodeString sampleInput.SK = .ok (List.replicate 2560 0) ∧
    ComputeTestVector samplePrimitivesOtherPK sampleXof sampleInput =
      .error (.unexpectedPublicKey (List.replicate 2560 0) (List.replicate 1312 1)) ∧
    List.replicate 2560 0 ≠ List.replicate 1312 0 := by
  have hgen : ∀ (SK PK : Type) (P : Primitives SK PK) (xof : Bytes → Nat → Nat)
      (input : KATInput) (seed entropy pk sk msg ctx sm : Bytes) (p : ParameterSet)
      (sigSize : Nat),
      DecodeString input.Xi = .ok seed → seed.length = 32 →
      DecodeString input.RNG = .ok entropy → entropy.length = 32 →
      DecodeString input.PK = .ok pk → p.PublicKeySize = .ok pk.length →
      DecodeString input.SK = .ok sk → p.SecretKeySize = .ok sk.length →
      DecodeString input.Msg = .ok msg → DecodeString input.Ctx = .ok ctx →
      p.SignatureSize = .ok sigSize →
      DecodeString input.SM = .ok sm → sm.length = sigSize + msg.length →
      sk = P.EncodeExpanded (P.fromSeed p seed) →
      pk ≠ P.Bytes (P.PublicKey (P.fromSeed p seed)) →
      ComputeTestVector P xof input =
        .error (.unexpectedPublicKey sk (P.Bytes (P.PublicKey (P.fromSeed p seed)))) ∧
      sk ≠ pk := by
    intro SK PK P xof input seed entropy pk sk msg ctx sm p sigSize hxi hxi' hrng hrng' hpk hp
      hsk hsk' hmsg hctx hsig hsm hlen heq hne
    constructor
    · rw [ComputeTestVector_after_sm P xof input seed entropy pk sk msg ctx sm p sigSize hxi
        hxi' hrng hrng' hpk hp hsk hsk' hmsg hctx hsig hsm hlen]
      have h1 : ¬ sk ≠ P.EncodeExpanded (P.fromSeed p seed) := fun h => h heq
      rw [if_neg h1, if_pos hne]
    · intro h
      exact sizes_differ p sk.length pk.length hsk' hp (by rw [h])
  refine ⟨hgen, DecodeString_zeros 1312, DecodeString_zeros 2560, ?_, ?_⟩
  · refine (hgen _ _ samplePrimitivesOtherPK sampleXof sampleInput (List.replicate 32 0)
      (List.replicate 32 0) (List.replicate 1312 0) (List.replicate 2560 0) [] []
      (List.replicate 2420 0) .MLDSA44 2420
      (DecodeString_zeros 32) (List.length_replicate _ _)
      (DecodeString_zeros 32) (List.length_replicate _ _)
      (DecodeString_zeros 1312) (by rw [List.length_replicate]; rfl)
      (DecodeString_zeros 2560) (by rw [List.length_replicate]; rfl)
      rfl rfl rfl (DecodeString_zeros 2420) (by rw [List.length_replicate]; rfl) rfl ?_).1
    exact zeros_ne_ones 1311
  · intro h
    have := congrArg List.length h
    rw [List.length_replicate, List.length_replicate] at this
    omega

/-- The bytes absorbed in the second stage of `computeExternalMu`: `tr`, the byte 0, the
length byte, the context and the message. -/
theorem absorbedSinceReset_computeExternalMu (xof : Bytes → Nat → Nat) (pk ctx msg : Bytes)
    (hctx : ctx.length ≤ 255) :
    absorbedSinceReset (computeExternalMu xof pk ctx msg).2 =
      H xof pk 64 ++ ([0] ++ [ctx.length] ++ ctx ++ msg) := by
  rw [computeExternalMu_eq xof pk ctx msg hctx]
  simp [absorbedSinceReset]

/-- The bytes absorbed after `tr` determine the context and the message. -/
theorem MPrime_injective (c1 c2 m1 m2 : Bytes)
    (h : [0] ++ [c1.length] ++ c1 ++ m1 = [0] ++ [c2.length] ++ c2 ++ m2) :
    c1 = c2 ∧ m1 = m2 := by
  have h' : c1.length :: (c1 ++ m1) = c2.length :: (c2 ++ m2) := List.tail_eq_of_cons_eq h
  exact List.append_inj (List.tail_eq_of_cons_eq h') (List.head_eq_of_cons_eq h')

/-- C20: for contexts of at most 255 bytes, what `computeExternalMu` absorbs in its second
stage is `tr` followed by `[0] ++ [len ctx] ++ ctx ++ msg`, and these bytes determine
the context and the message: two pairs of context and message with the same such bytes
are equal, so two different pairs never feed the same input to the second stage for
the same public key. -/
theorem C20_second_stage_input_injective (xof : Bytes → Nat → Nat) (pk c1 c2 m1 m2 : Bytes)
    (h1 : c1.length ≤ 255) (h2 : c2.length ≤ 255) :
    absorbedSinceReset (computeExternalMu xof pk c1 m1).2 =
      H xof pk 64 ++ ([0] ++ [c1.length] ++ c1 ++ m1) ∧
    ([0] ++ [c1.length] ++ c1 ++ m1 = [0] ++ [c2.length] ++ c2 ++ m2 → c1 = c2 ∧ m1 = m2) ∧
    (absorbedSinceReset (computeExternalMu xof pk c1 m1).2 =
        absorbedSinceReset (computeExternalMu xof pk c2 m2).2 → c1 = c2 ∧ m1 = m2) := by
  refine ⟨absorbedSinceReset_computeExternalMu xof pk c1 m1 h1, MPrime_injective c1 c2 m1 m2, ?_⟩
  intro h
  rw [absorbedSinceReset_computeExternalMu xof pk c1 m1 h1,
    absorbedSinceReset_computeExternalMu xof pk c2 m2 h2] at h
  exact MPrime_injective c1 c2 m1 m2 (List.append_cancel_left h)

/-- C20, an instance: a context of one byte and a message of one byte. -/
theorem C20_second_stage_input_injective_witness :
    absorbedSinceReset (computeExternalMu sampleXof [1, 2] [3] [4]).2 =
      H sampleXof [1, 2] 64 ++ ([0] ++ [1] ++ [3] ++ [4]) ∧
    ([0] ++ [1] ++ [3] ++ [4] = [0] ++ [1] ++ [3] ++ [4] →
      ([3] : Bytes) = [3] ∧ ([4] : Bytes) = [4]) ∧
    (absorbedSinceReset (computeExternalMu sampleXof [1, 2] [3] [4]).2 =
        absorbedSinceReset (computeExternalMu sampleXof [1, 2] [3] [4]).2 →
      ([3] : Bytes) = [3] ∧ ([4] : Bytes) = [4]) :=
  C20_second_stage_input_injective sampleXof [1, 2] [3] [3] [4] [4] (by decide) (by decide)

/-! ## Theorems: blank lines before a line of the input -/

/-- The last line of an input that goes on after some lines is the last line of what
follows. -/
theorem getLast?_append_of_ne_nil (pre post : List Str) (h : post ≠ []) :
    (pre ++ post).getLast? = post.getLast? := by
  induction pre with
  | nil => rfl
  | cons l ls ih =>
    cases hls : ls ++ post with
    | nil => simp [h] at hls
    | cons x xs =>
      rw [List.cons_append, hls, List.getLast?_cons_cons, ← hls, ih]

/-- C16 (amended): blank lines are transparent to the scanner when every line is shorter
than the 65536 bytes of the scanner's buffer. Two inputs with the same lines that are not
blank, in the same order, neither of them ending in a blank line, give the same results
to successive calls of `scanCase`: the same records, then the same `io.EOF` or error. In
particular a blank line, empty or a lone carriage return, inserted before a line of the
input changes nothing. -/
theorem C16_blank_lines_transparent (lines lines' : List Str) (fail : Option ReadError)
    (n : Nat) (hsame : nonBlank lines = nonBlank lines')
    (hlast : (lines.map dropCR).getLast? ≠ some [])
    (hlast' : (lines'.map dropCR).getLast? ≠ some [])
    (hfit : ∀ l ∈ lines, l.length < MaxScanTokenSize) :
    scanCalls n (NewScanner lines fail) = scanCalls n (NewScanner lines' fail) ∧
    ∀ (pre post : List Str) (blank : Str), lines = pre ++ post → post ≠ [] →
      dropCR blank = [] →
      scanCalls n (NewScanner (pre ++ blank :: post) fail) =
        scanCalls n (NewScanner lines fail) := by
  have key : ∀ l1 l2 : List Str, nonBlank l1 = nonBlank l2 →
      (l1.map dropCR).getLast? ≠ some [] → (l2.map dropCR).getLast? ≠ some [] →
      (∀ l ∈ l1, l.length < MaxScanTokenSize) →
      scanCalls n (NewScanner l1 fail) = scanCalls n (NewScanner l2 fail) := by
    intro l1 l2 h h1 h2 hf
    have hf2 : ∀ l ∈ l2, l.length < MaxScanTokenSize := by
      intro l hl
      by_cases hb : dropCR l = []
      · exact length_of_dropCR_nil l hb
      · have hmem : l ∈ nonBlank l2 := List.mem_filter.mpr ⟨hl, by simpa using hb⟩
        rw [← h] at hmem
        exact hf l (mem_of_mem_nonBlank l1 l hmem)
    rw [scanCalls_nonBlank n (NewScanner l1 fail) h1 hf,
      scanCalls_nonBlank n (NewScanner l2 fail) h2 hf2]
    simp only [NewScanner, h]
  refine ⟨key lines lines' hsame hlast hlast' hfit, ?_⟩
  intro pre post blank hl hpost hblank
  subst hl
  apply (key (pre ++ post) (pre ++ blank :: post) _ hlast _ hfit).symm
  · simp [nonBlank, hblank]
  · rw [List.map_append, getLast?_append_of_ne_nil _ _ (by simpa using hpost)] at hlast
    rw [List.map_append, List.map_cons,
      getLast?_append_of_ne_nil _ _ (by simp)]
    cases post with
    | nil => exact absurd rfl hpost
    | cons x xs =>
      rw [List.map_cons, List.getLast?_cons_cons]
      exact hlast

/-- C16, an instance: one record, with an empty line between its fields or before it. -/
theorem C16_blank_lines_transparent_witness :
    scanCalls 2 (NewScanner ["a = 1".toList, [], "b = 2".toList] none) =
      scanCalls 2 (NewScanner [[], "a = 1".toList, "b = 2".toList] none) ∧
    ∀ (pre post : List Str) (blank : Str),
      ["a = 1".toList, [], "b = 2".toList] = pre ++ post → post ≠ [] → dropCR blank = [] →
      scanCalls 2 (NewScanner (pre ++ blank :: post) none) =
        scanCalls 2 (NewScanner ["a = 1".toList, [], "b = 2".toList] none) :=
  C16_blank_lines_transparent ["a = 1".toList, [], "b = 2".toList]
    [[], "a = 1".toList, "b = 2".toList] none 2 (by decide) (by decide) (by decide)
    (by decide)

/-- C16 as stated fails: the input with the line `a = 1` and a line longer than the buffer
of the scanner, and the same input with an empty line between the two, have the same
lines that are not blank and do not end in a blank line, but the first call of `scanCase`
returns the record of `a` on the first input and `ErrTooLong` on the second. -/
theorem C16_counterexample :
    nonBlank ["a = 1".toList, [], sampleLongLine] = nonBlank ["a = 1".toList, sampleLongLine] ∧
    (["a = 1".toList, sampleLongLine].map dropCR).getLast? ≠ some [] ∧
    (["a = 1".toList, [], sampleLongLine].map dropCR).getLast? ≠ some [] ∧
    scanCalls 1 (NewScanner ["a = 1".toList, sampleLongLine] none) =
      [.ok [("a".toList, "1".toList)]] ∧
    scanCalls 1 (NewScanner ["a = 1".toList, [], sampleLongLine] none) =
      [.error (.read ErrTooLong)] := by
  obtain ⟨hlen, hcr, _⟩ := sampleLongLine_props
  have hne : sampleLongLine ≠ [] := by
    intro h
    rw [h] at hlen
    simp [MaxScanTokenSize] at hlen
  have hb : dropCR ([] : Str) = [] := by decide
  have ha : dropCR "a = 1".toList = "a = 1".toList := by decide
  refine ⟨?_, ?_, ?_, (scanCalls_blank_before_long sampleLongLine hlen).1,
    (scanCalls_blank_before_long sampleLongLine hlen).2⟩
  · have hA : dropCR "a = 1".toList ≠ [] := by decide
    rw [nonBlank_cons_line "a = 1".toList _ hA, nonBlank_cons_blank [] _ hb,
      nonBlank_cons_line "a = 1".toList [sampleLongLine] hA]
  · simp only [List.map_cons, List.map_nil, List.getLast?_cons_cons, List.getLast?_singleton,
      hcr]
    simpa using hne
  · simp only [List.map_cons, List.map_nil, List.getLast?_cons_cons, List.getLast?_singleton,
      hcr]
    simpa using hne

/-- C17: the bytes of sm after the signature are not compared with msg. Two inputs that
differ only in sm, whose two sm fields decode to as many bytes and to the same leading
`SignatureSize(p)` bytes, `p` being the parameter set of the public key, get the same
result from `ComputeTestVector`, be it a test vector or an error. -/
theorem C17_trailing_bytes_ignored {SK PK : Type} (P : Primitives SK PK)
    (xof : Bytes → Nat → Nat) (input : KATInput) (sm' : Str) (sm1 sm2 : Bytes)
    (h1 : DecodeString input.SM = .ok sm1) (h2 : DecodeString sm' = .ok sm2)
    (hlen : sm1.length = sm2.length)
    (htake : ∀ (pk : Bytes) (p : ParameterSet) (sigSize : Nat), DecodeString input.PK = .ok pk →
      p.PublicKeySize = .ok pk.length → p.SignatureSize = .ok sigSize →
      sm1.take sigSize = sm2.take sigSize) :
    ComputeTestVector P xof { input with SM := sm' } = ComputeTestVector P xof input := by
  unfold ComputeTestVector
  dsimp only
  cases decodeHexAndCheckLength input.Xi 32 with
  | error e => rfl
  | ok seed =>
  dsimp only
  cases decodeHexAndCheckLength input.RNG 32 with
  | error e => rfl
  | ok entropy =>
  dsimp only
  cases hpk : DecodeString input.PK with
  | error e => rfl
  | ok publicKey =>
  dsimp only
  cases hp : resolveParams publicKey.length with
  | none => rfl
  | some params =>
  dsimp only
  cases params.SecretKeySize with
  | error e => rfl
  | ok skSize =>
  dsimp only
  cases decodeHexAndCheckLength input.SK skSize with
  | error e => rfl
  | ok secretKey =>
  dsimp only
  cases DecodeString input.Msg with
  | error e => rfl
  | ok msg =>
  dsimp only
  cases DecodeString input.Ctx with
  | error e => rfl
  | ok ctx =>
  dsimp only
  cases hsig : params.SignatureSize with
  | error e => rfl
  | ok sigSize =>
  dsimp only
  have ht := htake publicKey params sigSize hpk ((resolveParams_eq_some_iff _ _).mp hp) hsig
  by_cases hn : (sm1.length : Int) = ((sigSize + msg.length : Nat) : Int)
  · have hn' : (sm2.length : Int) = ((sigSize + msg.length : Nat) : Int) := by
      rw [← hlen]; exact hn
    have e1 : decodeHexAndCheckLength input.SM ((sigSize + msg.length : Nat) : Int) = .ok sm1 :=
      (decodeHexAndCheckLength_ok_iff _ _ _).mpr ⟨h1, hn⟩
    have e2 : decodeHexAndCheckLength sm' ((sigSize + msg.length : Nat) : Int) = .ok sm2 :=
      (decodeHexAndCheckLength_ok_iff _ _ _).mpr ⟨h2, hn'⟩
    rw [e1, e2]
    dsimp only
    have hs : sliceTo sm2 sigSize = sliceTo sm1 sigSize := by
      simp only [sliceTo, hlen, ht]
    rw [hs]
  · have hn' : (sm2.length : Int) ≠ ((sigSize + msg.length : Nat) : Int) := by
      rw [← hlen]; exact hn
    rw [decodeHexAndCheckLength_length_error input.SM _ sm1 h1 hn,
      decodeHexAndCheckLength_length_error sm' _ sm2 h2 hn', hlen]

/-- Decoding a run of the digit `0` followed by more hex. -/
theorem DecodeString_zeros_append (n : Nat) (s : Str) (bs : Bytes)
    (h : DecodeString s = .ok bs) :
    DecodeString (List.replicate (2 * n) '0' ++ s) = .ok (List.replicate n 0 ++ bs) := by
  induction n with
  | zero => simpa using h
  | succ k ih =>
    rw [show 2 * (k + 1) = (2 * k + 1) + 1 by omega, List.replicate_succ, List.replicate_succ,
      List.cons_append, List.cons_append, DecodeString, ih]
    rfl

/-- The leading bytes of a run of zeros with one more byte, whatever that byte is. -/
theorem take_zeros (n : Nat) (b : Nat) :
    (List.replicate (n + 1) 0).take n = (List.replicate n 0 ++ [b]).take n := by
  rw [List.take_left' (List.length_replicate n 0), List.take_replicate]
  congr 1
  omega

/-- C17, an instance: the sample record with a message of one byte, and the same record
with ff as the byte of sm after the signature. -/
theorem C17_trailing_bytes_ignored_witness :
    ComputeTestVector samplePrimitives sampleXof { sampleInputMsg with SM := sampleOtherSM } =
      ComputeTestVector samplePrimitives sampleXof sampleInputMsg :=
  C17_trailing_bytes_ignored samplePrimitives sampleXof sampleInputMsg sampleOtherSM
    (List.replicate (2420 + 1) 0) (List.replicate 2420 0 ++ [255])
    (DecodeString_zeros 2421) (DecodeString_zeros_append 2420 ['f', 'f'] [255] rfl)
    (by rw [List.length_append, List.length_replicate, List.length_replicate]; rfl)
    (by
      intro pk p sigSize hpk hp hsig
      have hpk' : pk = List.replicate 1312 0 := by
        have := DecodeString_zeros 1312
        rw [show sampleInputMsg.PK = List.replicate (2 * 1312) '0' from rfl] at hpk
        rw [this] at hpk
        cases hpk
        rfl
      subst hpk'
      rw [List.length_replicate] at hp
      have hs : sigSize = 2420 := by
        cases p <;>
          simp [ParameterSet.PublicKeySize, ParameterSet.SignatureSize] at hp hsig
        exact hsig.symm
      subst hs
      exact take_zeros 2420 255)

end Testvector
